import Mathlib

/-!
# Kidnapped-vehicle particle filter

A shallow embedding of the spatial partition index (`map/Partition2D.h`) and of the
particle filter (`filter/ParticleFilter.cpp`, `filter/ParticleFilter.h`).

Conventions of the embedding.

* `float` and `double` values are elements of an arbitrary linearly ordered field `K` with a
  floor function (the sample data are on `ℝ`). The file has two parts. In the first part
  arithmetic is exact and `int` values are `Int` without wrap-around: it describes the
  algorithms (the search loop, the order of the cells, the sequences kept by the filter). In
  the second part (the definitions whose names end in `M`) every `float` and `double`
  operation rounds its exact result to the nearest value of the format (IEEE 754 binary32 and
  binary64, ties to even, gradual underflow, no fused operations) and an `int` has 32 bits;
  a call then returns in `Except Fault`: a failed `assert`, undefined behaviour (signed
  overflow, a conversion to `int` out of range, an access outside a vector), or a floating
  result that is not finite. Infinities and NaN are not values of `K`: the second part follows
  `+inf` only through the denominator of the factor `p` of `updateWeights` (an overflow of
  `exp` gives `p = 0.5 / +inf = 0`); it says nothing about a computation after another
  operation has overflowed, and nothing about arguments that are infinite or NaN.
* Loop counters that only count up from zero are `Nat`.
* A pointer to a landmark is the landmark value, a null pointer is `none`; the cell table
  `std::vector<std::vector<T*>*>` is a list of optional lists.
* An access outside a vector in a mutating operation has no defined result: such operations
  return `Option`, with `none` for the undefined case and for a failed `assert`.
* The calls into the C math library, the helpers of `utils/helper_functions.h` and the values
  drawn from the random generator are explicit arguments.
-/

set_option linter.unusedVariables false
set_option linter.unusedSectionVars false

namespace KidnappedVehicle

section Definitions

variable {K : Type} [LinearOrderedField K] [FloorRing K]

/-! ## Helpers that the sources include from `utils/helper_functions.h` and `map/Map.h` -/

/-- Modelled from the spec: the landmark entity of `map/Map.h` (`Map::single_landmark_s`), which
the sources only use through `id()`, `x()` and `y()`: "any entity exposing (id, x, y)". -/
structure single_landmark_s (K : Type) where
  id : Int
  x : K
  y : K

/-- Modelled from the spec: the observation of `utils/helper_functions.h` (`LandmarkObs`),
"{ x: real, y: real } in the agent's local (vehicle) frame". -/
structure LandmarkObs (K : Type) where
  x : K
  y : K

/-- The functions of the C math library, the constants and the helper `normalizeAngle` of
`utils/helper_functions.h` that the sources call; they are arguments of the embedding. -/
structure Libm (K : Type) where
  sqrt : K → K
  sin : K → K
  cos : K → K
  exp : K → K
  M_PI : K
  EPSILON : K
  normalizeAngle : K → K

/-- Conversion of a floating value to `int` as C++ does it: truncation toward zero. -/
def toInt (q : K) : Int :=
  if 0 ≤ q then ⌊q⌋ else ⌈q⌉

/-- Modelled from the spec: `square` of `utils/helper_functions.h`, the square of a number. -/
def square (a : K) : K :=
  a * a

/-- Modelled from the spec: `dist` of `utils/helper_functions.h`. `findNearest` takes the square
root of the minimum it tracks, and the spec has it "track the minimum squared distance": `dist`
is the squared Euclidean distance. -/
def dist (x1 y1 x2 y2 : K) : K :=
  square (x2 - x1) + square (y2 - y1)

/-- The integers `a, a+1, ..., b-1`: the values of `i` in `for (int i = a; i < b; i++)`. -/
def intRange (a b : Int) : List Int :=
  (List.range (b - a).toNat).map (fun (k : Nat) => a + (k : Int))

/-! ## `Partition2D` -/

/-- The fields of `Partition2D<Map::single_landmark_s>`. -/
structure Partition2D (K : Type) where
  world_x0 : K
  world_y0 : K
  world_x1 : K
  world_y1 : K
  search_levels : Int
  dim_x : Int
  dim_y : Int
  cell_size : K
  cells : List (Option (List (single_landmark_s K)))

/-- The method `Partition2D::cellIndex`. -/
def Partition2D.cellIndex (p : Partition2D K) (x y : Int) : Int :=
  x + y * p.dim_x

/-- The method `initialize` of `Partition2D` (called as `Initialize` in `main.cpp`); `none` when
one of its two assertions fails. -/
def Initialize (x0 y0 x1 y1 cell_size max_dist : K) : Option (Partition2D K) :=
  if x0 < x1 ∧ y0 < y1 then
    if cell_size > 0 then
      let dim_x : Int := ⌈(x1 - x0) / cell_size⌉
      let dim_y : Int := ⌈(y1 - y0) / cell_size⌉
      some
        { world_x0 := x0
          world_y0 := y0
          world_x1 := x1
          world_y1 := y1
          search_levels := toInt (max_dist / cell_size + 1 / 2)
          dim_x := dim_x
          dim_y := dim_y
          cell_size := cell_size
          cells := List.replicate (dim_x * dim_y).toNat none }
    else none
  else none

/-- The entry `cells[cellIndex(i, j)]` of the cell table as `findNearest` reads it. An index
outside the table, which the loops of `findNearest` never form on an index that `Initialize`
has built, reads a null entry. -/
def Partition2D.cell (p : Partition2D K) (i j : Int) : Option (List (single_landmark_s K)) :=
  p.cells.getD (p.cellIndex i j).toNat none

/-- The local variables `searched`, `found` and `min_dist` of `findNearest`. -/
structure Scan (K : Type) where
  searched : Nat
  found : Option (single_landmark_s K)
  min_dist : K

/-- The local variables of `findNearest` at the head of its `while` loop. -/
structure SearchState (K : Type) where
  cx0 : Int
  cy0 : Int
  cx1 : Int
  cy1 : Int
  level : Int
  scan : Scan K

/-- The body of the innermost loop of `findNearest`, for one object of a cell. -/
def scanObject (x y : K) (s : Scan K) (obj : single_landmark_s K) : Scan K :=
  let dis := dist x y obj.x obj.y
  if s.min_dist > dis then
    { searched := s.searched + 1, found := some obj, min_dist := dis }
  else
    { searched := s.searched + 1, found := s.found, min_dist := s.min_dist }

/-- The body of the loop over `i` in `findNearest`, for the cell in column `i` of row `j`. -/
def scanCell (p : Partition2D K) (x y : K) (cx0 cy0 cx1 cy1 j : Int) (s : Scan K) (i : Int) :
    Scan K :=
  if i > cx0 ∧ j > cy0 ∧ i < cx1 - 1 ∧ j < cy1 - 1 then s
  else
    match p.cell i j with
    | none => s
    | some objects => objects.foldl (scanObject x y) s

/-- The two nested `for` loops of `findNearest` over the window `[cx0, cx1) x [cy0, cy1)`. -/
def scanWindow (p : Partition2D K) (x y : K) (cx0 cy0 cx1 cy1 : Int) (s : Scan K) : Scan K :=
  (intRange cy0 cy1).foldl
    (fun s j => (intRange cx0 cx1).foldl (scanCell p x y cx0 cy0 cx1 cy1 j) s) s

/-- The body of the `while` loop of `findNearest` (the increment of `level` in the loop
condition has been done by the caller). -/
def ringStep (p : Partition2D K) (x y : K) (st : SearchState K) : SearchState K :=
  let cx0 := max 0 st.cx0
  let cy0 := max 0 st.cy0
  let cx1 := min p.dim_x st.cx1
  let cy1 := min p.dim_y st.cy1
  { cx0 := cx0 - 1
    cy0 := cy0 - 1
    cx1 := cx1 + 1
    cy1 := cy1 + 1
    level := st.level
    scan := scanWindow p x y cx0 cy0 cx1 cy1 st.scan }

/-- The loop `while(!found && level++ < search_levels)` of `findNearest`: `level` is incremented
whenever the second test is evaluated. -/
def searchLoop (p : Partition2D K) (x y : K) (st : SearchState K) : SearchState K :=
  if st.scan.found.isNone then
    if st.level < p.search_levels then
      searchLoop p x y (ringStep p x y { st with level := st.level + 1 })
    else { st with level := st.level + 1 }
  else st
termination_by (p.search_levels - st.level).toNat
decreasing_by
  simp only [ringStep]
  omega

/-- The state in which the `while` loop of `findNearest(x, y)` ends. -/
def searchEnd (p : Partition2D K) (x y : K) : SearchState K :=
  let cx0 := toInt ((x - p.world_x0) / p.cell_size)
  let cy0 := toInt ((y - p.world_y0) / p.cell_size)
  searchLoop p x y
    { cx0 := cx0
      cy0 := cy0
      cx1 := cx0 + 1
      cy1 := cy0 + 1
      level := 0
      scan := { searched := 0, found := none, min_dist := 10 ^ 20 } }

/-- The method `Partition2D::findNearest`: the nearest object found (or none), its distance (or `-1`) and
the number of objects examined. -/
def findNearest (m : Libm K) (p : Partition2D K) (x y : K) :
    Option (single_landmark_s K) × K × Nat :=
  let s := (searchEnd p x y).scan
  (s.found, if s.found.isSome then m.sqrt s.min_dist else -1, s.searched)

/-- The method `Partition2D::addPointObject`; `none` when `index` is outside the cell table. -/
def addPointObject (p : Partition2D K) (object : single_landmark_s K) : Option (Partition2D K) :=
  let idx_x := toInt ((object.x - p.world_x0) / p.cell_size)
  let idx_y := toInt ((object.y - p.world_y0) / p.cell_size)
  let index := p.cellIndex idx_x idx_y
  if 0 ≤ index ∧ index < p.cells.length then
    match p.cells.getD index.toNat none with
    | none => some { p with cells := p.cells.set index.toNat (some [object]) }
    | some objects => some { p with cells := p.cells.set index.toNat (some (objects ++ [object])) }
  else none

/-- The method `Partition2D::addPointObjects`. -/
def addPointObjects (p : Partition2D K) (objects : List (single_landmark_s K)) :
    Option (Partition2D K) :=
  objects.foldlM addPointObject p

/-! ## `ParticleFilter` -/

/-- The fields of `Particle`. -/
structure Particle (K : Type) where
  id : Int
  x : K
  y : K
  theta : K
  weight : K
  associations : List Int
  sense_x : List K
  sense_y : List K

/-- The constructor `Particle(id, x, y, theta, weight)`; the three vectors start empty. -/
def Particle.new (id : Int) (x y theta weight : K) : Particle K :=
  { id := id, x := x, y := y, theta := theta, weight := weight,
    associations := [], sense_x := [], sense_y := [] }

/-- The fields of `ParticleFilter`. A normal distribution of mean zero is represented by its
standard deviation; the shared random generator is not a field: every value drawn from it is an
argument of the operation that draws it. -/
structure ParticleFilter (K : Type) where
  num_particles : Int
  is_initialized : Bool
  weights : List K
  distribution_x : K
  distribution_y : K
  distribution_theta : K
  particles : List (Particle K)

/-- The constructor `ParticleFilter(nParticles)`; the distributions are default-constructed
(standard deviation one). -/
def ParticleFilter.new (nParticles : Int) : ParticleFilter K :=
  { num_particles := nParticles, is_initialized := false, weights := [],
    distribution_x := 1, distribution_y := 1, distribution_theta := 1, particles := [] }

/-- The method `ParticleFilter::init`. `std` is the array `std[0], std[1], std[2]`; `noise i` holds the
three values drawn from `distribution_x`, `distribution_y` and `distribution_theta` in
iteration `i`. -/
def ParticleFilter.init (m : Libm K) (pf : ParticleFilter K) (x y theta : K) (std : K × K × K)
    (noise : Nat → K × K × K) : ParticleFilter K :=
  { pf with
    distribution_x := std.1
    distribution_y := std.2.1
    distribution_theta := std.2.2
    particles :=
      (List.range pf.num_particles.toNat).foldl
        (fun particles (i : Nat) =>
          particles ++
            [Particle.new (Int.ofNat i) (x + (noise i).1) (y + (noise i).2.1)
              (theta + m.normalizeAngle (noise i).2.2) 1])
        pf.particles
    is_initialized := true }

/-- The body of the loop of `ParticleFilter::prediction` for one particle, with the three noise
values `n` drawn in that iteration. -/
def predictParticle (m : Libm K) (delta_t velocity yaw_rate : K) (n : K × K × K)
    (particle : Particle K) : Particle K :=
  let new_yaw := particle.theta + yaw_rate * delta_t
  let moved : Particle K :=
    if |yaw_rate| > m.EPSILON then
      { particle with
        x := particle.x + (velocity / yaw_rate * (m.sin new_yaw - m.sin particle.theta) + n.1)
        y := particle.y + (velocity / yaw_rate * (m.cos particle.theta - m.cos new_yaw) + n.2.1) }
    else
      { particle with
        x := particle.x + (velocity * m.cos particle.theta + n.1)
        y := particle.y + (velocity * m.sin particle.theta + n.2.1) }
  { moved with theta := new_yaw + m.normalizeAngle n.2.2 }

/-- An update in place of `particles[i]`; `none` when `i` is outside the vector. -/
def updateAt (f : Particle K → Particle K) (particles : List (Particle K)) (i : Nat) :
    Option (List (Particle K)) :=
  match particles[i]? with
  | none => none
  | some particle => some (particles.set i (f particle))

/-- The method `ParticleFilter::prediction`; `noise i` holds the three values drawn in
iteration `i`. -/
def ParticleFilter.prediction (m : Libm K) (pf : ParticleFilter K) (delta_t velocity yaw_rate : K)
    (noise : Nat → K × K × K) : Option (ParticleFilter K) :=
  ((List.range pf.num_particles.toNat).foldlM
      (fun particles i =>
        updateAt (fun q => predictParticle m delta_t velocity yaw_rate (noise i) q) particles i)
      pf.particles).map
    (fun particles => { pf with particles := particles })

/-- The body of the loop over the observations in `ParticleFilter::updateWeights`: the state is
the particle and the local variable `weight`. -/
def observe (m : Libm K) (std_landmark : K × K) (partition : Partition2D K)
    (sin_theta cos_theta : K) (st : Particle K × K) (obs : LandmarkObs K) : Particle K × K :=
  let particle := st.1
  let weight := st.2
  let x := particle.x + obs.x * cos_theta - obs.y * sin_theta
  let y := particle.y + obs.x * sin_theta + obs.y * cos_theta
  match (findNearest m partition x y).1 with
  | some nearest =>
    let dx := x - nearest.x
    let dy := y - nearest.y
    let p := (1 / 2) / (m.M_PI * std_landmark.1 * std_landmark.2 *
      m.exp ((square (dx / std_landmark.1) + square (dy / std_landmark.2)) / 20))
    ({ particle with
        associations := particle.associations ++ [nearest.id]
        sense_x := particle.sense_x ++ [x]
        sense_y := particle.sense_y ++ [y] },
      weight * p)
  | none => (particle, weight * (1 / 10 ^ 10))

/-- The body of the loop over the particles in `ParticleFilter::updateWeights`: the particle
after the iteration and the weight pushed onto `weights`. -/
def weighParticle (m : Libm K) (std_landmark : K × K) (observations : List (LandmarkObs K))
    (partition : Partition2D K) (particle : Particle K) : Particle K × K :=
  let cleared : Particle K :=
    { particle with associations := [], sense_x := [], sense_y := [] }
  let sin_theta := m.sin cleared.theta
  let cos_theta := m.cos cleared.theta
  let st := observations.foldl (observe m std_landmark partition sin_theta cos_theta) (cleared, 1)
  ({ st.1 with weight := st.2 }, st.2)

/-- The method `ParticleFilter::updateWeights`; `none` when `particles[i]` is outside the vector. The
counters `searches` and `searched`, which no declaration of the class has, are left out. -/
def ParticleFilter.updateWeights (m : Libm K) (pf : ParticleFilter K) (sensor_range : K)
    (std_landmark : K × K) (observations : List (LandmarkObs K)) (partition : Partition2D K) :
    Option (ParticleFilter K) :=
  ((List.range pf.num_particles.toNat).foldlM
      (fun (st : List (Particle K) × List K) i =>
        match st.1[i]? with
        | none => none
        | some particle =>
          let r := weighParticle m std_landmark observations partition particle
          some (st.1.set i r.1, st.2 ++ [r.2]))
      (pf.particles, [])).map
    (fun (st : List (Particle K) × List K) => { pf with particles := st.1, weights := st.2 })

/-- The method `ParticleFilter::resample`. `distribution i` is the index that `distribution(generator)`
returns in iteration `i`; `none` when such an index is outside `particles`. -/
def ParticleFilter.resample (pf : ParticleFilter K) (distribution : Nat → Nat) :
    Option (ParticleFilter K) :=
  ((List.range pf.num_particles.toNat).foldlM
      (fun (samples : List (Particle K)) i =>
        match pf.particles[distribution i]? with
        | none => none
        | some particle => some (samples ++ [particle]))
      []).map
    (fun samples => { pf with particles := samples })

/-- One call of a public operation of the filter, with its arguments and the values it draws. -/
inductive Call (K : Type) where
  | init (x y theta : K) (std : K × K × K) (noise : Nat → K × K × K)
  | prediction (delta_t velocity yaw_rate : K) (noise : Nat → K × K × K)
  | updateWeights (sensor_range : K) (std_landmark : K × K)
      (observations : List (LandmarkObs K)) (partition : Partition2D K)
  | resample (distribution : Nat → Nat)

/-- The effect of one call on the filter. -/
def Call.run (m : Libm K) (pf : ParticleFilter K) : Call K → Option (ParticleFilter K)
  | .init x y theta std noise => some (pf.init m x y theta std noise)
  | .prediction delta_t velocity yaw_rate noise => pf.prediction m delta_t velocity yaw_rate noise
  | .updateWeights sensor_range std_landmark observations partition =>
    pf.updateWeights m sensor_range std_landmark observations partition
  | .resample distribution => pf.resample distribution

/-- The effect of a sequence of calls, first call first. -/
def runCalls (m : Libm K) (pf : ParticleFilter K) (calls : List (Call K)) :
    Option (ParticleFilter K) :=
  calls.foldlM (Call.run m) pf

/-- The call is a call of `init`. -/
def Call.isInit : Call K → Bool
  | .init _ _ _ _ _ => true
  | _ => false

/-- The likelihood of one observation for a particle, in the words of the specification: the
observation is moved to the world frame of the particle; when `findNearest` returns a landmark
the value is the density `1 / (2 π sx sy) * exp (-((dx / sx)^2 + (dy / sy)^2) / 20)` of the
residual `(dx, dy)`, and it is the floor `1e-10` when `findNearest` returns none. -/
def specLikelihood (m : Libm K) (std_landmark : K × K) (partition : Partition2D K)
    (particle : Particle K) (obs : LandmarkObs K) : K :=
  let wx := particle.x + obs.x * m.cos particle.theta - obs.y * m.sin particle.theta
  let wy := particle.y + obs.x * m.sin particle.theta + obs.y * m.cos particle.theta
  match (findNearest m partition wx wy).1 with
  | some nearest =>
    1 / (2 * m.M_PI * std_landmark.1 * std_landmark.2) *
      m.exp (-(((wx - nearest.x) / std_landmark.1) ^ 2 +
        ((wy - nearest.y) / std_landmark.2) ^ 2) / 20)
  | none => 1 / 10 ^ 10

/-! ## Predicates on the scan of `findNearest` -/

/-- The objects stored in the cell of column `i` and row `j` (none for a null entry). -/
def Partition2D.objectsAt (p : Partition2D K) (i j : Int) : List (single_landmark_s K) :=
  (p.cell i j).getD []

/-- The cell of column `i` and row `j` lies in the square of `2k - 1` by `2k - 1` cells around
the cell `(cx, cy)`, clamped to the grid: the window of the loops of `findNearest` at level `k`. -/
def Partition2D.inSquare (p : Partition2D K) (cx cy k i j : Int) : Prop :=
  (max 0 (cx - (k - 1)) ≤ i ∧ i < min p.dim_x (cx + k)) ∧
    (max 0 (cy - (k - 1)) ≤ j ∧ j < min p.dim_y (cy + k))

/-- The objects that the two nested loops of `findNearest` examine, in the order of the scan. -/
def windowObjects (p : Partition2D K) (cx0 cy0 cx1 cy1 : Int) : List (single_landmark_s K) :=
  (intRange cy0 cy1).flatMap fun j =>
    (intRange cx0 cx1).flatMap fun i =>
      if i > cx0 ∧ j > cy0 ∧ i < cx1 - 1 ∧ j < cy1 - 1 then [] else p.objectsAt i j

/-- What the scan has established once it has examined the objects `seen`. -/
def Scanned (x y : K) (seen : List (single_landmark_s K)) (s : Scan K) : Prop :=
  s.searched = seen.length ∧
    (∀ q ∈ seen, s.min_dist ≤ dist x y q.x q.y) ∧
    ((s.found = none ∧ s.min_dist = 10 ^ 20) ∨
      ∃ e ∈ seen, s.found = some e ∧ s.min_dist = dist x y e.x e.y ∧ dist x y e.x e.y < 10 ^ 20)

/-- The column of the cell of a point of abscissa `x`, as `findNearest` and `addPointObject`
compute it. -/
def Partition2D.column (p : Partition2D K) (x : K) : Int :=
  toInt ((x - p.world_x0) / p.cell_size)

/-- The row of the cell of a point of ordinate `y`, as `findNearest` and `addPointObject`
compute it. -/
def Partition2D.row (p : Partition2D K) (y : K) : Int :=
  toInt ((y - p.world_y0) / p.cell_size)

/-- After `k` levels the scan has examined the objects of the cells of the level-`k` square. -/
def Covered (p : Partition2D K) (x y : K) (cx cy k : Int) (s : Scan K) : Prop :=
  ∃ seen : List (single_landmark_s K),
    (∀ q, q ∈ seen ↔ ∃ i j, p.inSquare cx cy k i j ∧ q ∈ p.objectsAt i j) ∧ Scanned x y seen s

/-- No object of the level-`k` square is within the initial value of `min_dist`. -/
def NoneWithin (p : Partition2D K) (x y : K) (cx cy k : Int) : Prop :=
  ∀ i j, p.inSquare cx cy k i j → ∀ q ∈ p.objectsAt i j, (10 : K) ^ 20 ≤ dist x y q.x q.y

/-- The invariant of the `while` loop of `findNearest` for the query cell `(cx, cy)`. -/
def LoopInv (p : Partition2D K) (x y : K) (cx cy : Int) (st : SearchState K) : Prop :=
  0 ≤ st.level ∧
    (max 0 st.cx0 = max 0 (cx - st.level) ∧
      min p.dim_x st.cx1 = min p.dim_x (cx + st.level + 1)) ∧
    (max 0 st.cy0 = max 0 (cy - st.level) ∧
      min p.dim_y st.cy1 = min p.dim_y (cy + st.level + 1)) ∧
    Covered p x y cx cy st.level st.scan

/-! ## Predicates on the cell table -/

/-- The point `(x, y)` falls in a cell of the grid. -/
def Partition2D.InGrid (p : Partition2D K) (x y : K) : Prop :=
  (0 ≤ p.column x ∧ p.column x < p.dim_x) ∧ (0 ≤ p.row y ∧ p.row y < p.dim_y)

/-- The cells of the grid hold the objects `pts`, each in the cell of its coordinates. -/
def Partition2D.Placed (p : Partition2D K) (pts : List (single_landmark_s K)) : Prop :=
  ∀ i j, (0 ≤ i ∧ i < p.dim_x) → (0 ≤ j ∧ j < p.dim_y) →
    ∀ q, q ∈ p.objectsAt i j ↔ q ∈ pts ∧ p.column q.x = i ∧ p.row q.y = j

/-- The index is in a state that `Initialize` builds and that insertions keep: a non-degenerate
rectangle, a positive cell size, the grid dimensions derived from them, and a cell table of
`dim_x * dim_y` entries. -/
def Partition2D.WellFormed (p : Partition2D K) : Prop :=
  (p.world_x0 < p.world_x1 ∧ p.world_y0 < p.world_y1) ∧ 0 < p.cell_size ∧
    (p.dim_x = ⌈(p.world_x1 - p.world_x0) / p.cell_size⌉ ∧
      p.dim_y = ⌈(p.world_y1 - p.world_y0) / p.cell_size⌉) ∧
    p.cells.length = (p.dim_x * p.dim_y).toNat

/-! ## The observations of a particle -/

/-- The observation `obs` of the particle, moved to the world frame: the point `(x, y)` that
`updateWeights` hands to `findNearest`. -/
def toWorld (m : Libm K) (particle : Particle K) (obs : LandmarkObs K) : K × K :=
  (particle.x + obs.x * m.cos particle.theta - obs.y * m.sin particle.theta,
    particle.y + obs.x * m.sin particle.theta + obs.y * m.cos particle.theta)

/-- The landmark that `findNearest` returns for the observation `obs` of the particle (none
when the observation finds no match). -/
def matchOf (m : Libm K) (partition : Partition2D K) (particle : Particle K)
    (obs : LandmarkObs K) : Option (single_landmark_s K) :=
  (findNearest m partition (toWorld m particle obs).1 (toWorld m particle obs).2).1

/-! ## The cells that one level of `findNearest` visits -/

/-- The cells `(i, j)` that the two nested loops of `findNearest` visit over the window
`[cx0, cx1) x [cy0, cy1)`, in the order of the scan: the cells that the test "in the previous
level" does not skip. -/
def windowCells (cx0 cy0 cx1 cy1 : Int) : List (Int × Int) :=
  (intRange cy0 cy1).flatMap fun j =>
    (intRange cx0 cx1).flatMap fun i =>
      if i > cx0 ∧ j > cy0 ∧ i < cx1 - 1 ∧ j < cy1 - 1 then [] else [(i, j)]

/-- The local variables of `findNearest(x, y)` when its `while` loop starts. -/
def searchStart (p : Partition2D K) (x y : K) : SearchState K :=
  { cx0 := p.column x
    cy0 := p.row y
    cx1 := p.column x + 1
    cy1 := p.row y + 1
    level := 0
    scan := { searched := 0, found := none, min_dist := 10 ^ 20 } }

/-- The cells that the body of the `while` loop of `findNearest` visits when it runs from the
state `st`: the cells of the window of `st` clamped to the grid that are not skipped. -/
def levelCells (p : Partition2D K) (st : SearchState K) : List (Int × Int) :=
  windowCells (max 0 st.cx0) (max 0 st.cy0) (min p.dim_x st.cx1) (min p.dim_y st.cy1)

/-! ## Machine arithmetic

The definitions above compute in exact arithmetic. The definitions of this part follow the
types of the sources: a `float` or `double` operation gives the exact result rounded to the
nearest value of its format (ties to even, gradual underflow), and an `int` has 32 bits. -/

/-- The ways in which a call yields no result. -/
inductive Fault where
  /-- An `assert` has failed. -/
  | assertion
  /-- Undefined behaviour: a signed overflow, a conversion to `int` of a value that no `int`
  holds, or an access outside a vector. -/
  | undefined
  /-- A floating operation has overflowed or divided by zero: infinities and NaN are not
  values of this embedding. -/
  | nonFinite

/-- The integer nearest to `t`, the even one of the two when `t` is half-way. -/
def roundEven (t : K) : Int :=
  if 2 * (t - ⌊t⌋) < 1 then ⌊t⌋
  else if 1 < 2 * (t - ⌊t⌋) then ⌊t⌋ + 1
  else if ⌊t⌋ % 2 = 0 then ⌊t⌋ else ⌊t⌋ + 1

/-- The exponent of the unit in the last place of `q` in the binary format of precision `prec`
whose least normal exponent is `emin`. -/
def ulpExponent (prec : Nat) (emin : Int) (q : K) : Int :=
  max (Int.log 2 |q|) emin - ((prec : Int) - 1)

/-- The value of the binary format of precision `prec` and least normal exponent `emin`
nearest to `q`, ties to even, with gradual underflow and no bound on the exponent. -/
def roundValue (prec : Nat) (emin : Int) (q : K) : K :=
  (roundEven (q / 2 ^ ulpExponent prec emin q) : K) * 2 ^ ulpExponent prec emin q

/-- The result of a floating operation whose exact result is `q`, in the binary format of
precision `prec` with exponents from `emin` to `emax`: the nearest value, or an overflow. -/
def roundBinary (prec : Nat) (emin emax : Int) (q : K) : Except Fault K :=
  if |roundValue prec emin q| < 2 ^ (emax + 1) then .ok (roundValue prec emin q)
  else .error .nonFinite

/-- The result of an operation on `float` (IEEE binary32) whose exact result is `q`. -/
def roundFloat (q : K) : Except Fault K :=
  roundBinary 24 (-126) 127 q

/-- The result of an operation on `double` (IEEE binary64) whose exact result is `q`. -/
def roundDouble (q : K) : Except Fault K :=
  roundBinary 53 (-1022) 1023 q

/-- The quotient `a / b` of two `float`. -/
def divFloat (a b : K) : Except Fault K :=
  if b = 0 then .error .nonFinite else roundFloat (a / b)

/-- The quotient `a / b` of two `double`. -/
def divDouble (a b : K) : Except Fault K :=
  if b = 0 then .error .nonFinite else roundDouble (a / b)

/-- The integer `n` as a value of `int`: it has to lie between `INT_MIN` and `INT_MAX`. -/
def intChecked (n : Int) : Except Fault Int :=
  if -2147483648 ≤ n ∧ n ≤ 2147483647 then .ok n else .error .undefined

/-- The expression `(hi - lo) / cell_size` of `initialize`, on `float`: the difference and the
quotient are each rounded. -/
def floatQuotient (lo hi cell_size : K) : Except Fault K := do
  let extent ← roundFloat (hi - lo)
  roundFloat (extent / cell_size)

/-- The expression `max_dist / cell_size + 0.5` of `initialize`: the quotient is a `float`, the
sum with the `double` literal `0.5` is a `double`. -/
def levelSum (max_dist cell_size : K) : Except Fault K := do
  let ratio ← roundFloat (max_dist / cell_size)
  roundDouble (ratio + 1 / 2)

/-- The method `initialize` of `Partition2D` in machine arithmetic: the parameters and the
fields are `float`, and `dim_x`, `dim_y`, `search_levels` and `dim_x * dim_y` are `int`. -/
def InitializeM (x0 y0 x1 y1 cell_size max_dist : K) : Except Fault (Partition2D K) :=
  if x0 < x1 ∧ y0 < y1 then
    if cell_size > 0 then do
      let across ← floatQuotient x0 x1 cell_size
      let dim_x ← intChecked ⌈across⌉
      let along ← floatQuotient y0 y1 cell_size
      let dim_y ← intChecked ⌈along⌉
      let levels ← levelSum max_dist cell_size
      let search_levels ← intChecked (toInt levels)
      let size ← intChecked (dim_x * dim_y)
      pure
        { world_x0 := x0
          world_y0 := y0
          world_x1 := x1
          world_y1 := y1
          search_levels := search_levels
          dim_x := dim_x
          dim_y := dim_y
          cell_size := cell_size
          cells := List.replicate size.toNat none }
    else .error .assertion
  else .error .assertion

/-- The expression `(a - origin) / cell_size` converted to `int`, in the format whose operations
round by `round`: `float` in `addPointObject`, `double` in `findNearest`. -/
def cellCoordinate (round : K → Except Fault K) (a origin cell_size : K) : Except Fault Int := do
  let offset ← round (a - origin)
  if cell_size = 0 then .error .nonFinite
  else do
    let quotient ← round (offset / cell_size)
    intChecked (toInt quotient)

/-- The method `Partition2D::cellIndex` on `int`. -/
def Partition2D.cellIndexM (p : Partition2D K) (x y : Int) : Except Fault Int := do
  let rowStart ← intChecked (y * p.dim_x)
  intChecked (x + rowStart)

/-- The method `Partition2D::addPointObject` in machine arithmetic: `object->x()`, `world_x0` and
`cell_size` are `float`, so `idx_x` and `idx_y` are computed in `float`. -/
def addPointObjectM (p : Partition2D K) (object : single_landmark_s K) :
    Except Fault (Partition2D K) := do
  let idx_x ← cellCoordinate roundFloat object.x p.world_x0 p.cell_size
  let idx_y ← cellCoordinate roundFloat object.y p.world_y0 p.cell_size
  let index ← p.cellIndexM idx_x idx_y
  if 0 ≤ index ∧ index < p.cells.length then
    match p.cells.getD index.toNat none with
    | none => pure { p with cells := p.cells.set index.toNat (some [object]) }
    | some objects =>
      pure { p with cells := p.cells.set index.toNat (some (objects ++ [object])) }
  else .error .undefined

/-- The method `Partition2D::addPointObjects` in machine arithmetic. -/
def addPointObjectsM (p : Partition2D K) (objects : List (single_landmark_s K)) :
    Except Fault (Partition2D K) :=
  objects.foldlM addPointObjectM p

/-- The method `Partition2D::findNearest` in machine arithmetic: `x` and `y` are `double`, so
`cx0` and `cy0` are computed in `double`; the loop is `searchLoop`, and `dist` is the helper
of the exact part. -/
def findNearestM (m : Libm K) (p : Partition2D K) (x y : K) :
    Except Fault (Option (single_landmark_s K) × K × Nat) := do
  let cx0 ← cellCoordinate roundDouble x p.world_x0 p.cell_size
  let cy0 ← cellCoordinate roundDouble y p.world_y0 p.cell_size
  let cx1 ← intChecked (cx0 + 1)
  let cy1 ← intChecked (cy0 + 1)
  let s :=
    (searchLoop p x y
      { cx0 := cx0
        cy0 := cy0
        cx1 := cx1
        cy1 := cy1
        level := 0
        scan := { searched := 0, found := none, min_dist := 10 ^ 20 } }).scan
  pure (s.found, if s.found.isSome then m.sqrt s.min_dist else -1, s.searched)

/-- The `double` that the literal `1E-10` of `updateWeights` denotes. -/
def floorFactor : K :=
  7737125245533627 / 2 ^ 86

/-- The value that a function of the C math library returns, as a `double`: finite, or an
overflow. -/
def finiteDouble (v : K) : Except Fault K :=
  if |v| < 2 ^ 1024 then .ok v else .error .nonFinite

/-- The point `(x, y)` of `updateWeights` in `double`: the observation moved to the world frame
of the particle, every product and sum rounded. -/
def worldPointM (sin_theta cos_theta : K) (particle : Particle K) (obs : LandmarkObs K) :
    Except Fault (K × K) := do
  let xc ← roundDouble (obs.x * cos_theta)
  let xa ← roundDouble (particle.x + xc)
  let xs ← roundDouble (obs.y * sin_theta)
  let x ← roundDouble (xa - xs)
  let ys ← roundDouble (obs.x * sin_theta)
  let ya ← roundDouble (particle.y + ys)
  let yc ← roundDouble (obs.y * cos_theta)
  let y ← roundDouble (ya + yc)
  pure (x, y)

/-- The denominator `d * e` of the factor `p` of `updateWeights` in `double`, for the `double`
`d` that `M_PI * std_landmark[0] * std_landmark[1]` gives and the value `e` of `exp`: `some` of
the rounded product, or `none` for `+inf`, which the product of two positive operands is when
`exp` or the multiplication overflows. -/
def denominatorM (d e : K) : Except Fault (Option K) :=
  if 0 < d ∧ 0 < e then
    if e < 2 ^ 1024 ∧ roundValue 53 (-1022) (d * e) < 2 ^ 1024 then
      .ok (some (roundValue 53 (-1022) (d * e)))
    else .ok none
  else do
    let grown ← finiteDouble e
    let product ← roundDouble (d * grown)
    pure (some product)

/-- The factor `p` of `updateWeights` in `double` for the point `(x, y)` and the landmark that
`findNearest` has returned; `0.5 / +inf` is `0`. -/
def densityM (m : Libm K) (std_landmark : K × K) (x y : K) (nearest : single_landmark_s K) :
    Except Fault K := do
  let dx ← roundDouble (x - nearest.x)
  let dy ← roundDouble (y - nearest.y)
  let ux ← divDouble dx std_landmark.1
  let sx ← roundDouble (square ux)
  let uy ← divDouble dy std_landmark.2
  let sy ← roundDouble (square uy)
  let sum ← roundDouble (sx + sy)
  let exponent ← roundDouble (sum / 20)
  let d1 ← roundDouble (m.M_PI * std_landmark.1)
  let d2 ← roundDouble (d1 * std_landmark.2)
  let d3 ← denominatorM d2 (m.exp exponent)
  match d3 with
  | some d => divDouble (1 / 2) d
  | none => pure 0

/-- The body of the loop over the observations in `ParticleFilter::updateWeights` in machine
arithmetic: the state is the particle and the local variable `weight`, a `double`. -/
def observeM (m : Libm K) (std_landmark : K × K) (partition : Partition2D K)
    (sin_theta cos_theta : K) (st : Particle K × K) (obs : LandmarkObs K) :
    Except Fault (Particle K × K) := do
  let particle := st.1
  let weight := st.2
  let w ← worldPointM sin_theta cos_theta particle obs
  let r ← findNearestM m partition w.1 w.2
  match r.1 with
  | some nearest => do
    let p ← densityM m std_landmark w.1 w.2 nearest
    let weight ← roundDouble (weight * p)
    pure
      ({ particle with
          associations := particle.associations ++ [nearest.id]
          sense_x := particle.sense_x ++ [w.1]
          sense_y := particle.sense_y ++ [w.2] },
        weight)
  | none => do
    let weight ← roundDouble (weight * floorFactor)
    pure (particle, weight)

/-- The body of the loop over the particles in `ParticleFilter::updateWeights` in machine
arithmetic: the particle after the iteration and the weight pushed onto `weights`. -/
def weighParticleM (m : Libm K) (std_landmark : K × K) (observations : List (LandmarkObs K))
    (partition : Partition2D K) (particle : Particle K) : Except Fault (Particle K × K) := do
  let cleared : Particle K :=
    { particle with associations := [], sense_x := [], sense_y := [] }
  let sin_theta := m.sin cleared.theta
  let cos_theta := m.cos cleared.theta
  let st ← observations.foldlM (observeM m std_landmark partition sin_theta cos_theta) (cleared, 1)
  pure ({ st.1 with weight := st.2 }, st.2)

/-- One iteration of the loop over the particles in `ParticleFilter::updateWeights`: the particle
`particles[i]` is weighed by `weigh`, stored back, and its weight is pushed onto `weights`. -/
def weighAt (weigh : Particle K → Except Fault (Particle K × K))
    (st : List (Particle K) × List K) (i : Nat) : Except Fault (List (Particle K) × List K) :=
  match st.1[i]? with
  | none => .error .undefined
  | some particle => do
    let r ← weigh particle
    pure (st.1.set i r.1, st.2 ++ [r.2])

/-- The method `ParticleFilter::updateWeights` in machine arithmetic. -/
def ParticleFilter.updateWeightsM (m : Libm K) (pf : ParticleFilter K) (sensor_range : K)
    (std_landmark : K × K) (observations : List (LandmarkObs K)) (partition : Partition2D K) :
    Except Fault (ParticleFilter K) := do
  let st ← (List.range pf.num_particles.toNat).foldlM
    (weighAt (weighParticleM m std_landmark observations partition)) (pf.particles, [])
  pure { pf with particles := st.1, weights := st.2 }

/-! ## Predicates on the machine arithmetic -/

/-- The cell table has `dim_x * dim_y` entries and this number is a value of `int`: the state
in which `initialize` leaves the index. -/
def Partition2D.Sized (p : Partition2D K) : Prop :=
  0 ≤ p.dim_x ∧ 0 ≤ p.dim_y ∧ (p.cells.length : Int) = p.dim_x * p.dim_y ∧
    p.dim_x * p.dim_y ≤ 2147483647

/-- The landmark that `findNearest` returns in `updateWeights` for the observation `obs` of the
particle, in machine arithmetic. -/
def matchOfM (m : Libm K) (partition : Partition2D K) (particle : Particle K)
    (obs : LandmarkObs K) : Except Fault (Option (single_landmark_s K)) := do
  let w ← worldPointM (m.sin particle.theta) (m.cos particle.theta) particle obs
  let r ← findNearestM m partition w.1 w.2
  pure r.1

/-- The factor by which `updateWeights` multiplies `weight` for the observation `obs` of the
particle, in machine arithmetic: `p` for the landmark that `findNearest` returns, the `double`
`1E-10` when it returns none. -/
def likelihoodM (m : Libm K) (std_landmark : K × K) (partition : Partition2D K)
    (particle : Particle K) (obs : LandmarkObs K) : Except Fault K := do
  let w ← worldPointM (m.sin particle.theta) (m.cos particle.theta) particle obs
  let r ← findNearestM m partition w.1 w.2
  match r.1 with
  | some nearest => densityM m std_landmark w.1 w.2 nearest
  | none => pure floorFactor

/-- The product of the factors in `double`, from `1.` and rounded after every multiplication,
as the loop of `updateWeights` forms it. -/
def weightProductM (factors : List K) : Except Fault K :=
  factors.foldlM (fun weight p => roundDouble (weight * p)) 1

/-- The value of `weight` after `n` multiplications by `1E-10` in `double`, from `1.`. -/
def floorProduct : Nat → K
  | 0 => 1
  | n + 1 => roundValue 53 (-1022) (floorProduct n * floorFactor)

/-! ## Sample data -/

/-- The C math library on the real numbers, with `EPSILON` a small positive constant and
`normalizeAngle` the wrap of an angle into `(-π, π]`. -/
noncomputable def realLibm : Libm ℝ :=
  { sqrt := Real.sqrt
    sin := Real.sin
    cos := Real.cos
    exp := Real.exp
    M_PI := Real.pi
    EPSILON := 1 / 100000
    normalizeAngle := fun a => a - 2 * Real.pi * ⌈(a - Real.pi) / (2 * Real.pi)⌉ }

/-- A grid of two cells of size one, with one landmark in the right cell, searched over
`levels` levels. -/
noncomputable def twoCells (levels : Int) : Partition2D ℝ :=
  { world_x0 := 0, world_y0 := 0, world_x1 := 2, world_y1 := 1, search_levels := levels,
    dim_x := 2, dim_y := 1, cell_size := 1,
    cells := [none, some [{ id := 7, x := 3 / 2, y := 1 / 2 }]] }

/-- A grid of three by three cells of size `10^10`, searched over two levels, with a landmark
at the origin and a landmark at `(10^10, 10^10)`. -/
noncomputable def farCells : Partition2D ℝ :=
  { world_x0 := 0, world_y0 := 0, world_x1 := 3 * 10 ^ 10, world_y1 := 3 * 10 ^ 10,
    search_levels := 2, dim_x := 3, dim_y := 3, cell_size := 10 ^ 10,
    cells := [some [{ id := 1, x := 0, y := 0 }], none, none, none,
      some [{ id := 2, x := 10 ^ 10, y := 10 ^ 10 }], none, none, none, none] }

/-- Noise draws that are all zero. -/
noncomputable def noNoise : Nat → ℝ × ℝ × ℝ :=
  fun _ => (0, 0, 0)

/-- The filter of one particle after `init(0, 0, theta, [0, 0, 0])` with zero noise. -/
noncomputable def oneParticle (theta : ℝ) : ParticleFilter ℝ :=
  (ParticleFilter.new 1).init realLibm 0 0 theta (0, 0, 0) noNoise

/-- A cycle of `prediction`, `updateWeights` and `resample` calls. -/
noncomputable def sampleCycle : List (Call ℝ) :=
  [Call.prediction (1 / 10) 1 0 noNoise,
    Call.updateWeights 50 (3 / 10, 3 / 10) [{ x := 1, y := 0 }] (twoCells 2),
    Call.resample (fun _ => 1)]

/-- The index that `Initialize(0, 0, 2, 2, 1, 1)` builds: two by two cells of size one, all
absent, searched over one level. -/
noncomputable def fourCells : Partition2D ℝ :=
  { world_x0 := 0, world_y0 := 0, world_x1 := 2, world_y1 := 2, search_levels := 1,
    dim_x := 2, dim_y := 2, cell_size := 1, cells := [none, none, none, none] }

/-- The index that `Initialize(0, 0, 2, 2, 1, 2)` builds: two by two cells of size one, all
absent, searched over two levels. -/
noncomputable def emptyGrid : Partition2D ℝ :=
  { world_x0 := 0, world_y0 := 0, world_x1 := 2, world_y1 := 2, search_levels := 2,
    dim_x := 2, dim_y := 2, cell_size := 1, cells := [none, none, none, none] }

/-- The index that `Initialize(0, 0, 2, 1, 1, 2)` and the insertion of the landmarks at
`(1/10, 1/2)` and `(1, 1/2)` build: two cells of size one, one landmark in each, searched over
two levels. -/
noncomputable def nearCells : Partition2D ℝ :=
  { world_x0 := 0, world_y0 := 0, world_x1 := 2, world_y1 := 1, search_levels := 2,
    dim_x := 2, dim_y := 1, cell_size := 1,
    cells := [some [{ id := 1, x := 1 / 10, y := 1 / 2 }],
      some [{ id := 2, x := 1, y := 1 / 2 }]] }

/-! ## Sample data of the machine arithmetic -/

/-- The `float` nearest to `0.3`. -/
noncomputable def float03 : ℝ :=
  5033165 / 16777216

/-- The `float` nearest to `0.1`. -/
noncomputable def float01 : ℝ :=
  13421773 / 134217728

/-- The `float` nearest to `4.7`. -/
noncomputable def float47 : ℝ :=
  4928307 / 1048576

/-- The index that `initialize(-0.3f, 0, 10, 10, 5, 50)` builds: three by two cells of size
five, all absent, searched over ten levels. -/
noncomputable def sixCells : Partition2D ℝ :=
  { world_x0 := -float03, world_y0 := 0, world_x1 := 10, world_y1 := 10, search_levels := 10,
    dim_x := 3, dim_y := 2, cell_size := 5, cells := [none, none, none, none, none, none] }

/-- A landmark at `(4.7f, 0)`. -/
noncomputable def landmarkNear : single_landmark_s ℝ :=
  { id := 1, x := float47, y := 0 }

/-- A landmark at `(-0.3f, 0)`. -/
noncomputable def landmarkCorner : single_landmark_s ℝ :=
  { id := 2, x := -float03, y := 0 }

/-- The index of six cells after the insertion of the two landmarks: in `float` the landmark at
`(4.7f, 0)` has column `1`. -/
noncomputable def sixCellsFilled : Partition2D ℝ :=
  { world_x0 := -float03, world_y0 := 0, world_x1 := 10, world_y1 := 10, search_levels := 10,
    dim_x := 3, dim_y := 2, cell_size := 5,
    cells := [some [landmarkCorner], some [landmarkNear], none, none, none, none] }

/-- A list of `33` observations at `(1/2, 1/2)` in the frame of the vehicle. -/
noncomputable def manyObservations : List (LandmarkObs ℝ) :=
  List.replicate 33 { x := 1 / 2, y := 1 / 2 }

/-- The index that `initialize(0, 0, 64, 64, 64, 64)` builds: one cell of size `64`, absent,
searched over one level. -/
noncomputable def wideCell : Partition2D ℝ :=
  { world_x0 := 0, world_y0 := 0, world_x1 := 64, world_y1 := 64, search_levels := 1,
    dim_x := 1, dim_y := 1, cell_size := 64, cells := [none] }

/-- A landmark `40` metres from the origin. -/
noncomputable def farLandmark : single_landmark_s ℝ :=
  { id := 7, x := 40, y := 0 }

/-- The index of one cell after the insertion of the landmark at `(40, 0)`. -/
noncomputable def wideCellFilled : Partition2D ℝ :=
  { wideCell with cells := [some [farLandmark]] }

end Definitions

section Theorems

variable {K : Type} [LinearOrderedField K] [FloorRing K]

/-! ## The scan of `findNearest` -/

theorem mem_intRange (a b i : Int) : i ∈ intRange a b ↔ a ≤ i ∧ i < b := by
  simp only [intRange, List.mem_map, List.mem_range]
  constructor
  · rintro ⟨k, hk, rfl⟩
    have := Int.toNat_of_nonneg (a := b - a)
    omega
  · rintro ⟨h1, h2⟩
    refine ⟨(i - a).toNat, ?_, ?_⟩
    · omega
    · rw [Int.toNat_of_nonneg (by omega)]
      omega

theorem foldl_flatMap_eq {α β σ : Type} (f : α → List β) (g : σ → β → σ) (l : List α) (s : σ) :
    l.foldl (fun s a => (f a).foldl g s) s = (l.flatMap f).foldl g s := by
  induction l generalizing s with
  | nil => rfl
  | cons a l ih => simp [List.flatMap_cons, List.foldl_append, ih]

theorem scanCell_eq (p : Partition2D K) (x y : K) (cx0 cy0 cx1 cy1 j : Int) (s : Scan K)
    (i : Int) :
    scanCell p x y cx0 cy0 cx1 cy1 j s i =
      (if i > cx0 ∧ j > cy0 ∧ i < cx1 - 1 ∧ j < cy1 - 1 then []
        else p.objectsAt i j).foldl (scanObject x y) s := by
  unfold scanCell Partition2D.objectsAt
  split
  · rfl
  · cases p.cell i j <;> rfl

theorem scanWindow_eq (p : Partition2D K) (x y : K) (cx0 cy0 cx1 cy1 : Int) (s : Scan K) :
    scanWindow p x y cx0 cy0 cx1 cy1 s =
      (windowObjects p cx0 cy0 cx1 cy1).foldl (scanObject x y) s := by
  unfold scanWindow windowObjects
  rw [← foldl_flatMap_eq]
  congr 1
  funext s j
  rw [← foldl_flatMap_eq]
  congr 1
  funext s i
  exact scanCell_eq p x y cx0 cy0 cx1 cy1 j s i

theorem mem_windowObjects (p : Partition2D K) (cx0 cy0 cx1 cy1 : Int) (q : single_landmark_s K) :
    q ∈ windowObjects p cx0 cy0 cx1 cy1 ↔
      ∃ i j, (cx0 ≤ i ∧ i < cx1) ∧ (cy0 ≤ j ∧ j < cy1) ∧
        ¬ (i > cx0 ∧ j > cy0 ∧ i < cx1 - 1 ∧ j < cy1 - 1) ∧ q ∈ p.objectsAt i j := by
  simp only [windowObjects, List.mem_flatMap, mem_intRange]
  constructor
  · rintro ⟨j, hj, i, hi, hq⟩
    by_cases hs : i > cx0 ∧ j > cy0 ∧ i < cx1 - 1 ∧ j < cy1 - 1
    · simp [hs] at hq
    · rw [if_neg hs] at hq
      exact ⟨i, j, hi, hj, hs, hq⟩
  · rintro ⟨i, j, hi, hj, hs, hq⟩
    exact ⟨j, hj, i, hi, by rw [if_neg hs]; exact hq⟩

theorem dist_nonneg (x y a b : K) : 0 ≤ dist x y a b := by
  unfold dist square
  exact add_nonneg (mul_self_nonneg _) (mul_self_nonneg _)

theorem scanned_scanObject {x y : K} {seen : List (single_landmark_s K)} {s : Scan K}
    (h : Scanned x y seen s) (q : single_landmark_s K) :
    Scanned x y (seen ++ [q]) (scanObject x y s q) := by
  obtain ⟨hn, hmin, hf⟩ := h
  unfold KidnappedVehicle.scanObject
  by_cases hlt : s.min_dist > dist x y q.x q.y
  · simp only [hlt, if_true]
    refine ⟨by simp [hn], ?_, ?_⟩
    · intro r hr
      rcases List.mem_append.1 hr with hr | hr
      · exact le_trans (le_of_lt hlt) (hmin r hr)
      · rw [List.mem_singleton.1 hr]
    · right
      refine ⟨q, by simp, rfl, rfl, ?_⟩
      rcases hf with ⟨_, h20⟩ | ⟨e, _, _, he, h20⟩
      · rw [← h20]; exact hlt
      · rw [← he] at h20; exact lt_trans hlt h20
  · simp only [hlt, if_false]
    refine ⟨by simp [hn], ?_, ?_⟩
    · intro r hr
      rcases List.mem_append.1 hr with hr | hr
      · exact hmin r hr
      · rw [List.mem_singleton.1 hr]; exact not_lt.1 hlt
    · rcases hf with hf | ⟨e, he, hrest⟩
      · exact Or.inl hf
      · exact Or.inr ⟨e, List.mem_append_left _ he, hrest⟩

theorem scanned_foldl {x y : K} (objs : List (single_landmark_s K)) :
    ∀ {seen : List (single_landmark_s K)} {s : Scan K}, Scanned x y seen s →
      Scanned x y (seen ++ objs) (objs.foldl (scanObject x y) s) := by
  induction objs with
  | nil => intro seen s h; simpa using h
  | cons q objs ih =>
    intro seen s h
    have h2 := ih (scanned_scanObject h q)
    simpa [List.append_assoc] using h2

theorem covered_noneWithin {p : Partition2D K} {x y : K} {cx cy k : Int} {s : Scan K}
    (h : Covered p x y cx cy k s) (hf : s.found = none) : NoneWithin p x y cx cy k := by
  obtain ⟨seen, hmem, -, hmin, hfound⟩ := h
  intro i j hij q hq
  have hq2 : q ∈ seen := (hmem q).2 ⟨i, j, hij, hq⟩
  rcases hfound with ⟨-, h20⟩ | ⟨e, -, he, -⟩
  · rw [← h20]; exact hmin q hq2
  · rw [hf] at he; cases he

theorem axis_next (c k a b d : Int) (h0 : max 0 a = max 0 (c - k))
    (h1 : min d b = min d (c + k + 1)) :
    max 0 (max 0 a - 1) = max 0 (c - (k + 1)) ∧
      min d (min d b + 1) = min d (c + (k + 1) + 1) := by
  omega

theorem axis_grow (c k d i : Int) (h : max 0 (c - (k - 1)) ≤ i ∧ i < min d (c + k)) :
    max 0 (c - (k + 1 - 1)) ≤ i ∧ i < min d (c + (k + 1)) := by
  omega

theorem axis_window (c k a b d i : Int) (h0 : max 0 a = max 0 (c - k))
    (h1 : min d b = min d (c + k + 1)) :
    (max 0 a ≤ i ∧ i < min d b) ↔ (max 0 (c - (k + 1 - 1)) ≤ i ∧ i < min d (c + (k + 1))) := by
  omega

theorem axis_inner (c k a b d i : Int) (h0 : max 0 a = max 0 (c - k))
    (h1 : min d b = min d (c + k + 1)) (h : i > max 0 a ∧ i < min d b - 1) :
    max 0 (c - (k - 1)) ≤ i ∧ i < min d (c + k) := by
  omega

theorem loopInv_ringStep {p : Partition2D K} {x y : K} {cx cy : Int} {st : SearchState K}
    (h : LoopInv p x y cx cy st) :
    LoopInv p x y cx cy (ringStep p x y { st with level := st.level + 1 }) := by
  obtain ⟨hl, ⟨hx0, hx1⟩, ⟨hy0, hy1⟩, seen, hmem, hsc⟩ := h
  refine ⟨?_, axis_next cx st.level st.cx0 st.cx1 p.dim_x hx0 hx1,
    axis_next cy st.level st.cy0 st.cy1 p.dim_y hy0 hy1, ?_⟩
  · show 0 ≤ st.level + 1
    omega
  · refine ⟨seen ++ windowObjects p (max 0 st.cx0) (max 0 st.cy0) (min p.dim_x st.cx1)
      (min p.dim_y st.cy1), ?_, ?_⟩
    · intro q
      show q ∈ seen ++ _ ↔ ∃ i j, p.inSquare cx cy (st.level + 1) i j ∧ q ∈ p.objectsAt i j
      simp only [List.mem_append, hmem, mem_windowObjects, Partition2D.inSquare]
      constructor
      · rintro (⟨i, j, ⟨hi, hj⟩, hq⟩ | ⟨i, j, hi, hj, -, hq⟩)
        · exact ⟨i, j, ⟨axis_grow _ _ _ _ hi, axis_grow _ _ _ _ hj⟩, hq⟩
        · exact ⟨i, j, ⟨(axis_window _ _ _ _ _ _ hx0 hx1).1 hi,
            (axis_window _ _ _ _ _ _ hy0 hy1).1 hj⟩, hq⟩
      · rintro ⟨i, j, ⟨hi, hj⟩, hq⟩
        by_cases hs : i > max 0 st.cx0 ∧ j > max 0 st.cy0 ∧ i < min p.dim_x st.cx1 - 1 ∧
            j < min p.dim_y st.cy1 - 1
        · exact Or.inl ⟨i, j, ⟨axis_inner _ _ _ _ _ _ hx0 hx1 ⟨hs.1, hs.2.2.1⟩,
            axis_inner _ _ _ _ _ _ hy0 hy1 ⟨hs.2.1, hs.2.2.2⟩⟩, hq⟩
        · exact Or.inr ⟨i, j, (axis_window _ _ _ _ _ _ hx0 hx1).2 hi,
            (axis_window _ _ _ _ _ _ hy0 hy1).2 hj, hs, hq⟩
    · show Scanned x y _ (scanWindow p x y _ _ _ _ st.scan)
      rw [scanWindow_eq]
      exact scanned_foldl _ hsc

/-- The result of the `while` loop of `findNearest`, started in a state that satisfies the loop
invariant and in which nothing has been found: either every level up to `search_levels` has
been scanned without a find, or the loop stopped after the first level `k` with a find. -/
theorem searchLoop_spec (p : Partition2D K) (x y : K) (cx cy : Int) :
    ∀ (n : Nat) (st : SearchState K), (p.search_levels - st.level).toNat = n →
      LoopInv p x y cx cy st → st.scan.found = none →
      ∃ k, st.level ≤ k ∧ Covered p x y cx cy k (searchLoop p x y st).scan ∧
        (((searchLoop p x y st).scan.found = none ∧ k = max st.level p.search_levels ∧
            (searchLoop p x y st).level = k + 1) ∨
          ((searchLoop p x y st).scan.found ≠ none ∧ st.level < k ∧ k ≤ p.search_levels ∧
            (searchLoop p x y st).level = k ∧ NoneWithin p x y cx cy (k - 1))) := by
  intro n
  induction n with
  | zero =>
    intro st hn hinv hf
    have hge : ¬ st.level < p.search_levels := by omega
    have hstep : searchLoop p x y st = { st with level := st.level + 1 } := by
      rw [searchLoop]
      simp [hf, hge]
    rw [hstep]
    exact ⟨st.level, le_refl _, hinv.2.2.2, Or.inl ⟨hf, by omega, rfl⟩⟩
  | succ n ih =>
    intro st hn hinv hf
    have hlt : st.level < p.search_levels := by omega
    have hinv2 := loopInv_ringStep hinv
    have hlev : (ringStep p x y { st with level := st.level + 1 }).level = st.level + 1 := rfl
    have hstep : searchLoop p x y st =
        searchLoop p x y (ringStep p x y { st with level := st.level + 1 }) := by
      rw [searchLoop]
      simp [hf, hlt]
    rw [hstep]
    by_cases hf2 : (ringStep p x y { st with level := st.level + 1 }).scan.found = none
    · obtain ⟨k, hk, hcov, hres⟩ := ih _ (by rw [hlev]; omega) hinv2 hf2
      rw [hlev] at hk hres
      refine ⟨k, by omega, hcov, ?_⟩
      rcases hres with ⟨h1, h2, h3⟩ | ⟨h1, h2, h3, h4, h5⟩
      · exact Or.inl ⟨h1, by omega, h3⟩
      · exact Or.inr ⟨h1, by omega, h3, h4, h5⟩
    · have hstop : searchLoop p x y (ringStep p x y { st with level := st.level + 1 }) =
          ringStep p x y { st with level := st.level + 1 } := by
        rw [searchLoop]
        cases hc : (ringStep p x y { st with level := st.level + 1 }).scan.found with
        | none => exact absurd hc hf2
        | some e => simp
      rw [hstop]
      refine ⟨st.level + 1, by omega, ?_, Or.inr ⟨hf2, by omega, by omega, hlev, ?_⟩⟩
      · have := hinv2.2.2.2
        rw [hlev] at this
        exact this
      · have hnone := covered_noneWithin hinv.2.2.2 hf
        simpa using hnone

/-- The state in which the `while` loop of `findNearest(x, y)` ends, for every index and every
query: `k` levels have been scanned, and either nothing was found and `k` is `search_levels`
(or `0`), or an object was found at level `k` and none of the levels before had an object
within the initial `min_dist`. -/
theorem searchEnd_spec (p : Partition2D K) (x y : K) :
    ∃ k, 0 ≤ k ∧ Covered p x y (p.column x) (p.row y) k (searchEnd p x y).scan ∧
      (((searchEnd p x y).scan.found = none ∧ k = max 0 p.search_levels ∧
          (searchEnd p x y).level = k + 1) ∨
        ((searchEnd p x y).scan.found ≠ none ∧ 1 ≤ k ∧ k ≤ p.search_levels ∧
          (searchEnd p x y).level = k ∧ NoneWithin p x y (p.column x) (p.row y) (k - 1))) := by
  have hinv : LoopInv p x y (p.column x) (p.row y)
      { cx0 := p.column x, cy0 := p.row y, cx1 := p.column x + 1, cy1 := p.row y + 1, level := 0,
        scan := { searched := 0, found := none, min_dist := 10 ^ 20 } } := by
    refine ⟨le_refl _, ⟨by simp, by simp⟩, ⟨by simp, by simp⟩, [], ?_, ?_⟩
    · intro q
      simp only [List.not_mem_nil, false_iff, not_exists, not_and, Partition2D.inSquare]
      intro i j hij
      omega
    · exact ⟨rfl, by simp, Or.inl ⟨rfl, rfl⟩⟩
  obtain ⟨k, hk, hcov, hres⟩ := searchLoop_spec p x y (p.column x) (p.row y) _ _ rfl hinv rfl
  refine ⟨k, hk, hcov, ?_⟩
  rcases hres with ⟨h1, h2, h3⟩ | ⟨h1, h2, h3, h4, h5⟩
  · exact Or.inl ⟨h1, h2, h3⟩
  · exact Or.inr ⟨h1, by simpa using h2, h3, h4, h5⟩

/-! ## The cells that `Initialize` and `addPointObjects` build -/

theorem toInt_of_nonneg {q : K} (h : 0 ≤ q) : toInt q = ⌊q⌋ := by
  unfold toInt
  rw [if_pos h]

theorem cellIndex_inj (d i j i' j' : Int) (hi : 0 ≤ i ∧ i < d) (hi' : 0 ≤ i' ∧ i' < d)
    (h : i + j * d = i' + j' * d) : i = i' ∧ j = j' := by
  have h1 : (i + j * d) % d = (i' + j' * d) % d := by rw [h]
  rw [Int.add_mul_emod_self, Int.add_mul_emod_self, Int.emod_eq_of_lt hi.1 hi.2,
    Int.emod_eq_of_lt hi'.1 hi'.2] at h1
  subst h1
  have hd : d ≠ 0 := by omega
  have h2 : j * d = j' * d := by omega
  exact ⟨rfl, mul_right_cancel₀ hd h2⟩

theorem cellIndex_range (d e i j : Int) (hi : 0 ≤ i ∧ i < d) (hj : 0 ≤ j ∧ j < e) :
    0 ≤ i + j * d ∧ i + j * d < d * e := by
  have h1 : 0 ≤ j * d := mul_nonneg hj.1 (by omega)
  have h2 : (j + 1) * d ≤ e * d := mul_le_mul_of_nonneg_right (by omega) (by omega)
  constructor
  · omega
  · nlinarith

theorem objectsAt_set (p : Partition2D K) (cells : List (Option (List (single_landmark_s K))))
    (i j : Int) :
    Partition2D.objectsAt { p with cells := cells } i j =
      (cells.getD (i + j * p.dim_x).toNat none).getD [] := rfl

/-- One insertion of a point that falls in the grid succeeds, changes the cell table only, and
stores the point in the cell of its coordinates. -/
theorem addPointObject_placed (p : Partition2D K) (pts : List (single_landmark_s K))
    (q : single_landmark_s K) (hlen : p.cells.length = (p.dim_x * p.dim_y).toNat)
    (hpl : p.Placed pts) (hq : p.InGrid q.x q.y) :
    ∃ cells, addPointObject p q = some { p with cells := cells } ∧
      cells.length = p.cells.length ∧
      Partition2D.Placed { p with cells := cells } (pts ++ [q]) := by
  obtain ⟨hcx, hcy⟩ := hq
  have hr := cellIndex_range p.dim_x p.dim_y _ _ hcx hcy
  have hidx : 0 ≤ p.cellIndex (p.column q.x) (p.row q.y) ∧
      p.cellIndex (p.column q.x) (p.row q.y) < (p.cells.length : Int) := by
    rw [hlen]
    unfold Partition2D.cellIndex
    omega
  have hnat : (p.cellIndex (p.column q.x) (p.row q.y)).toNat < p.cells.length := by omega
  have key : ∀ (n : Nat) (objs : List (single_landmark_s K)),
      n = (p.cellIndex (p.column q.x) (p.row q.y)).toNat →
      p.objectsAt (p.column q.x) (p.row q.y) = objs →
      Partition2D.Placed { p with cells := p.cells.set n (some (objs ++ [q])) } (pts ++ [q]) := by
    intro n objs hn hobjs i j hi hj r
    subst hn hobjs
    rw [objectsAt_set, List.getD_eq_getElem?_getD, List.getElem?_set]
    by_cases hsame : (p.cellIndex (p.column q.x) (p.row q.y)).toNat = (i + j * p.dim_x).toNat
    · have hr2 := cellIndex_range p.dim_x p.dim_y i j hi hj
      have heq : p.column q.x + p.row q.y * p.dim_x = i + j * p.dim_x := by
        unfold Partition2D.cellIndex at hsame hidx
        omega
      obtain ⟨h1, h2⟩ := cellIndex_inj p.dim_x _ _ _ _ hcx hi heq
      rw [if_pos hsame, if_pos hnat]
      simp only [Option.getD_some, List.mem_append, List.mem_singleton]
      rw [hpl _ _ hcx hcy r]
      constructor
      · rintro (⟨hr1, hc, hw⟩ | rfl)
        · exact ⟨Or.inl hr1, hc.trans h1, hw.trans h2⟩
        · exact ⟨Or.inr rfl, h1, h2⟩
      · rintro ⟨hr1 | rfl, hc, hw⟩
        · exact Or.inl ⟨hr1, hc.trans h1.symm, hw.trans h2.symm⟩
        · exact Or.inr rfl
    · rw [if_neg hsame]
      have hold : (p.cells[(i + j * p.dim_x).toNat]?.getD none).getD [] = p.objectsAt i j := by
        unfold Partition2D.objectsAt Partition2D.cell Partition2D.cellIndex
        rw [List.getD_eq_getElem?_getD]
      rw [hold, hpl i j hi hj r]
      simp only [List.mem_append, List.mem_singleton]
      constructor
      · rintro ⟨h1, h2, h3⟩
        exact ⟨Or.inl h1, h2, h3⟩
      · rintro ⟨h1 | rfl, h2, h3⟩
        · exact ⟨h1, h2, h3⟩
        · exfalso
          apply hsame
          have h2b : p.column r.x = i := h2
          have h3b : p.row r.y = j := h3
          show (p.column r.x + p.row r.y * p.dim_x).toNat = _
          rw [h2b, h3b]
  have hadd : ∀ n : Nat, n = (p.cellIndex (p.column q.x) (p.row q.y)).toNat →
      addPointObject p q =
        match p.cells.getD n none with
        | none => some { p with cells := p.cells.set n (some [q]) }
        | some objects => some { p with cells := p.cells.set n (some (objects ++ [q])) } := by
    intro n hn
    subst hn
    exact if_pos hidx
  rw [hadd _ rfl]
  cases hc : p.cells.getD (p.cellIndex (p.column q.x) (p.row q.y)).toNat none with
  | none =>
    refine ⟨_, rfl, by simp, ?_⟩
    have := key _ [] rfl (by unfold Partition2D.objectsAt Partition2D.cell; rw [hc]; rfl)
    simpa using this
  | some objects =>
    refine ⟨_, rfl, by simp, ?_⟩
    exact key _ objects rfl (by unfold Partition2D.objectsAt Partition2D.cell; rw [hc]; rfl)

/-- Inserting points that all fall in the grid succeeds, changes the cell table only, and stores
every point in the cell of its coordinates. -/
theorem addPointObjects_placed (objs : List (single_landmark_s K)) :
    ∀ (p : Partition2D K) (pts : List (single_landmark_s K)),
      p.cells.length = (p.dim_x * p.dim_y).toNat → p.Placed pts →
      (∀ q ∈ objs, p.InGrid q.x q.y) →
      ∃ cells, addPointObjects p objs = some { p with cells := cells } ∧
        Partition2D.Placed { p with cells := cells } (pts ++ objs) := by
  induction objs with
  | nil =>
    intro p pts _ hpl _
    exact ⟨p.cells, rfl, by simpa using hpl⟩
  | cons q objs ih =>
    intro p pts hlen hpl hin
    obtain ⟨cells, hadd, hlen2, hpl2⟩ :=
      addPointObject_placed p pts q hlen hpl (hin q (List.mem_cons_self _ _))
    obtain ⟨cells2, hadd2, hpl3⟩ := ih { p with cells := cells } (pts ++ [q])
      (by rw [← hlen]; exact hlen2) hpl2 (fun r hr => hin r (List.mem_cons_of_mem _ hr))
    refine ⟨cells2, ?_, ?_⟩
    · unfold addPointObjects at hadd2 ⊢
      rw [List.foldlM_cons, hadd]
      exact hadd2
    · simpa [List.append_assoc] using hpl3

/-- The index that `Initialize` builds: its fields, and that no cell holds an object. -/
theorem Initialize_some (x0 y0 x1 y1 cell_size max_dist : K) (hx : x0 < x1) (hy : y0 < y1)
    (hc : 0 < cell_size) :
    ∃ p : Partition2D K, Initialize x0 y0 x1 y1 cell_size max_dist = some p ∧
      (p.world_x0 = x0 ∧ p.world_y0 = y0 ∧ p.cell_size = cell_size) ∧
      (p.dim_x = ⌈(x1 - x0) / cell_size⌉ ∧ p.dim_y = ⌈(y1 - y0) / cell_size⌉) ∧
      p.search_levels = toInt (max_dist / cell_size + 1 / 2) ∧
      p.cells.length = (p.dim_x * p.dim_y).toNat ∧ (∀ i j, p.objectsAt i j = []) := by
  refine ⟨_, by unfold Initialize; rw [if_pos ⟨hx, hy⟩, if_pos hc], ⟨rfl, rfl, rfl⟩, ⟨rfl, rfl⟩,
    rfl, by simp, ?_⟩
  intro i j
  simp only [Partition2D.objectsAt, Partition2D.cell, List.getD_eq_getElem?_getD,
    List.getElem?_replicate]
  split <;> rfl

/-- A coordinate inside the world falls in a column (or row) of the grid. -/
theorem axis_inGrid (a0 a1 cell_size a : K) (hc : 0 < cell_size) (h0 : a0 ≤ a) (h1 : a < a1) :
    0 ≤ toInt ((a - a0) / cell_size) ∧ toInt ((a - a0) / cell_size) < ⌈(a1 - a0) / cell_size⌉ := by
  have hnn : 0 ≤ (a - a0) / cell_size := div_nonneg (by linarith) hc.le
  rw [toInt_of_nonneg hnn]
  refine ⟨Int.floor_nonneg.2 hnn, ?_⟩
  have hlt : (a - a0) / cell_size < (a1 - a0) / cell_size :=
    div_lt_div_of_pos_right (by linarith) hc
  have h3 : ((⌊(a - a0) / cell_size⌋ : Int) : K) < ((⌈(a1 - a0) / cell_size⌉ : Int) : K) :=
    lt_of_le_of_lt (Int.floor_le _) (lt_of_lt_of_le hlt (Int.le_ceil _))
  exact_mod_cast h3

/-! ## Results on `findNearest` -/

theorem inSquare_pos {p : Partition2D K} {cx cy k i j : Int} (h : p.inSquare cx cy k i j) :
    1 ≤ k ∧ (0 ≤ i ∧ i < p.dim_x) ∧ (0 ≤ j ∧ j < p.dim_y) := by
  unfold Partition2D.inSquare at h
  omega

theorem inSquare_mono {p : Partition2D K} {cx cy k k' i j : Int} (hk : k ≤ k')
    (h : p.inSquare cx cy k i j) : p.inSquare cx cy k' i j := by
  unfold Partition2D.inSquare at h ⊢
  omega

/-- When `findNearest` finds nothing, no object of the level-`search_levels` square is within
the initial `min_dist`, and every object examined was in that square. -/
theorem searchEnd_none (p : Partition2D K) (x y : K)
    (h : (searchEnd p x y).scan.found = none) :
    NoneWithin p x y (p.column x) (p.row y) p.search_levels ∧
      ((∀ i j, p.inSquare (p.column x) (p.row y) p.search_levels i j → p.objectsAt i j = []) →
        (searchEnd p x y).scan.searched = 0) := by
  obtain ⟨k, hk0, hcov, hres⟩ := searchEnd_spec p x y
  rcases hres with ⟨-, hk, -⟩ | ⟨hne, -⟩
  · constructor
    · intro i j hij q hq
      have h1 := (inSquare_pos hij).1
      exact covered_noneWithin hcov h i j (inSquare_mono (by omega) hij) q hq
    · intro hempty
      obtain ⟨seen, hmem, hn, -, -⟩ := hcov
      have hseen : seen = [] := by
        apply List.eq_nil_iff_forall_not_mem.2
        intro q hq
        obtain ⟨i, j, hij, hqc⟩ := (hmem q).1 hq
        have h1 := (inSquare_pos hij).1
        rw [hempty i j (inSquare_mono (by omega) hij)] at hqc
        exact absurd hqc (List.not_mem_nil q)
      rw [hn, hseen]
      rfl
  · exact absurd h hne

/-- When `findNearest` finds the object `e`, the loop stopped at a level `k`: no object of the
square of the level before is within the initial `min_dist`, and `e` is an object of the
level-`k` square that is nearest to the query among the objects of that square. -/
theorem searchEnd_found (p : Partition2D K) (x y : K) (e : single_landmark_s K)
    (h : (searchEnd p x y).scan.found = some e) :
    ∃ k, (1 ≤ k ∧ k ≤ p.search_levels) ∧ (searchEnd p x y).level = k ∧
      NoneWithin p x y (p.column x) (p.row y) (k - 1) ∧
      (∃ i j, p.inSquare (p.column x) (p.row y) k i j ∧ e ∈ p.objectsAt i j) ∧
      ((searchEnd p x y).scan.min_dist = dist x y e.x e.y ∧ dist x y e.x e.y < 10 ^ 20) ∧
      (∀ i j, p.inSquare (p.column x) (p.row y) k i j →
        ∀ q ∈ p.objectsAt i j, dist x y e.x e.y ≤ dist x y q.x q.y) ∧
      1 ≤ (searchEnd p x y).scan.searched := by
  obtain ⟨k, hk0, hcov, hres⟩ := searchEnd_spec p x y
  rcases hres with ⟨hnone, -⟩ | ⟨-, hk1, hkL, hlev, hbefore⟩
  · rw [hnone] at h
    cases h
  · obtain ⟨seen, hmem, hn, hmin, hfound⟩ := hcov
    rcases hfound with ⟨hnone, -⟩ | ⟨e2, he2, hf2, hd2, h20⟩
    · rw [hnone] at h
      cases h
    · rw [h] at hf2
      cases hf2
      refine ⟨k, ⟨hk1, hkL⟩, hlev, hbefore, (hmem e).1 he2, ⟨hd2, h20⟩, ?_, ?_⟩
      · intro i j hij q hq
        rw [← hd2]
        exact hmin q ((hmem q).2 ⟨i, j, hij, hq⟩)
      · rw [hn]
        exact List.length_pos_of_mem he2

theorem findNearest_fst (m : Libm K) (p : Partition2D K) (x y : K) :
    (findNearest m p x y).1 = (searchEnd p x y).scan.found := rfl

/-! ## The claims on `Partition2D` -/

theorem toNat_three : Int.toNat 3 = 3 := rfl

theorem toNat_four : Int.toNat 4 = 4 := rfl

theorem intRange_zero_one : intRange 0 1 = [0] := rfl

theorem intRange_zero_two : intRange 0 2 = [0, 1] := rfl

/-- The run of `findNearest` on the grid of two cells with one search level, for a query in
the left cell: the only cell scanned is the empty left cell. -/
theorem twoCells_one_level :
    findNearest realLibm (twoCells 1) (1 / 2) (1 / 2) = (none, -1, 0) := by
  unfold findNearest searchEnd
  norm_num [toInt, twoCells]
  rw [searchLoop]
  norm_num [ringStep, scanWindow, intRange_zero_one, intRange_zero_two, scanCell,
    Partition2D.cell, Partition2D.cellIndex]
  rw [searchLoop]
  norm_num [ringStep, scanWindow, intRange_zero_one, intRange_zero_two, scanCell,
    Partition2D.cell, Partition2D.cellIndex]

/-- The index that `Initialize` and then `addPointObjects` build from points that all lie in
the world rectangle (right and upper border excluded): both calls succeed, the index has the
cell table of the result and the other fields of the initial index, and every cell of the grid
holds the points of its coordinates. -/
theorem build_placed (x0 y0 x1 y1 cell_size max_dist : K) (pts : List (single_landmark_s K))
    (hx : x0 < x1) (hy : y0 < y1) (hc : 0 < cell_size)
    (hin : ∀ q ∈ pts, (x0 ≤ q.x ∧ q.x < x1) ∧ (y0 ≤ q.y ∧ q.y < y1)) :
    ∃ p0 p : Partition2D K, Initialize x0 y0 x1 y1 cell_size max_dist = some p0 ∧
      addPointObjects p0 pts = some p ∧
      (p.world_x0 = x0 ∧ p.world_y0 = y0 ∧ p.cell_size = cell_size) ∧
      p.search_levels = toInt (max_dist / cell_size + 1 / 2) ∧
      p.Placed pts ∧ (∀ q ∈ pts, p.InGrid q.x q.y) := by
  obtain ⟨p0, hinit, ⟨hw0, hw1, hcs⟩, ⟨hdx, hdy⟩, hlev, hlen, hempty⟩ :=
    Initialize_some x0 y0 x1 y1 cell_size max_dist hx hy hc
  have hpl0 : p0.Placed [] := by
    intro i j _ _ q
    rw [hempty i j]
    simp
  have hgrid : ∀ q ∈ pts, p0.InGrid q.x q.y := by
    intro q hq
    unfold Partition2D.InGrid Partition2D.column Partition2D.row
    rw [hw0, hw1, hcs, hdx, hdy]
    exact ⟨axis_inGrid x0 x1 cell_size q.x hc (hin q hq).1.1 (hin q hq).1.2,
      axis_inGrid y0 y1 cell_size q.y hc (hin q hq).2.1 (hin q hq).2.2⟩
  obtain ⟨cells, hadd, hpl⟩ := addPointObjects_placed pts p0 [] hlen hpl0 hgrid
  exact ⟨p0, _, hinit, hadd, ⟨hw0, hw1, hcs⟩, hlev, by simpa using hpl, hgrid⟩

/-- The self-match round trip in exact arithmetic, where the cell of a point is the same on
insertion and on lookup: on an index built by `Initialize` (valid rectangle, positive cell size,
at least one search level) and `addPointObjects` from points of pairwise distinct coordinates
inside the rectangle, `findNearest` at the coordinates of an inserted point returns that point,
with distance `0` (the square root of `0` being `0`). In the arithmetic of the code the two
cells can differ. -/
theorem findNearest_self_match (m : Libm K) (hsqrt : m.sqrt 0 = 0)
    (x0 y0 x1 y1 cell_size max_dist : K) (pts : List (single_landmark_s K))
    (hx : x0 < x1) (hy : y0 < y1) (hc : 0 < cell_size)
    (hL : 1 ≤ toInt (max_dist / cell_size + 1 / 2))
    (hin : ∀ q ∈ pts, (x0 ≤ q.x ∧ q.x < x1) ∧ (y0 ≤ q.y ∧ q.y < y1))
    (hdistinct : pts.Pairwise (fun q r => ¬ (q.x = r.x ∧ q.y = r.y))) :
    ∃ p0 p : Partition2D K, Initialize x0 y0 x1 y1 cell_size max_dist = some p0 ∧
      addPointObjects p0 pts = some p ∧
      ∀ q ∈ pts, (findNearest m p q.x q.y).1 = some q ∧ (findNearest m p q.x q.y).2.1 = 0 := by
  obtain ⟨p0, p, hinit, hadd, -, hlev, hpl, hgrid⟩ :=
    build_placed x0 y0 x1 y1 cell_size max_dist pts hx hy hc hin
  refine ⟨p0, p, hinit, hadd, ?_⟩
  intro q hq
  have hg := hgrid q hq
  have hqcell : q ∈ p.objectsAt (p.column q.x) (p.row q.y) :=
    (hpl _ _ hg.1 hg.2 q).2 ⟨hq, rfl, rfl⟩
  have hdq : dist q.x q.y q.x q.y = 0 := by simp [dist, square]
  have hsq : ∀ k, 1 ≤ k → p.inSquare (p.column q.x) (p.row q.y) k (p.column q.x) (p.row q.y) := by
    intro k hk
    obtain ⟨h1, h2⟩ := hg
    unfold Partition2D.inSquare
    omega
  cases hf : (searchEnd p q.x q.y).scan.found with
  | none =>
    have h20 := (searchEnd_none p q.x q.y hf).1 _ _ (hsq _ (by rw [hlev]; exact hL)) q hqcell
    rw [hdq] at h20
    exact absurd h20 (by norm_num)
  | some e =>
    obtain ⟨k, ⟨hk1, -⟩, -, -, ⟨i, j, hij, he⟩, ⟨hmin, -⟩, hall, -⟩ :=
      searchEnd_found p q.x q.y e hf
    have hle := hall _ _ (hsq k hk1) q hqcell
    rw [hdq] at hle
    have he0 : dist q.x q.y e.x e.y = 0 := le_antisymm hle (dist_nonneg _ _ _ _)
    have hpos := inSquare_pos hij
    have hept : e ∈ pts := ((hpl i j hpos.2.1 hpos.2.2 e).1 he).1
    have hcoord : e.x = q.x ∧ e.y = q.y := by
      unfold dist square at he0
      constructor
      · nlinarith [mul_self_nonneg (e.x - q.x), mul_self_nonneg (e.y - q.y)]
      · nlinarith [mul_self_nonneg (e.x - q.x), mul_self_nonneg (e.y - q.y)]
    have heq : e = q := by
      by_contra hne
      have hsymm : Symmetric (fun q r : single_landmark_s K => ¬ (q.x = r.x ∧ q.y = r.y)) := by
        intro a b hab hba
        exact hab ⟨hba.1.symm, hba.2.symm⟩
      exact hdistinct.forall hsymm hept hq hne hcoord
    subst heq
    refine ⟨by rw [findNearest_fst, hf], ?_⟩
    unfold findNearest
    simp only [hf, Option.isSome_some, if_true, hmin, he0, hsqrt]

/-- Two coordinates at most one cell size apart fall in the same or in adjacent cells. -/
theorem floor_step (a b : K) (h1 : a ≤ b) (h2 : b ≤ a + 1) : ⌊a⌋ ≤ ⌊b⌋ ∧ ⌊b⌋ ≤ ⌊a⌋ + 1 := by
  refine ⟨Int.floor_le_floor h1, ?_⟩
  rw [← Int.floor_add_one]
  exact Int.floor_le_floor h2

/-- The worked example in exact arithmetic: for every rectangle with `x0 ≤ 0`, `y0 ≤ 0`,
`10 < x1` and `10 < y1`, the index built with cell size `5` and maximum search distance `20`
from the three points `(0,0)`, `(10,0)` and `(0,10)` answers `findNearest(1, 1)` with the point
at `(0,0)`, the distance `sqrt 2` and a count of examined objects of at least one. -/
theorem findNearest_worked_example (m : Libm K) (x0 y0 x1 y1 : K) (ida idb idc : Int)
    (hx0 : x0 ≤ 0) (hy0 : y0 ≤ 0) (hx1 : 10 < x1) (hy1 : 10 < y1) :
    ∃ p0 p : Partition2D K, Initialize x0 y0 x1 y1 5 20 = some p0 ∧
      addPointObjects p0
          [{ id := ida, x := 0, y := 0 }, { id := idb, x := 10, y := 0 },
            { id := idc, x := 0, y := 10 }] = some p ∧
      (findNearest m p 1 1).1 = some { id := ida, x := 0, y := 0 } ∧
      (findNearest m p 1 1).2.1 = m.sqrt 2 ∧ 1 ≤ (findNearest m p 1 1).2.2 := by
  obtain ⟨p0, p, hinit, hadd, ⟨hw0, hw1, hcs⟩, hlev, hpl, hgrid⟩ :=
    build_placed x0 y0 x1 y1 5 20
      [{ id := ida, x := 0, y := 0 }, { id := idb, x := 10, y := 0 },
        { id := idc, x := 0, y := 10 }]
      (by linarith) (by linarith) (by norm_num)
      (by
        intro q hq
        simp only [List.mem_cons, List.mem_singleton, List.not_mem_nil, or_false] at hq
        rcases hq with rfl | rfl | rfl <;> dsimp only <;>
          refine ⟨⟨?_, ?_⟩, ⟨?_, ?_⟩⟩ <;> linarith)
  refine ⟨p0, p, hinit, hadd, ?_⟩
  have hL : p.search_levels = 4 := by
    rw [hlev]
    norm_num [toInt]
  -- the cells of the query and of the three points
  have hcol : ∀ a : K, 0 ≤ a → p.column a = ⌊(a - x0) / 5⌋ := by
    intro a ha
    unfold Partition2D.column
    rw [hw0, hcs]
    exact toInt_of_nonneg (div_nonneg (by linarith) (by norm_num))
  have hrow : ∀ a : K, 0 ≤ a → p.row a = ⌊(a - y0) / 5⌋ := by
    intro a ha
    unfold Partition2D.row
    rw [hw1, hcs]
    exact toInt_of_nonneg (div_nonneg (by linarith) (by norm_num))
  have hA := hgrid { id := ida, x := 0, y := 0 } (by simp)
  have hB := hgrid { id := idb, x := 10, y := 0 } (by simp)
  have hC := hgrid { id := idc, x := 0, y := 10 } (by simp)
  simp only [Partition2D.InGrid] at hA hB hC
  have hx01 := floor_step ((0 - x0) / 5) ((1 - x0) / 5) (by linarith) (by linarith)
  have hy01 := floor_step ((0 - y0) / 5) ((1 - y0) / 5) (by linarith) (by linarith)
  have hx10 : ⌊(1 - x0) / 5⌋ + 1 ≤ ⌊(10 - x0) / 5⌋ := by
    rw [← Int.floor_add_one]
    exact Int.floor_le_floor (by linarith)
  have hy10 : ⌊(1 - y0) / 5⌋ + 1 ≤ ⌊(10 - y0) / 5⌋ := by
    rw [← Int.floor_add_one]
    exact Int.floor_le_floor (by linarith)
  rw [← hcol 0 le_rfl, ← hcol 1 zero_le_one] at hx01
  rw [← hrow 0 le_rfl, ← hrow 1 zero_le_one] at hy01
  rw [← hcol 1 zero_le_one, ← hcol 10 (by norm_num)] at hx10
  rw [← hrow 1 zero_le_one, ← hrow 10 (by norm_num)] at hy10
  have hAcell : ({ id := ida, x := 0, y := 0 } : single_landmark_s K) ∈
      p.objectsAt (p.column 0) (p.row 0) :=
    (hpl _ _ hA.1 hA.2 _).2 ⟨by simp, rfl, rfl⟩
  have hdA : dist (1 : K) 1 0 0 = 2 := by norm_num [dist, square]
  have hdB : dist (1 : K) 1 10 0 = 82 := by norm_num [dist, square]
  have hdC : dist (1 : K) 1 0 10 = 82 := by norm_num [dist, square]
  have hAsq : ∀ k, 2 ≤ k → p.inSquare (p.column 1) (p.row 1) k (p.column 0) (p.row 0) := by
    intro k hk
    unfold Partition2D.inSquare
    omega
  cases hf : (searchEnd p 1 1).scan.found with
  | none =>
    have h20 := (searchEnd_none p 1 1 hf).1 _ _ (hAsq _ (by rw [hL]; norm_num)) _ hAcell
    rw [hdA] at h20
    exact absurd h20 (by norm_num)
  | some e =>
    obtain ⟨k, ⟨hk1, -⟩, -, -, ⟨i, j, hij, he⟩, ⟨hmin, -⟩, hall, hcount⟩ :=
      searchEnd_found p 1 1 e hf
    have hpos := inSquare_pos hij
    obtain ⟨hept, hei, hej⟩ := (hpl i j hpos.2.1 hpos.2.2 e).1 he
    have heA : e = { id := ida, x := 0, y := 0 } := by
      simp only [List.mem_cons, List.mem_singleton, List.not_mem_nil, or_false] at hept
      rcases hept with rfl | rfl | rfl
      · rfl
      · exfalso
        have hk2 : 2 ≤ k := by
          unfold Partition2D.inSquare at hij
          dsimp only at hei hej
          omega
        have hle := hall _ _ (hAsq k hk2) _ hAcell
        rw [hdA, hdB] at hle
        norm_num at hle
      · exfalso
        have hk2 : 2 ≤ k := by
          unfold Partition2D.inSquare at hij
          dsimp only at hei hej
          omega
        have hle := hall _ _ (hAsq k hk2) _ hAcell
        rw [hdA, hdC] at hle
        norm_num at hle
    subst heA
    refine ⟨by rw [findNearest_fst, hf], ?_, hcount⟩
    unfold findNearest
    simp only [hf, Option.isSome_some, if_true, hmin, hdA]

/-! ## The loops of the particle filter -/

/-- The loop of `init` appends one particle for each iteration. -/
theorem foldl_push {α : Type} (f : Nat → α) (n : Nat) (l : List α) :
    (List.range n).foldl (fun acc i => acc ++ [f i]) l = l ++ (List.range n).map f := by
  induction n with
  | zero => simp
  | succ n ih => simp [List.range_succ, List.foldl_append, ih]

theorem init_particles (m : Libm K) (pf : ParticleFilter K) (x y theta : K) (std : K × K × K)
    (noise : Nat → K × K × K) :
    (pf.init m x y theta std noise).particles =
      pf.particles ++ (List.range pf.num_particles.toNat).map (fun i =>
        Particle.new (Int.ofNat i) (x + (noise i).1) (y + (noise i).2.1)
          (theta + m.normalizeAngle (noise i).2.2) 1) := by
  unfold ParticleFilter.init
  exact foldl_push _ _ _

/-- A loop that updates `particles[i]` in place for `i < n`, on a vector of at least `n`
particles: it ends, keeps the length, and changes each of the first `n` particles by the
update of its own iteration. -/
theorem foldlM_updateAt (f : Nat → Particle K → Particle K) (n : Nat) (ps : List (Particle K))
    (h : n ≤ ps.length) :
    ∃ ps', (List.range n).foldlM (fun particles i => updateAt (f i) particles i) ps = some ps' ∧
      ps'.length = ps.length ∧ (∀ i, i < n → ps'[i]? = ps[i]?.map (f i)) ∧
      (∀ i, n ≤ i → ps'[i]? = ps[i]?) := by
  induction n with
  | zero => exact ⟨ps, rfl, rfl, fun i hi => absurd hi (Nat.not_lt_zero i), fun _ _ => rfl⟩
  | succ n ih =>
    obtain ⟨ps1, hrun, hlen, hlow, hhigh⟩ := ih (Nat.le_of_succ_le h)
    have hn : n < ps.length := h
    have hget : ps1[n]? = some ps[n] := by
      rw [hhigh n (le_refl n), List.getElem?_eq_getElem hn]
    refine ⟨ps1.set n (f n ps[n]), ?_, by rw [List.length_set, hlen], ?_, ?_⟩
    · rw [List.range_succ, List.foldlM_append, hrun]
      simp [updateAt, hget]
    · intro i hi
      rw [List.getElem?_set]
      by_cases hin : n = i
      · subst hin
        rw [if_pos rfl, if_pos (by rw [hlen]; exact hn), List.getElem?_eq_getElem hn]
        rfl
      · rw [if_neg hin]
        exact hlow i (by omega)
    · intro i hi
      rw [List.getElem?_set, if_neg (by omega)]
      exact hhigh i (by omega)

/-- The loop of `updateWeights` over the particles, on a vector of at least `n` particles: it
ends, keeps the length of the vector, changes each of the first `n` particles by the update of
its own iteration and pushes the weights in the order of the particles. -/
theorem foldlM_weigh (w : Particle K → Particle K × K) (n : Nat) (ps : List (Particle K))
    (h : n ≤ ps.length) :
    ∃ ps' ws',
      (List.range n).foldlM
          (fun (st : List (Particle K) × List K) i =>
            match st.1[i]? with
            | none => none
            | some particle => some (st.1.set i (w particle).1, st.2 ++ [(w particle).2]))
          (ps, []) = some (ps', ws') ∧
        ps'.length = ps.length ∧ ws'.length = n ∧
        (∀ i, i < n → ps'[i]? = ps[i]?.map (fun q => (w q).1)) ∧
        (∀ i, i < n → ws'[i]? = ps[i]?.map (fun q => (w q).2)) ∧
        (∀ i, n ≤ i → ps'[i]? = ps[i]?) := by
  induction n with
  | zero =>
    exact ⟨ps, [], rfl, rfl, rfl, fun i hi => absurd hi (Nat.not_lt_zero i),
      fun i hi => absurd hi (Nat.not_lt_zero i), fun _ _ => rfl⟩
  | succ n ih =>
    obtain ⟨ps1, ws1, hrun, hlen, hwlen, hlow, hwlow, hhigh⟩ := ih (Nat.le_of_succ_le h)
    have hn : n < ps.length := h
    have hget : ps1[n]? = some ps[n] := by
      rw [hhigh n (le_refl n), List.getElem?_eq_getElem hn]
    refine ⟨ps1.set n (w ps[n]).1, ws1 ++ [(w ps[n]).2], ?_, by rw [List.length_set, hlen],
      by simp [hwlen], ?_, ?_, ?_⟩
    · rw [List.range_succ, List.foldlM_append, hrun]
      simp [hget]
    · intro i hi
      rw [List.getElem?_set]
      by_cases hin : n = i
      · subst hin
        rw [if_pos rfl, if_pos (by rw [hlen]; exact hn), List.getElem?_eq_getElem hn]
        rfl
      · rw [if_neg hin]
        exact hlow i (by omega)
    · intro i hi
      by_cases hin : i = n
      · subst hin
        have hlast := List.getElem?_concat_length ws1 (w ps[i]).2
        rw [hwlen] at hlast
        rw [hlast, List.getElem?_eq_getElem hn]
        rfl
      · rw [List.getElem?_append_left (by omega)]
        exact hwlow i (by omega)
    · intro i hi
      rw [List.getElem?_set, if_neg (by omega)]
      exact hhigh i (by omega)

/-- The loop of `resample`, when every index drawn is inside the vector of particles: it ends
with `n` samples, the `i`-th being the particle at the `i`-th index drawn. -/
theorem foldlM_sample (ps : List (Particle K)) (d : Nat → Nat) (n : Nat)
    (h : ∀ i, i < n → d i < ps.length) :
    ∃ samples,
      (List.range n).foldlM
          (fun (samples : List (Particle K)) i =>
            match ps[d i]? with
            | none => none
            | some particle => some (samples ++ [particle]))
          [] = some samples ∧
        samples.length = n ∧ ∀ i, i < n → samples[i]? = ps[d i]? := by
  induction n with
  | zero => exact ⟨[], rfl, rfl, fun i hi => absurd hi (Nat.not_lt_zero i)⟩
  | succ n ih =>
    obtain ⟨s1, hrun, hlen, hlow⟩ := ih (fun i hi => h i (by omega))
    have hd : d n < ps.length := h n (by omega)
    refine ⟨s1 ++ [ps[d n]], ?_, by simp [hlen], ?_⟩
    · rw [List.range_succ, List.foldlM_append, hrun]
      simp [List.getElem?_eq_getElem hd]
    · intro i hi
      by_cases hin : i = n
      · subst hin
        have hlast := List.getElem?_concat_length s1 ps[d i]
        rw [hlen] at hlast
        rw [hlast, List.getElem?_eq_getElem hd]
      · rw [List.getElem?_append_left (by omega)]
        exact hlow i (by omega)

/-! ## The operations of the particle filter -/

/-- The call of `prediction` on a filter that holds at least `num_particles` particles: it ends, keeps the
number of particles and every other field, and changes each of the first `num_particles`
particles by `predictParticle` with the noise of its own iteration. -/
theorem prediction_spec (m : Libm K) (pf : ParticleFilter K) (delta_t velocity yaw_rate : K)
    (noise : Nat → K × K × K) (h : pf.num_particles.toNat ≤ pf.particles.length) :
    ∃ pf', pf.prediction m delta_t velocity yaw_rate noise = some pf' ∧
      (pf'.num_particles = pf.num_particles ∧ pf'.weights = pf.weights ∧
        pf'.is_initialized = pf.is_initialized) ∧
      pf'.particles.length = pf.particles.length ∧
      (∀ i, i < pf.num_particles.toNat → pf'.particles[i]? =
        pf.particles[i]?.map (predictParticle m delta_t velocity yaw_rate (noise i))) ∧
      (∀ i, pf.num_particles.toNat ≤ i → pf'.particles[i]? = pf.particles[i]?) := by
  obtain ⟨ps', hrun, hlen, hlow, hhigh⟩ :=
    foldlM_updateAt (fun i => predictParticle m delta_t velocity yaw_rate (noise i)) _ _ h
  refine ⟨{ pf with particles := ps' }, ?_, ⟨rfl, rfl, rfl⟩, hlen, hlow, hhigh⟩
  unfold ParticleFilter.prediction
  rw [hrun]
  rfl

/-- The call of `updateWeights` on a filter that holds at least `num_particles` particles: it ends, keeps
the number of particles, changes each of the first `num_particles` particles by
`weighParticle`, and leaves in `weights` the weights of these particles, in their order. -/
theorem updateWeights_spec (m : Libm K) (pf : ParticleFilter K) (sensor_range : K)
    (std_landmark : K × K) (observations : List (LandmarkObs K)) (partition : Partition2D K)
    (h : pf.num_particles.toNat ≤ pf.particles.length) :
    ∃ pf', pf.updateWeights m sensor_range std_landmark observations partition = some pf' ∧
      (pf'.num_particles = pf.num_particles ∧ pf'.is_initialized = pf.is_initialized) ∧
      pf'.particles.length = pf.particles.length ∧
      pf'.weights.length = pf.num_particles.toNat ∧
      (∀ i, i < pf.num_particles.toNat → pf'.particles[i]? =
        pf.particles[i]?.map
          (fun q => (weighParticle m std_landmark observations partition q).1)) ∧
      (∀ i, i < pf.num_particles.toNat → pf'.weights[i]? =
        pf.particles[i]?.map
          (fun q => (weighParticle m std_landmark observations partition q).2)) ∧
      (∀ i, pf.num_particles.toNat ≤ i → pf'.particles[i]? = pf.particles[i]?) := by
  obtain ⟨ps', ws', hrun, hlen, hwlen, hlow, hwlow, hhigh⟩ :=
    foldlM_weigh (weighParticle m std_landmark observations partition) _ _ h
  refine ⟨{ pf with particles := ps', weights := ws' }, ?_, ⟨rfl, rfl⟩, hlen, hwlen, hlow,
    hwlow, hhigh⟩
  unfold ParticleFilter.updateWeights
  rw [hrun]
  rfl

/-- The call of `resample`, when every index drawn is inside the vector of particles: it ends with exactly
`num_particles` particles, the `i`-th being the particle at the `i`-th index drawn. -/
theorem resample_spec (pf : ParticleFilter K) (distribution : Nat → Nat)
    (h : ∀ i, i < pf.num_particles.toNat → distribution i < pf.particles.length) :
    ∃ pf', pf.resample distribution = some pf' ∧
      (pf'.num_particles = pf.num_particles ∧ pf'.weights = pf.weights ∧
        pf'.is_initialized = pf.is_initialized) ∧
      pf'.particles.length = pf.num_particles.toNat ∧
      (∀ i, i < pf.num_particles.toNat → pf'.particles[i]? = pf.particles[distribution i]?) := by
  obtain ⟨samples, hrun, hlen, hlow⟩ := foldlM_sample pf.particles distribution _ h
  refine ⟨{ pf with particles := samples }, ?_, ⟨rfl, rfl, rfl⟩, hlen, hlow⟩
  unfold ParticleFilter.resample
  rw [hrun]
  rfl

/-- A call other than `init`, with the indices that `resample` draws below `N`, keeps a filter
of `N` particles a filter of `N` particles. -/
theorem run_keeps_count (m : Libm K) (N : Nat) (pf : ParticleFilter K) (c : Call K)
    (hN : pf.num_particles = N ∧ pf.particles.length = N) (hc : c.isInit = false)
    (hd : ∀ d, c = Call.resample d → ∀ i, i < N → d i < N) :
    ∃ pf', c.run m pf = some pf' ∧ pf'.num_particles = N ∧ pf'.particles.length = N := by
  have hle : pf.num_particles.toNat ≤ pf.particles.length := by
    rw [hN.1, hN.2]
    simp
  cases c with
  | init x y theta std noise => cases hc
  | prediction delta_t velocity yaw_rate noise =>
    obtain ⟨pf', hrun, ⟨hnum, -, -⟩, hlen, -⟩ :=
      prediction_spec m pf delta_t velocity yaw_rate noise hle
    exact ⟨pf', hrun, hnum.trans hN.1, hlen.trans hN.2⟩
  | updateWeights sensor_range std_landmark observations partition =>
    obtain ⟨pf', hrun, ⟨hnum, -⟩, hlen, -⟩ :=
      updateWeights_spec m pf sensor_range std_landmark observations partition hle
    exact ⟨pf', hrun, hnum.trans hN.1, hlen.trans hN.2⟩
  | resample d =>
    obtain ⟨pf', hrun, ⟨hnum, -, -⟩, hlen, -⟩ := resample_spec pf d (by
      intro i hi
      rw [hN.1] at hi
      rw [hN.2]
      exact hd d rfl i (by simpa using hi))
    refine ⟨pf', hrun, hnum.trans hN.1, ?_⟩
    rw [hlen, hN.1]
    simp

theorem runCalls_keeps_count (m : Libm K) (N : Nat) (calls : List (Call K)) :
    ∀ pf : ParticleFilter K, (pf.num_particles = N ∧ pf.particles.length = N) →
      (∀ c ∈ calls, c.isInit = false) →
      (∀ d, Call.resample d ∈ calls → ∀ i, i < N → d i < N) →
      ∃ pf', runCalls m pf calls = some pf' ∧ pf'.num_particles = N ∧
        pf'.particles.length = N := by
  induction calls with
  | nil => intro pf hN _ _; exact ⟨pf, rfl, hN⟩
  | cons c calls ih =>
    intro pf hN hc hd
    obtain ⟨pf1, hrun1, hN1⟩ := run_keeps_count m N pf c hN (hc c (List.mem_cons_self _ _))
      (fun d hcd => hd d (by rw [hcd]; exact List.mem_cons_self _ _))
    obtain ⟨pf2, hrun2, hN2⟩ := ih pf1 hN1 (fun c' hc' => hc c' (List.mem_cons_of_mem _ hc'))
      (fun d hd' => hd d (List.mem_cons_of_mem _ hd'))
    refine ⟨pf2, ?_, hN2⟩
    unfold runCalls at hrun2 ⊢
    rw [List.foldlM_cons]
    show (c.run m pf).bind _ = _
    rw [hrun1]
    exact hrun2

/-! ## The claims on `ParticleFilter` -/

/-- C6, as the code has it: on a filter constructed with the particle count `N`, after the
first call, which is `init`, and after every later call of a sequence of `prediction`,
`updateWeights` and `resample` calls (no second `init`, every index that `resample` draws
below `N`), the operation has returned and the particle sequence has exactly `N` entries. -/
theorem particle_count_invariant (m : Libm K) (N : Nat) (x y theta : K) (std : K × K × K)
    (noise : Nat → K × K × K) (calls : List (Call K))
    (hcalls : ∀ c ∈ calls, c.isInit = false)
    (hdraws : ∀ d, Call.resample d ∈ calls → ∀ i, i < N → d i < N) (n : Nat) :
    ∃ pf, runCalls m (ParticleFilter.new (N : Int))
        (Call.init x y theta std noise :: calls.take n) = some pf ∧
      pf.particles.length = N := by
  have hinit : ((ParticleFilter.new (N : Int) : ParticleFilter K).init m x y theta std
      noise).num_particles = N ∧
      ((ParticleFilter.new (N : Int) : ParticleFilter K).init m x y theta std
        noise).particles.length = N := by
    refine ⟨rfl, ?_⟩
    rw [init_particles]
    simp [ParticleFilter.new]
  obtain ⟨pf, hrun, -, hlen⟩ := runCalls_keeps_count m N (calls.take n) _ hinit
    (fun c hc => hcalls c (List.mem_of_mem_take hc))
    (fun d hd => hdraws d (List.mem_of_mem_take hd))
  refine ⟨pf, ?_, hlen⟩
  unfold runCalls at hrun ⊢
  rw [List.foldlM_cons]
  exact hrun

/-- Witness of C6: a filter of two particles, `init` and then one cycle of `prediction`,
`updateWeights` and `resample`. -/
theorem particle_count_invariant_witness :
    (∀ c ∈ sampleCycle, c.isInit = false) ∧
      (∀ d, Call.resample d ∈ sampleCycle → ∀ i, i < 2 → d i < 2) ∧
      ∃ pf, runCalls realLibm (ParticleFilter.new ((2 : Nat) : Int))
          (Call.init 0 0 0 (0, 0, 0) noNoise :: sampleCycle.take 3) = some pf ∧
        pf.particles.length = 2 :=
  have h1 : ∀ c ∈ sampleCycle, c.isInit = false := by
    intro c hc
    simp only [sampleCycle, List.mem_cons, List.mem_singleton, List.not_mem_nil, or_false] at hc
    rcases hc with rfl | rfl | rfl <;> rfl
  have h2 : ∀ d, Call.resample d ∈ sampleCycle → ∀ i, i < 2 → d i < 2 := by
    intro d hd i _
    simp only [sampleCycle, List.mem_cons, List.mem_singleton, List.not_mem_nil, or_false,
      reduceCtorEq, false_or, Call.resample.injEq] at hd
    rw [hd]
    norm_num
  ⟨h1, h2, particle_count_invariant realLibm 2 0 0 0 (0, 0, 0) noNoise sampleCycle h1 h2 3⟩

/-- Counterexample to C6: on a filter constructed with particle count `2`, a second call of
`init` leaves four particles. -/
theorem particle_count_counterexample :
    ∃ pf, runCalls realLibm (ParticleFilter.new ((2 : Nat) : Int))
        [Call.init 0 0 0 (0, 0, 0) noNoise, Call.init 0 0 0 (0, 0, 0) noNoise] = some pf ∧
      pf.particles.length = 4 := by
  refine ⟨_, rfl, ?_⟩
  rw [init_particles, init_particles]
  simp [ParticleFilter.init, ParticleFilter.new]

/-- The wrap of `realLibm` sends every angle into `(-π, π]`. -/
theorem realLibm_normalizeAngle_range (a : ℝ) :
    -Real.pi < realLibm.normalizeAngle a ∧ realLibm.normalizeAngle a ≤ Real.pi := by
  have hpi := Real.pi_pos
  have h1 := Int.le_ceil ((a - Real.pi) / (2 * Real.pi))
  have h2 := Int.ceil_lt_add_one ((a - Real.pi) / (2 * Real.pi))
  have ht : 2 * Real.pi * ((a - Real.pi) / (2 * Real.pi)) = a - Real.pi := by
    field_simp
  have h3 := mul_le_mul_of_nonneg_left h1 (by linarith : (0 : ℝ) ≤ 2 * Real.pi)
  have h4 := mul_lt_mul_of_pos_left h2 (by linarith : (0 : ℝ) < 2 * Real.pi)
  show -Real.pi < a - 2 * Real.pi * ⌈(a - Real.pi) / (2 * Real.pi)⌉ ∧
    a - 2 * Real.pi * ⌈(a - Real.pi) / (2 * Real.pi)⌉ ≤ Real.pi
  constructor
  · nlinarith
  · nlinarith

theorem realLibm_normalizeAngle_zero : realLibm.normalizeAngle 0 = 0 := by
  have hpi := Real.pi_pos
  have hq : ((0 : ℝ) - Real.pi) / (2 * Real.pi) = -(1 / 2) := by
    field_simp
    ring
  show (0 : ℝ) - 2 * Real.pi * ⌈((0 : ℝ) - Real.pi) / (2 * Real.pi)⌉ = 0
  rw [hq]
  have hc : ⌈(-(1 / 2) : ℝ)⌉ = 0 := by
    rw [Int.ceil_eq_iff]
    norm_num
  rw [hc]
  simp

/-- The particles of the filter of one particle. -/
theorem oneParticle_particles (theta : ℝ) :
    (oneParticle theta).particles = [Particle.new 0 0 0 theta 1] ∧
      (oneParticle theta).num_particles = 1 := by
  refine ⟨?_, rfl⟩
  unfold oneParticle
  rw [init_particles]
  have h1 : Int.toNat 1 = 1 := rfl
  simp [ParticleFilter.new, h1, noNoise, realLibm_normalizeAngle_zero, List.range_succ]

/-- The call of `prediction` on the filter of one particle. -/
theorem oneParticle_prediction (theta delta_t velocity yaw_rate : ℝ) :
    (oneParticle theta).prediction realLibm delta_t velocity yaw_rate noNoise =
      some { oneParticle theta with
        particles := [predictParticle realLibm delta_t velocity yaw_rate (0, 0, 0)
          (Particle.new 0 0 0 theta 1)] } := by
  have h1 : Int.toNat 1 = 1 := rfl
  unfold ParticleFilter.prediction
  rw [(oneParticle_particles theta).1, (oneParticle_particles theta).2, h1]
  rfl

/-- C7, the code at a failing input: `init` with the initial heading `4` and zero noise leaves
a particle of heading `4`, and `prediction` with `yaw_rate * delta_t = 1` and zero noise moves
a particle of heading `3` to the heading `4`; `4` is above `π`, although the function
`normalizeAngle` in use sends every angle into `(-π, π]`. -/
theorem heading_outside_range :
    ((oneParticle 4).particles.map fun q => q.theta) = [4] ∧
      (((oneParticle 3).prediction realLibm 1 0 1 noNoise).map fun pf =>
        pf.particles.map fun q => q.theta) = some [4] ∧
      Real.pi < 4 ∧
      ∀ a, -Real.pi < realLibm.normalizeAngle a ∧ realLibm.normalizeAngle a ≤ Real.pi := by
  refine ⟨?_, ?_, Real.pi_lt_four, realLibm_normalizeAngle_range⟩
  · rw [(oneParticle_particles 4).1]
    rfl
  · rw [oneParticle_prediction]
    simp only [Option.map_some', List.map_cons, List.map_nil, predictParticle, Particle.new]
    rw [realLibm_normalizeAngle_zero]
    norm_num

/-- C8, the code at a failing input: with `yaw_rate = 0`, `velocity = 1`, `delta_t = 1/10` and
zero noise the particle at `(0, 0)` of heading `0` moves to `(1, 0)`, while the straight-line
formula `x + velocity * delta_t * cos(theta) + nx` gives the abscissa `1/10`. -/
theorem straight_line_without_delta_t :
    (((oneParticle 0).prediction realLibm (1 / 10) 1 0 noNoise).map fun pf =>
        pf.particles.map fun q => (q.x, q.y)) = some [(1, 0)] ∧
      (0 : ℝ) + 1 * (1 / 10) * realLibm.cos 0 + 0 = 1 / 10 ∧
      (0 : ℝ) + 1 * (1 / 10) * realLibm.sin 0 + 0 = 0 := by
  refine ⟨?_, ?_, ?_⟩
  · rw [oneParticle_prediction]
    simp only [Option.map_some', List.map_cons, List.map_nil, predictParticle, Particle.new]
    norm_num [realLibm]
  · norm_num [realLibm]
  · norm_num [realLibm]

/-- C9: on a filter whose particle sequence has `num_particles` entries, `prediction` with a yaw
rate of absolute value above `EPSILON` returns, and moves every particle `(x, y, theta)` to
`x + velocity / yaw_rate * (sin (theta + yaw_rate * delta_t) - sin theta) + nx` and
`y + velocity / yaw_rate * (cos theta - cos (theta + yaw_rate * delta_t)) + ny`, where `nx` and
`ny` are the noise values drawn for that particle: the new position depends on no other
particle. -/
theorem prediction_arc (m : Libm K) (pf : ParticleFilter K) (delta_t velocity yaw_rate : K)
    (noise : Nat → K × K × K) (hyaw : |yaw_rate| > m.EPSILON)
    (hN : pf.num_particles.toNat = pf.particles.length) :
    ∃ pf', pf.prediction m delta_t velocity yaw_rate noise = some pf' ∧
      pf'.particles.length = pf.particles.length ∧
      ∀ i, i < pf.particles.length → ∃ q q', pf.particles[i]? = some q ∧
        pf'.particles[i]? = some q' ∧
        q'.x = q.x + velocity / yaw_rate *
          (m.sin (q.theta + yaw_rate * delta_t) - m.sin q.theta) + (noise i).1 ∧
        q'.y = q.y + velocity / yaw_rate *
          (m.cos q.theta - m.cos (q.theta + yaw_rate * delta_t)) + (noise i).2.1 := by
  obtain ⟨pf', hrun, -, hlen, hlow, -⟩ :=
    prediction_spec m pf delta_t velocity yaw_rate noise (le_of_eq hN)
  refine ⟨pf', hrun, hlen, ?_⟩
  intro i hi
  refine ⟨pf.particles[i], predictParticle m delta_t velocity yaw_rate (noise i) pf.particles[i],
    List.getElem?_eq_getElem hi, ?_, ?_, ?_⟩
  · rw [hlow i (by rw [hN]; exact hi), List.getElem?_eq_getElem hi]
    rfl
  · simp only [predictParticle, if_pos hyaw]
    ring
  · simp only [predictParticle, if_pos hyaw]
    ring

/-- Witness of C9: the filter of one particle, with yaw rate `1`. -/
theorem prediction_arc_witness :
    |(1 : ℝ)| > realLibm.EPSILON ∧
      (oneParticle 0).num_particles.toNat = (oneParticle 0).particles.length ∧
      ∃ pf', (oneParticle 0).prediction realLibm 1 1 1 noNoise = some pf' ∧
        pf'.particles.length = (oneParticle 0).particles.length ∧
        ∀ i, i < (oneParticle 0).particles.length → ∃ q q', (oneParticle 0).particles[i]? = some q ∧
          pf'.particles[i]? = some q' ∧
          q'.x = q.x + 1 / 1 * (realLibm.sin (q.theta + 1 * 1) - realLibm.sin q.theta) +
            (noNoise i).1 ∧
          q'.y = q.y + 1 / 1 * (realLibm.cos q.theta - realLibm.cos (q.theta + 1 * 1)) +
            (noNoise i).2.1 :=
  have h1 : |(1 : ℝ)| > realLibm.EPSILON := by norm_num [realLibm]
  have h2 : (oneParticle 0).num_particles.toNat = (oneParticle 0).particles.length := by
    rw [(oneParticle_particles 0).1, (oneParticle_particles 0).2]
    rfl
  ⟨h1, h2, prediction_arc realLibm (oneParticle 0) 1 1 1 noNoise h1 h2⟩

/-- One observation multiplies the weight by the likelihood of the specification and leaves
the position of the particle as it is. -/
theorem observe_spec (m : Libm K) (hexp : ∀ a, m.exp (-a) = (m.exp a)⁻¹) (std_landmark : K × K)
    (partition : Partition2D K) (q : Particle K) (st : Particle K × K) (obs : LandmarkObs K)
    (hx : st.1.x = q.x) (hy : st.1.y = q.y) :
    (observe m std_landmark partition (m.sin q.theta) (m.cos q.theta) st obs).2 =
        st.2 * specLikelihood m std_landmark partition q obs ∧
      (observe m std_landmark partition (m.sin q.theta) (m.cos q.theta) st obs).1.x = q.x ∧
      (observe m std_landmark partition (m.sin q.theta) (m.cos q.theta) st obs).1.y = q.y := by
  unfold observe specLikelihood
  simp only [hx, hy]
  cases (findNearest m partition (q.x + obs.x * m.cos q.theta - obs.y * m.sin q.theta)
      (q.y + obs.x * m.sin q.theta + obs.y * m.cos q.theta)).1 with
  | none => exact ⟨rfl, hx, hy⟩
  | some nearest =>
    refine ⟨?_, rfl, rfl⟩
    simp only [square]
    rw [neg_div, hexp]
    ring_nf

theorem foldl_observe_spec (m : Libm K) (hexp : ∀ a, m.exp (-a) = (m.exp a)⁻¹)
    (std_landmark : K × K) (partition : Partition2D K) (q : Particle K)
    (observations : List (LandmarkObs K)) :
    ∀ st : Particle K × K, st.1.x = q.x → st.1.y = q.y →
      (observations.foldl (observe m std_landmark partition (m.sin q.theta) (m.cos q.theta))
        st).2 = st.2 * (observations.map (specLikelihood m std_landmark partition q)).prod := by
  induction observations with
  | nil => intro st _ _; simp
  | cons obs observations ih =>
    intro st hx hy
    obtain ⟨hw, hx2, hy2⟩ := observe_spec m hexp std_landmark partition q st obs hx hy
    rw [List.foldl_cons, ih _ hx2 hy2, hw, List.map_cons, List.prod_cons, mul_assoc]

/-- The weight that the loop over the observations leaves in a particle is the product of the
likelihoods of the observations. -/
theorem weighParticle_weight (m : Libm K) (hexp : ∀ a, m.exp (-a) = (m.exp a)⁻¹)
    (std_landmark : K × K) (observations : List (LandmarkObs K)) (partition : Partition2D K)
    (q : Particle K) :
    (weighParticle m std_landmark observations partition q).1.weight =
      (observations.map (specLikelihood m std_landmark partition q)).prod := by
  unfold weighParticle
  have h := foldl_observe_spec m hexp std_landmark partition q observations
    ({ q with associations := [], sense_x := [], sense_y := [] }, 1) rfl rfl
  simp only [one_mul] at h
  exact h

/-- The weight formula in exact arithmetic, without rounding, overflow or underflow: on a
filter whose particle sequence has `num_particles` entries (and with an exponential that
satisfies `exp (-a) = 1 / exp a`), `updateWeights` returns, and the weight of every particle is
then the product over the observations of the likelihood of the specification:
`1 / (2 π sx sy) * exp (-((dx / sx)^2 + (dy / sy)^2) / 20)` for the residual `(dx, dy)` to the
landmark that `findNearest` returns at the observation moved to the world frame of the
particle, and `1e-10` when `findNearest` returns none. -/
theorem updateWeights_weight_formula (m : Libm K) (hexp : ∀ a, m.exp (-a) = (m.exp a)⁻¹)
    (pf : ParticleFilter K) (sensor_range : K) (std_landmark : K × K)
    (observations : List (LandmarkObs K)) (partition : Partition2D K)
    (hN : pf.num_particles.toNat = pf.particles.length) :
    ∃ pf', pf.updateWeights m sensor_range std_landmark observations partition = some pf' ∧
      pf'.particles.length = pf.particles.length ∧
      ∀ i, i < pf.particles.length → ∃ q q', pf.particles[i]? = some q ∧
        pf'.particles[i]? = some q' ∧
        q'.weight = (observations.map (specLikelihood m std_landmark partition q)).prod := by
  obtain ⟨pf', hrun, -, hlen, -, hlow, -, -⟩ :=
    updateWeights_spec m pf sensor_range std_landmark observations partition (le_of_eq hN)
  refine ⟨pf', hrun, hlen, ?_⟩
  intro i hi
  refine ⟨pf.particles[i], (weighParticle m std_landmark observations partition
    pf.particles[i]).1, List.getElem?_eq_getElem hi, ?_, ?_⟩
  · rw [hlow i (by rw [hN]; exact hi), List.getElem?_eq_getElem hi]
    rfl
  · exact weighParticle_weight m hexp std_landmark observations partition _

/-! ## The scratch data and the weights of `updateWeights` -/

/-- One observation of a particle at the position of `q`: a match appends the landmark id and
the point in the world frame, no match multiplies the weight by the floor; the pose and the id
of the particle stay as they are. -/
theorem observe_step (m : Libm K) (std_landmark : K × K) (partition : Partition2D K)
    (q : Particle K) (st : Particle K × K) (obs : LandmarkObs K)
    (hx : st.1.x = q.x) (hy : st.1.y = q.y) :
    ((observe m std_landmark partition (m.sin q.theta) (m.cos q.theta) st obs).1.x = q.x ∧
      (observe m std_landmark partition (m.sin q.theta) (m.cos q.theta) st obs).1.y = q.y) ∧
    (observe m std_landmark partition (m.sin q.theta) (m.cos q.theta) st obs).1.associations =
      st.1.associations ++ ((matchOf m partition q obs).map fun l => l.id).toList ∧
    (observe m std_landmark partition (m.sin q.theta) (m.cos q.theta) st obs).1.sense_x =
      st.1.sense_x ++ ((matchOf m partition q obs).map fun _ => (toWorld m q obs).1).toList ∧
    (observe m std_landmark partition (m.sin q.theta) (m.cos q.theta) st obs).1.sense_y =
      st.1.sense_y ++ ((matchOf m partition q obs).map fun _ => (toWorld m q obs).2).toList ∧
    (matchOf m partition q obs = none →
      (observe m std_landmark partition (m.sin q.theta) (m.cos q.theta) st obs).2 =
        st.2 * (1 / 10 ^ 10)) := by
  unfold observe matchOf toWorld
  simp only [hx, hy]
  cases (findNearest m partition (q.x + obs.x * m.cos q.theta - obs.y * m.sin q.theta)
      (q.y + obs.x * m.sin q.theta + obs.y * m.cos q.theta)).1 with
  | none => exact ⟨⟨hx, hy⟩, by simp, by simp, by simp, fun _ => rfl⟩
  | some nearest =>
    exact ⟨⟨rfl, rfl⟩, rfl, rfl, rfl, fun h => Option.noConfusion h⟩

theorem filterMap_toList {α β : Type} (f : α → Option β) (a : α) (l : List α) :
    (f a).toList ++ l.filterMap f = (a :: l).filterMap f := by
  rw [List.filterMap_cons]
  cases f a <;> rfl

/-- The loop over the observations appends, in the order of the observations, the landmark id
and the point in the world frame of every observation that finds a match. -/
theorem foldl_observe_scratch (m : Libm K) (std_landmark : K × K) (partition : Partition2D K)
    (q : Particle K) (observations : List (LandmarkObs K)) :
    ∀ st : Particle K × K, st.1.x = q.x → st.1.y = q.y →
      (observations.foldl (observe m std_landmark partition (m.sin q.theta) (m.cos q.theta))
          st).1.associations =
        st.1.associations ++
          observations.filterMap (fun o => (matchOf m partition q o).map fun l => l.id) ∧
      (observations.foldl (observe m std_landmark partition (m.sin q.theta) (m.cos q.theta))
          st).1.sense_x =
        st.1.sense_x ++
          observations.filterMap
            (fun o => (matchOf m partition q o).map fun _ => (toWorld m q o).1) ∧
      (observations.foldl (observe m std_landmark partition (m.sin q.theta) (m.cos q.theta))
          st).1.sense_y =
        st.1.sense_y ++
          observations.filterMap
            (fun o => (matchOf m partition q o).map fun _ => (toWorld m q o).2) := by
  induction observations with
  | nil => intro st _ _; simp
  | cons obs observations ih =>
    intro st hx hy
    obtain ⟨⟨hx2, hy2⟩, ha, hsx, hsy, -⟩ :=
      observe_step m std_landmark partition q st obs hx hy
    obtain ⟨ia, isx, isy⟩ := ih _ hx2 hy2
    rw [List.foldl_cons, ia, isx, isy, ha, hsx, hsy]
    refine ⟨?_, ?_, ?_⟩
    · rw [List.append_assoc,
        filterMap_toList (fun o => (matchOf m partition q o).map fun l => l.id)]
    · rw [List.append_assoc,
        filterMap_toList (fun o => (matchOf m partition q o).map fun _ => (toWorld m q o).1)]
    · rw [List.append_assoc,
        filterMap_toList (fun o => (matchOf m partition q o).map fun _ => (toWorld m q o).2)]

/-- When no observation finds a match, the loop over the observations multiplies the weight by
the floor once for each observation. -/
theorem foldl_observe_unmatched (m : Libm K) (std_landmark : K × K) (partition : Partition2D K)
    (q : Particle K) (observations : List (LandmarkObs K)) :
    ∀ st : Particle K × K, st.1.x = q.x → st.1.y = q.y →
      (∀ o ∈ observations, matchOf m partition q o = none) →
      (observations.foldl (observe m std_landmark partition (m.sin q.theta) (m.cos q.theta))
        st).2 = st.2 * (1 / 10 ^ 10) ^ observations.length := by
  induction observations with
  | nil => intro st _ _ _; simp
  | cons obs observations ih =>
    intro st hx hy hnone
    obtain ⟨⟨hx2, hy2⟩, -, -, -, hw⟩ := observe_step m std_landmark partition q st obs hx hy
    rw [List.foldl_cons, ih _ hx2 hy2 (fun o ho => hnone o (List.mem_cons_of_mem _ ho)),
      hw (hnone obs (List.mem_cons_self _ _)), List.length_cons, pow_succ]
    ring

/-- The number of entries that the matched observations leave is the number of observations
that find a match. -/
theorem length_filterMap_matched {α β γ : Type} (g : α → Option β) (h : α → β → γ)
    (l : List α) :
    (l.filterMap fun o => (g o).map (h o)).length = (l.filter fun o => (g o).isSome).length := by
  induction l with
  | nil => rfl
  | cons a l ih =>
    rw [List.filterMap_cons, List.filter_cons]
    cases hg : g a with
    | none => simpa [hg] using ih
    | some b => simpa [hg] using ih

/-- The particle that the loop over the particles of `updateWeights` leaves: the pose and the
id of the particle it started from, the weight it pushes on `weights`, and the scratch data of
the matched observations. -/
theorem weighParticle_fields (m : Libm K) (std_landmark : K × K)
    (observations : List (LandmarkObs K)) (partition : Partition2D K) (q : Particle K) :
    (weighParticle m std_landmark observations partition q).1.weight =
        (weighParticle m std_landmark observations partition q).2 ∧
      (weighParticle m std_landmark observations partition q).1.associations =
        observations.filterMap (fun o => (matchOf m partition q o).map fun l => l.id) ∧
      (weighParticle m std_landmark observations partition q).1.sense_x =
        observations.filterMap
          (fun o => (matchOf m partition q o).map fun _ => (toWorld m q o).1) ∧
      (weighParticle m std_landmark observations partition q).1.sense_y =
        observations.filterMap
          (fun o => (matchOf m partition q o).map fun _ => (toWorld m q o).2) ∧
      ((∀ o ∈ observations, matchOf m partition q o = none) →
        (weighParticle m std_landmark observations partition q).1.weight =
          (1 / 10 ^ 10) ^ observations.length) := by
  obtain ⟨ha, hsx, hsy⟩ := foldl_observe_scratch m std_landmark partition q observations
    ({ q with associations := [], sense_x := [], sense_y := [] }, 1) rfl rfl
  refine ⟨rfl, ?_, ?_, ?_, ?_⟩
  · simpa using ha
  · simpa using hsx
  · simpa using hsy
  · intro hnone
    have hw := foldl_observe_unmatched m std_landmark partition q observations
      ({ q with associations := [], sense_x := [], sense_y := [] }, 1) rfl rfl hnone
    simpa using hw

/-! ## Further claims on `ParticleFilter` -/

/-- The unmatched observations in exact arithmetic, without underflow: on a filter whose
particle sequence has `num_particles` entries, `updateWeights` returns, and a particle for
which every one of the `n` observations fails to match a landmark gets the weight `(1e-10)^n`;
with no observation at all it returns and every particle gets the weight `1`. -/
theorem updateWeights_unmatched (m : Libm K) (pf : ParticleFilter K) (sensor_range : K)
    (std_landmark : K × K) (observations : List (LandmarkObs K)) (partition : Partition2D K)
    (hN : pf.num_particles.toNat = pf.particles.length) :
    (∃ pf', pf.updateWeights m sensor_range std_landmark observations partition = some pf' ∧
      ∀ i, i < pf.particles.length → ∃ q q', pf.particles[i]? = some q ∧
        pf'.particles[i]? = some q' ∧
        ((∀ o ∈ observations, matchOf m partition q o = none) →
          q'.weight = (1 / 10 ^ 10) ^ observations.length)) ∧
    (∃ pf', pf.updateWeights m sensor_range std_landmark [] partition = some pf' ∧
      pf'.particles.length = pf.particles.length ∧ ∀ q' ∈ pf'.particles, q'.weight = 1) := by
  constructor
  · obtain ⟨pf', hrun, -, -, -, hlow, -, -⟩ :=
      updateWeights_spec m pf sensor_range std_landmark observations partition (le_of_eq hN)
    refine ⟨pf', hrun, ?_⟩
    intro i hi
    refine ⟨pf.particles[i], (weighParticle m std_landmark observations partition
      pf.particles[i]).1, List.getElem?_eq_getElem hi, ?_, ?_⟩
    · rw [hlow i (by rw [hN]; exact hi), List.getElem?_eq_getElem hi]
      rfl
    · exact (weighParticle_fields m std_landmark observations partition _).2.2.2.2
  · obtain ⟨pf', hrun, -, hlen, -, hlow, -, -⟩ :=
      updateWeights_spec m pf sensor_range std_landmark [] partition (le_of_eq hN)
    refine ⟨pf', hrun, hlen, ?_⟩
    intro q' hq'
    obtain ⟨i, hi⟩ := List.mem_iff_getElem?.1 hq'
    have hlt : i < pf.particles.length := by
      rw [← hlen]
      exact (List.getElem?_eq_some.1 hi).1
    rw [hlow i (by rw [hN]; exact hlt), List.getElem?_eq_getElem hlt] at hi
    cases hi
    rfl

/-- The observation `(1/2, 1/2)` of the particle at the origin with heading zero finds no
match in the grid of two cells searched over one level. -/
theorem twoCells_unmatched :
    matchOf realLibm (twoCells 1) (Particle.new 0 0 0 0 1) { x := 1 / 2, y := 1 / 2 } = none := by
  have hw : toWorld realLibm (Particle.new 0 0 0 0 1) { x := 1 / 2, y := 1 / 2 } =
      ((1 / 2 : ℝ), (1 / 2 : ℝ)) := by
    simp [toWorld, Particle.new, realLibm]
  unfold matchOf
  rw [hw, twoCells_one_level]

/-- C12: on a filter whose particle sequence has `num_particles` entries, with every drawn
index an index of a particle, `resample` returns and replaces the particle sequence by a
sequence of exactly `num_particles` entries whose `k`-th entry is the particle (equal in every
field) that stood at the `k`-th drawn index before the call; so every particle after the call
is a particle that existed before it. -/
theorem resample_copies (pf : ParticleFilter K) (distribution : Nat → Nat)
    (hN : pf.num_particles.toNat = pf.particles.length)
    (hdraw : ∀ k, k < pf.particles.length → distribution k < pf.particles.length) :
    ∃ pf', pf.resample distribution = some pf' ∧
      pf'.particles.length = pf.num_particles.toNat ∧
      (∀ k, k < pf.num_particles.toNat → ∃ q, pf.particles[distribution k]? = some q ∧
        pf'.particles[k]? = some q) ∧
      (∀ q' ∈ pf'.particles, q' ∈ pf.particles) := by
  obtain ⟨pf', hrun, -, hlen, hlow⟩ := resample_spec pf distribution (by
    intro i hi
    exact hdraw i (by rw [← hN]; exact hi))
  refine ⟨pf', hrun, hlen, ?_, ?_⟩
  · intro k hk
    have hd := hdraw k (by rw [← hN]; exact hk)
    exact ⟨pf.particles[distribution k], List.getElem?_eq_getElem hd, by
      rw [hlow k hk, List.getElem?_eq_getElem hd]⟩
  · intro q' hq'
    obtain ⟨k, hk⟩ := List.mem_iff_getElem?.1 hq'
    have hlt : k < pf.num_particles.toNat := by
      rw [← hlen]
      exact (List.getElem?_eq_some.1 hk).1
    rw [hlow k hlt] at hk
    exact List.mem_iff_getElem?.2 ⟨distribution k, hk⟩

/-- Witness of C12: the filter of one particle, every drawn index being `0`. -/
theorem resample_copies_witness :
    (oneParticle 0).num_particles.toNat = (oneParticle 0).particles.length ∧
      (∀ k, k < (oneParticle 0).particles.length →
        (fun _ : Nat => 0) k < (oneParticle 0).particles.length) ∧
      ∃ pf', (oneParticle 0).resample (fun _ => 0) = some pf' ∧
        pf'.particles.length = (oneParticle 0).num_particles.toNat ∧
        (∀ k, k < (oneParticle 0).num_particles.toNat →
          ∃ q, (oneParticle 0).particles[(fun _ : Nat => 0) k]? = some q ∧
            pf'.particles[k]? = some q) ∧
        (∀ q' ∈ pf'.particles, q' ∈ (oneParticle 0).particles) :=
  have h : (oneParticle 0).num_particles.toNat = (oneParticle 0).particles.length := by
    rw [(oneParticle_particles 0).1, (oneParticle_particles 0).2]
    rfl
  have hd : ∀ k, k < (oneParticle 0).particles.length →
      (fun _ : Nat => 0) k < (oneParticle 0).particles.length := by
    intro k hk
    rw [(oneParticle_particles 0).1] at hk ⊢
    simp
  ⟨h, hd, resample_copies (oneParticle 0) (fun _ => 0) h hd⟩

/-- C13: on a filter whose particle sequence has `num_particles` entries, `updateWeights`
returns, the weight sequence then has as many entries as there are particles, its `i`-th entry
is the weight field of the `i`-th particle, and the result does not depend on the weight
sequence that the filter held before the call. -/
theorem updateWeights_parallel_weights (m : Libm K) (pf : ParticleFilter K) (sensor_range : K)
    (std_landmark : K × K) (observations : List (LandmarkObs K)) (partition : Partition2D K)
    (hN : pf.num_particles.toNat = pf.particles.length) :
    ∃ pf', pf.updateWeights m sensor_range std_landmark observations partition = some pf' ∧
      pf'.particles.length = pf.particles.length ∧
      pf'.weights.length = pf.particles.length ∧
      (∀ i, i < pf.particles.length → ∃ q', pf'.particles[i]? = some q' ∧
        pf'.weights[i]? = some q'.weight) ∧
      ∀ ws : List K,
        ParticleFilter.updateWeights m { pf with weights := ws } sensor_range std_landmark
          observations partition = some pf' := by
  obtain ⟨pf', hrun, -, hlen, hwlen, hlow, hwlow, -⟩ :=
    updateWeights_spec m pf sensor_range std_landmark observations partition (le_of_eq hN)
  refine ⟨pf', hrun, hlen, by rw [hwlen, hN], ?_, fun ws => hrun⟩
  intro i hi
  refine ⟨(weighParticle m std_landmark observations partition pf.particles[i]).1, ?_, ?_⟩
  · rw [hlow i (by rw [hN]; exact hi), List.getElem?_eq_getElem hi]
    rfl
  · rw [hwlow i (by rw [hN]; exact hi), List.getElem?_eq_getElem hi]
    rfl

/-- Witness of C13: the filter of one particle, one observation, the grid of two cells. -/
theorem updateWeights_parallel_weights_witness :
    (oneParticle 0).num_particles.toNat = (oneParticle 0).particles.length ∧
      ∃ pf', (oneParticle 0).updateWeights realLibm 50 (3 / 10, 3 / 10) [{ x := 1, y := 0 }]
          (twoCells 2) = some pf' ∧
        pf'.particles.length = (oneParticle 0).particles.length ∧
        pf'.weights.length = (oneParticle 0).particles.length ∧
        (∀ i, i < (oneParticle 0).particles.length → ∃ q', pf'.particles[i]? = some q' ∧
          pf'.weights[i]? = some q'.weight) ∧
        ∀ ws : List ℝ,
          ParticleFilter.updateWeights realLibm { oneParticle 0 with weights := ws } 50
            (3 / 10, 3 / 10) [{ x := 1, y := 0 }] (twoCells 2) = some pf' :=
  have h : (oneParticle 0).num_particles.toNat = (oneParticle 0).particles.length := by
    rw [(oneParticle_particles 0).1, (oneParticle_particles 0).2]
    rfl
  ⟨h, updateWeights_parallel_weights realLibm (oneParticle 0) 50 (3 / 10, 3 / 10)
    [{ x := 1, y := 0 }] (twoCells 2) h⟩

/-- C18: on a freshly constructed filter with particle count `N`, `init(x, y, theta, std)` with
all noise draws equal to `0` (and `normalizeAngle(0) = 0`) produces exactly `N` particles, every
one at `(x, y, theta)` with weight `1`, and marks the filter initialized; in particular
`init(0, 0, 0, [0, 0, 0])` produces `N` particles at `(0, 0, 0)` with weight `1`. -/
theorem init_zero_noise (m : Libm K) (hnorm : m.normalizeAngle 0 = 0) (N : Nat)
    (x y theta : K) (std : K × K × K) :
    (((ParticleFilter.new (N : Int)).init m x y theta std fun _ => (0, 0, 0)).particles.length
        = N ∧
      ((ParticleFilter.new (N : Int)).init m x y theta std fun _ => (0, 0, 0)).is_initialized
        = true ∧
      ∀ q ∈ ((ParticleFilter.new (N : Int)).init m x y theta std fun _ => (0, 0, 0)).particles,
        q.x = x ∧ q.y = y ∧ q.theta = theta ∧ q.weight = 1) ∧
    (((ParticleFilter.new (N : Int)).init m 0 0 0 (0, 0, 0) fun _ => (0, 0, 0)).particles.length
        = N ∧
      ∀ q ∈ ((ParticleFilter.new (N : Int)).init m 0 0 0 (0, 0, 0) fun _ => (0, 0, 0)).particles,
        q.x = 0 ∧ q.y = 0 ∧ q.theta = 0 ∧ q.weight = 1) := by
  have hgen : ∀ (x y theta : K) (std : K × K × K),
      ((ParticleFilter.new (N : Int)).init m x y theta std fun _ => (0, 0, 0)).particles.length
          = N ∧
        ∀ q ∈ ((ParticleFilter.new (N : Int)).init m x y theta std
            fun _ => (0, 0, 0)).particles,
          q.x = x ∧ q.y = y ∧ q.theta = theta ∧ q.weight = 1 := by
    intro x y theta std
    rw [init_particles]
    constructor
    · simp [ParticleFilter.new]
    · intro q hq
      simp only [ParticleFilter.new, List.nil_append, List.mem_map] at hq
      obtain ⟨i, -, rfl⟩ := hq
      simp [Particle.new, hnorm]
  exact ⟨⟨(hgen x y theta std).1, rfl, (hgen x y theta std).2⟩, hgen 0 0 0 (0, 0, 0)⟩

/-- Witness of C18: a filter of three particles on the real numbers, started at `(1, 2, 1/2)`. -/
theorem init_zero_noise_witness :
    realLibm.normalizeAngle 0 = 0 ∧
      (((ParticleFilter.new ((3 : Nat) : Int)).init realLibm 1 2 (1 / 2) (0, 0, 0)
          fun _ => (0, 0, 0)).particles.length = 3 ∧
        ((ParticleFilter.new ((3 : Nat) : Int)).init realLibm 1 2 (1 / 2) (0, 0, 0)
          fun _ => (0, 0, 0)).is_initialized = true ∧
        ∀ q ∈ ((ParticleFilter.new ((3 : Nat) : Int)).init realLibm 1 2 (1 / 2) (0, 0, 0)
            fun _ => (0, 0, 0)).particles,
          q.x = 1 ∧ q.y = 2 ∧ q.theta = 1 / 2 ∧ q.weight = 1) ∧
      (((ParticleFilter.new ((3 : Nat) : Int)).init realLibm 0 0 0 (0, 0, 0)
          fun _ => (0, 0, 0)).particles.length = 3 ∧
        ∀ q ∈ ((ParticleFilter.new ((3 : Nat) : Int)).init realLibm 0 0 0 (0, 0, 0)
            fun _ => (0, 0, 0)).particles,
          q.x = 0 ∧ q.y = 0 ∧ q.theta = 0 ∧ q.weight = 1) :=
  ⟨realLibm_normalizeAngle_zero,
    init_zero_noise realLibm realLibm_normalizeAngle_zero 3 1 2 (1 / 2) (0, 0, 0)⟩

/-- C20: on a filter whose particle sequence has `num_particles` entries, `updateWeights`
returns, and for every particle the sequences `associations`, `sense_x` and `sense_y` then
hold, in the order of the observations, the id of the matched landmark and the coordinates in
the world frame of each observation that found a match for that particle, and nothing else: the
three have the same length, the number of observations that found a match, and nothing of what
they held before the call remains. -/
theorem updateWeights_associations (m : Libm K) (pf : ParticleFilter K) (sensor_range : K)
    (std_landmark : K × K) (observations : List (LandmarkObs K)) (partition : Partition2D K)
    (hN : pf.num_particles.toNat = pf.particles.length) :
    ∃ pf', pf.updateWeights m sensor_range std_landmark observations partition = some pf' ∧
      ∀ i, i < pf.particles.length → ∃ q q', pf.particles[i]? = some q ∧
        pf'.particles[i]? = some q' ∧
        (q'.associations =
            observations.filterMap (fun o => (matchOf m partition q o).map fun l => l.id) ∧
          q'.sense_x =
            observations.filterMap
              (fun o => (matchOf m partition q o).map fun _ => (toWorld m q o).1) ∧
          q'.sense_y =
            observations.filterMap
              (fun o => (matchOf m partition q o).map fun _ => (toWorld m q o).2)) ∧
        (q'.associations.length =
            (observations.filter fun o => (matchOf m partition q o).isSome).length ∧
          q'.sense_x.length =
            (observations.filter fun o => (matchOf m partition q o).isSome).length ∧
          q'.sense_y.length =
            (observations.filter fun o => (matchOf m partition q o).isSome).length) := by
  obtain ⟨pf', hrun, -, -, -, hlow, -, -⟩ :=
    updateWeights_spec m pf sensor_range std_landmark observations partition (le_of_eq hN)
  refine ⟨pf', hrun, ?_⟩
  intro i hi
  obtain ⟨-, ha, hsx, hsy, -⟩ :=
    weighParticle_fields m std_landmark observations partition pf.particles[i]
  refine ⟨pf.particles[i], (weighParticle m std_landmark observations partition
    pf.particles[i]).1, List.getElem?_eq_getElem hi, ?_, ⟨ha, hsx, hsy⟩, ?_, ?_, ?_⟩
  · rw [hlow i (by rw [hN]; exact hi), List.getElem?_eq_getElem hi]
    rfl
  · rw [ha]
    exact length_filterMap_matched (matchOf m partition pf.particles[i])
      (fun _ (l : single_landmark_s K) => l.id) observations
  · rw [hsx]
    exact length_filterMap_matched _ (fun o _ => (toWorld m pf.particles[i] o).1) observations
  · rw [hsy]
    exact length_filterMap_matched _ (fun o _ => (toWorld m pf.particles[i] o).2) observations

/-- Witness of C20: the filter of one particle, one observation, the grid of two cells. -/
theorem updateWeights_associations_witness :
    (oneParticle 0).num_particles.toNat = (oneParticle 0).particles.length ∧
      ∃ pf', (oneParticle 0).updateWeights realLibm 50 (3 / 10, 3 / 10) [{ x := 1, y := 0 }]
          (twoCells 2) = some pf' ∧
        ∀ i, i < (oneParticle 0).particles.length → ∃ q q', (oneParticle 0).particles[i]? = some q ∧
          pf'.particles[i]? = some q' ∧
          (q'.associations =
              ([{ x := 1, y := 0 }] : List (LandmarkObs ℝ)).filterMap
                (fun o => (matchOf realLibm (twoCells 2) q o).map fun l => l.id) ∧
            q'.sense_x =
              ([{ x := 1, y := 0 }] : List (LandmarkObs ℝ)).filterMap
                (fun o => (matchOf realLibm (twoCells 2) q o).map
                  fun _ => (toWorld realLibm q o).1) ∧
            q'.sense_y =
              ([{ x := 1, y := 0 }] : List (LandmarkObs ℝ)).filterMap
                (fun o => (matchOf realLibm (twoCells 2) q o).map
                  fun _ => (toWorld realLibm q o).2)) ∧
          (q'.associations.length =
              (([{ x := 1, y := 0 }] : List (LandmarkObs ℝ)).filter
                fun o => (matchOf realLibm (twoCells 2) q o).isSome).length ∧
            q'.sense_x.length =
              (([{ x := 1, y := 0 }] : List (LandmarkObs ℝ)).filter
                fun o => (matchOf realLibm (twoCells 2) q o).isSome).length ∧
            q'.sense_y.length =
              (([{ x := 1, y := 0 }] : List (LandmarkObs ℝ)).filter
                fun o => (matchOf realLibm (twoCells 2) q o).isSome).length) :=
  have h : (oneParticle 0).num_particles.toNat = (oneParticle 0).particles.length := by
    rw [(oneParticle_particles 0).1, (oneParticle_particles 0).2]
    rfl
  ⟨h, updateWeights_associations realLibm (oneParticle 0) 50 (3 / 10, 3 / 10)
    [{ x := 1, y := 0 }] (twoCells 2) h⟩

/-! ## Further claims on `Partition2D` -/

/-- The grid of a well-formed index has at least one column and one row, and its cell table has
`dim_x * dim_y` entries. -/
theorem WellFormed_dims {p : Partition2D K} (h : p.WellFormed) :
    0 < p.dim_x ∧ 0 < p.dim_y ∧ (p.cells.length : Int) = p.dim_x * p.dim_y := by
  obtain ⟨⟨hx, hy⟩, hc, ⟨hdx, hdy⟩, hlen⟩ := h
  have h1 : 0 < p.dim_x := by
    rw [hdx]
    exact Int.ceil_pos.2 (div_pos (by linarith) hc)
  have h2 : 0 < p.dim_y := by
    rw [hdy]
    exact Int.ceil_pos.2 (div_pos (by linarith) hc)
  refine ⟨h1, h2, ?_⟩
  rw [hlen]
  exact Int.toNat_of_nonneg (mul_nonneg h1.le h2.le)

/-- An index that `Initialize` returns is well formed. -/
theorem Initialize_wellFormed (x0 y0 x1 y1 cell_size max_dist : K) (p : Partition2D K)
    (h : Initialize x0 y0 x1 y1 cell_size max_dist = some p) : p.WellFormed := by
  unfold Initialize at h
  split at h
  · rename_i hxy
    split at h
    · rename_i hc
      cases h
      exact ⟨hxy, hc, ⟨rfl, rfl⟩, by simp⟩
    · cases h
  · cases h

/-- The effect of `addPointObject` on the cell table: when the index that it computes lies in
the table, the object is appended to the entry of that index and no other entry changes;
otherwise there is no result. -/
theorem addPointObject_effect (p : Partition2D K) (q : single_landmark_s K) :
    ((0 ≤ p.cellIndex (p.column q.x) (p.row q.y) ∧
        p.cellIndex (p.column q.x) (p.row q.y) < p.cells.length) →
      ∃ cells, addPointObject p q = some { p with cells := cells } ∧
        cells.length = p.cells.length ∧
        cells[(p.cellIndex (p.column q.x) (p.row q.y)).toNat]? =
          some (some ((p.cells.getD (p.cellIndex (p.column q.x) (p.row q.y)).toNat none).getD []
            ++ [q])) ∧
        ∀ n, n ≠ (p.cellIndex (p.column q.x) (p.row q.y)).toNat → cells[n]? = p.cells[n]?) ∧
    (¬ (0 ≤ p.cellIndex (p.column q.x) (p.row q.y) ∧
        p.cellIndex (p.column q.x) (p.row q.y) < p.cells.length) →
      addPointObject p q = none) := by
  constructor
  · intro hidx
    have hnat : (p.cellIndex (p.column q.x) (p.row q.y)).toNat < p.cells.length := by omega
    have hadd : ∀ n : Nat, n = (p.cellIndex (p.column q.x) (p.row q.y)).toNat →
        addPointObject p q =
          match p.cells.getD n none with
          | none => some { p with cells := p.cells.set n (some [q]) }
          | some objects => some { p with cells := p.cells.set n (some (objects ++ [q])) } := by
      intro n hn
      subst hn
      exact if_pos hidx
    rw [hadd _ rfl]
    cases hc : p.cells.getD (p.cellIndex (p.column q.x) (p.row q.y)).toNat none with
    | none =>
      refine ⟨_, rfl, by simp, ?_, ?_⟩
      · rw [List.getElem?_set, if_pos rfl, if_pos hnat]
        rfl
      · intro n hn
        rw [List.getElem?_set, if_neg (Ne.symm hn)]
    | some objects =>
      refine ⟨_, rfl, by simp, ?_, ?_⟩
      · rw [List.getElem?_set, if_pos rfl, if_pos hnat]
        rfl
      · intro n hn
        rw [List.getElem?_set, if_neg (Ne.symm hn)]
  · intro hidx
    exact if_neg hidx

/-- The two assertions in exact arithmetic with unbounded integers: `Initialize` fails exactly
when the rectangle is degenerate (not `x0 < x1` or not `y0 < y1`) or the cell size is not
positive, and succeeds for all other arguments. -/
theorem Initialize_fails_iff (x0 y0 x1 y1 cell_size max_dist : K) :
    (Initialize x0 y0 x1 y1 cell_size max_dist = none ↔
        (¬ x0 < x1 ∨ ¬ y0 < y1) ∨ cell_size ≤ 0) ∧
      ((Initialize x0 y0 x1 y1 cell_size max_dist).isSome = true ↔
        (x0 < x1 ∧ y0 < y1) ∧ 0 < cell_size) := by
  unfold Initialize
  by_cases hxy : x0 < x1 ∧ y0 < y1
  · by_cases hc : cell_size > 0
    · rw [if_pos hxy, if_pos hc]
      constructor
      · constructor
        · intro h
          cases h
        · rintro (h | h)
          · exact absurd hxy (by tauto)
          · exact absurd hc (not_lt.2 h)
      · simp [hxy, hc]
    · rw [if_pos hxy, if_neg hc]
      constructor
      · exact ⟨fun _ => Or.inr (not_lt.1 hc), fun _ => rfl⟩
      · simp [hc]
  · rw [if_neg hxy]
    constructor
    · exact ⟨fun _ => Or.inl (by tauto), fun _ => rfl⟩
    · simp [hxy]

/-- The grid parameters in exact arithmetic with unbounded integers: for a non-degenerate
rectangle, a positive cell size and a maximum search distance that is not negative,
`Initialize` builds a grid with `dim_x = ceil((x1 - x0) / cell_size)`,
`dim_y = ceil((y1 - y0) / cell_size)`, the level count `round(max_dist / cell_size)` (halves
rounded up, that is `floor(max_dist / cell_size + 1/2)`), and exactly `dim_x * dim_y` cells,
all of them absent. -/
theorem Initialize_parameters (x0 y0 x1 y1 cell_size max_dist : K) (hx : x0 < x1)
    (hy : y0 < y1) (hc : 0 < cell_size) (hd : 0 ≤ max_dist) :
    ∃ p : Partition2D K, Initialize x0 y0 x1 y1 cell_size max_dist = some p ∧
      (p.dim_x = ⌈(x1 - x0) / cell_size⌉ ∧ p.dim_y = ⌈(y1 - y0) / cell_size⌉) ∧
      (p.search_levels = round (max_dist / cell_size) ∧
        p.search_levels = ⌊max_dist / cell_size + 1 / 2⌋) ∧
      (p.cells.length : Int) = p.dim_x * p.dim_y ∧ ∀ c ∈ p.cells, c = none := by
  obtain ⟨p, hinit, -, hdim, hlev, -, -⟩ :=
    Initialize_some x0 y0 x1 y1 cell_size max_dist hx hy hc
  have hwf := Initialize_wellFormed x0 y0 x1 y1 cell_size max_dist p hinit
  have hfloor : p.search_levels = ⌊max_dist / cell_size + 1 / 2⌋ := by
    rw [hlev]
    exact toInt_of_nonneg (add_nonneg (div_nonneg hd hc.le) (by norm_num))
  refine ⟨p, hinit, hdim, ⟨by rw [round_eq]; exact hfloor, hfloor⟩, (WellFormed_dims hwf).2.2,
    ?_⟩
  intro c hcm
  unfold Initialize at hinit
  rw [if_pos ⟨hx, hy⟩, if_pos hc] at hinit
  cases hinit
  exact (List.mem_replicate.1 hcm).2

theorem toNat_two : Int.toNat 2 = 2 := rfl

/-- The insertion in the index of four cells of a point on the right border of the rectangle. -/
theorem fourCells_add_border :
    addPointObject fourCells { id := 9, x := 2, y := 1 / 2 } =
      some { fourCells with
        cells := [none, none, some [{ id := 9, x := 2, y := 1 / 2 }], none] } := by
  norm_num [addPointObject, toInt, Partition2D.cellIndex, fourCells, toNat_two]

/-- The cell of an inserted object in exact arithmetic: on a well-formed index, for every
object whose coordinates satisfy `x0 ≤ x < x1` and `y0 ≤ y < y1`, `addPointObject` succeeds and
keeps the index well formed; the object is appended to the cell of column
`floor((x - x0) / cell_size)` and row `floor((y - y0) / cell_size)`, which is a cell of the
`dim_x` by `dim_y` grid, and the contents of every other cell of the grid are unchanged. -/
theorem addPointObject_placement (p : Partition2D K) (q : single_landmark_s K)
    (hwf : p.WellFormed) (hx : p.world_x0 ≤ q.x ∧ q.x < p.world_x1)
    (hy : p.world_y0 ≤ q.y ∧ q.y < p.world_y1) :
    ∃ p', addPointObject p q = some p' ∧ p'.WellFormed ∧
      (p.column q.x = ⌊(q.x - p.world_x0) / p.cell_size⌋ ∧
        p.row q.y = ⌊(q.y - p.world_y0) / p.cell_size⌋) ∧
      ((0 ≤ p.column q.x ∧ p.column q.x < p.dim_x) ∧
        (0 ≤ p.row q.y ∧ p.row q.y < p.dim_y)) ∧
      p'.objectsAt (p.column q.x) (p.row q.y) =
        p.objectsAt (p.column q.x) (p.row q.y) ++ [q] ∧
      ∀ i j, (0 ≤ i ∧ i < p.dim_x) → (0 ≤ j ∧ j < p.dim_y) →
        ¬ (i = p.column q.x ∧ j = p.row q.y) → p'.objectsAt i j = p.objectsAt i j := by
  have hdims := WellFormed_dims hwf
  obtain ⟨hrect, hc, ⟨hdx, hdy⟩, hlen⟩ := hwf
  have hcx : 0 ≤ p.column q.x ∧ p.column q.x < p.dim_x := by
    unfold Partition2D.column
    rw [hdx]
    exact axis_inGrid _ _ _ _ hc hx.1 hx.2
  have hcy : 0 ≤ p.row q.y ∧ p.row q.y < p.dim_y := by
    unfold Partition2D.row
    rw [hdy]
    exact axis_inGrid _ _ _ _ hc hy.1 hy.2
  have hr := cellIndex_range p.dim_x p.dim_y _ _ hcx hcy
  obtain ⟨cells, hadd, hclen, hat, hother⟩ := (addPointObject_effect p q).1 (by
    rw [hdims.2.2]
    exact hr)
  refine ⟨_, hadd, ⟨hrect, hc, ⟨hdx, hdy⟩, hclen.trans hlen⟩, ⟨?_, ?_⟩, ⟨hcx, hcy⟩, ?_, ?_⟩
  · exact toInt_of_nonneg (div_nonneg (by linarith [hx.1]) hc.le)
  · exact toInt_of_nonneg (div_nonneg (by linarith [hy.1]) hc.le)
  · rw [objectsAt_set, List.getD_eq_getElem?_getD]
    have hat2 : cells[(p.column q.x + p.row q.y * p.dim_x).toNat]? = _ := hat
    rw [hat2]
    rfl
  · intro i j hi hj hne
    have hr2 := cellIndex_range p.dim_x p.dim_y i j hi hj
    have hn : (i + j * p.dim_x).toNat ≠ (p.cellIndex (p.column q.x) (p.row q.y)).toNat := by
      intro heq
      have heq2 : i + j * p.dim_x = p.column q.x + p.row q.y * p.dim_x := by
        unfold Partition2D.cellIndex at heq
        omega
      exact hne (cellIndex_inj p.dim_x _ _ _ _ hi hcx heq2)
    rw [objectsAt_set, List.getD_eq_getElem?_getD, hother _ hn]
    unfold Partition2D.objectsAt Partition2D.cell Partition2D.cellIndex
    rw [List.getD_eq_getElem?_getD]

/-! ## The operations before `init` -/

/-- A loop over `i < n` whose first iteration has no result has no result. -/
theorem foldlM_range_none {σ : Type} (f : σ → Nat → Option σ) (s : σ) (n : Nat) (hn : 0 < n)
    (h : f s 0 = none) : (List.range n).foldlM f s = none := by
  cases n with
  | zero => exact absurd hn (Nat.lt_irrefl 0)
  | succ n =>
    rw [List.range_succ_eq_map, List.foldlM_cons, h]
    rfl

/-- C17, as the code has it: `prediction`, `updateWeights` and `resample` make no check that
`init` has been called. On a freshly constructed filter (no particle, no weight) with a particle
count `N ≤ 0` each of them returns and leaves the filter as it is; with `N > 0` each of them
accesses `particles[0]` outside the empty particle sequence, and there is no result. -/
theorem operations_before_init (m : Libm K) (N : Int) (delta_t velocity yaw_rate : K)
    (noise : Nat → K × K × K) (sensor_range : K) (std_landmark : K × K)
    (observations : List (LandmarkObs K)) (partition : Partition2D K)
    (distribution : Nat → Nat) :
    (N ≤ 0 →
      (ParticleFilter.new N).prediction m delta_t velocity yaw_rate noise =
          some (ParticleFilter.new N) ∧
        (ParticleFilter.new N).updateWeights m sensor_range std_landmark observations
          partition = some (ParticleFilter.new N) ∧
        (ParticleFilter.new N : ParticleFilter K).resample distribution =
          some (ParticleFilter.new N)) ∧
    (0 < N →
      (ParticleFilter.new N).prediction m delta_t velocity yaw_rate noise = none ∧
        (ParticleFilter.new N).updateWeights m sensor_range std_landmark observations
          partition = none ∧
        (ParticleFilter.new N : ParticleFilter K).resample distribution = none) := by
  constructor
  · intro hN
    have h0 : N.toNat = 0 := by omega
    refine ⟨?_, ?_, ?_⟩
    · unfold ParticleFilter.prediction
      simp only [ParticleFilter.new, h0, List.range_zero, List.foldlM_nil]
      rfl
    · unfold ParticleFilter.updateWeights
      simp only [ParticleFilter.new, h0, List.range_zero, List.foldlM_nil]
      rfl
    · unfold ParticleFilter.resample
      simp only [ParticleFilter.new, h0, List.range_zero, List.foldlM_nil]
      rfl
  · intro hN
    have h0 : 0 < N.toNat := by omega
    refine ⟨?_, ?_, ?_⟩
    · unfold ParticleFilter.prediction
      simp only [ParticleFilter.new]
      rw [foldlM_range_none _ _ _ h0 rfl]
      rfl
    · unfold ParticleFilter.updateWeights
      simp only [ParticleFilter.new]
      rw [foldlM_range_none _ _ _ h0 rfl]
      rfl
    · unfold ParticleFilter.resample
      simp only [ParticleFilter.new]
      rw [foldlM_range_none _ _ _ h0 rfl]
      rfl

/-- Witness of C17: the freshly constructed filters with particle counts `0` and `2`. -/
theorem operations_before_init_witness :
    ((0 : Int) ≤ 0 ∧
      (ParticleFilter.new 0).prediction realLibm (1 / 10) 1 0 noNoise =
          some (ParticleFilter.new 0) ∧
        (ParticleFilter.new 0).updateWeights realLibm 50 (3 / 10, 3 / 10) [{ x := 1, y := 0 }]
          (twoCells 2) = some (ParticleFilter.new 0) ∧
        (ParticleFilter.new 0 : ParticleFilter ℝ).resample (fun _ => 0) =
          some (ParticleFilter.new 0)) ∧
    ((0 : Int) < 2 ∧
      (ParticleFilter.new 2).prediction realLibm (1 / 10) 1 0 noNoise = none ∧
        (ParticleFilter.new 2).updateWeights realLibm 50 (3 / 10, 3 / 10) [{ x := 1, y := 0 }]
          (twoCells 2) = none ∧
        (ParticleFilter.new 2 : ParticleFilter ℝ).resample (fun _ => 0) = none) :=
  ⟨⟨le_refl 0, (operations_before_init realLibm 0 (1 / 10) 1 0 noNoise 50 (3 / 10, 3 / 10)
      [{ x := 1, y := 0 }] (twoCells 2) (fun _ => 0)).1 (le_refl 0)⟩,
    ⟨by norm_num, (operations_before_init realLibm 2 (1 / 10) 1 0 noNoise 50 (3 / 10, 3 / 10)
      [{ x := 1, y := 0 }] (twoCells 2) (fun _ => 0)).2 (by norm_num)⟩⟩

/-- Counterexample to C17: on filters on which `init` has never been called (the flag
`is_initialized` is false), the operations do not fail. With the particle count `0` the three
of them return; with the particle count `1` and one particle put in the public particle
sequence by the caller, `prediction` returns and moves that particle from `(0, 0)` to
`(1, 0)`. -/
theorem operations_before_init_counterexample :
    ((ParticleFilter.new 0 : ParticleFilter ℝ).is_initialized = false ∧
      (ParticleFilter.new 0).prediction realLibm (1 / 10) 1 0 noNoise =
        some (ParticleFilter.new 0) ∧
      (ParticleFilter.new 0).updateWeights realLibm 50 (3 / 10, 3 / 10) [{ x := 1, y := 0 }]
        (twoCells 2) = some (ParticleFilter.new 0) ∧
      (ParticleFilter.new 0 : ParticleFilter ℝ).resample (fun _ => 0) =
        some (ParticleFilter.new 0)) ∧
    ({ (ParticleFilter.new 1 : ParticleFilter ℝ) with
          particles := [Particle.new 0 0 0 0 1] }.is_initialized = false ∧
      (ParticleFilter.prediction realLibm
          { (ParticleFilter.new 1 : ParticleFilter ℝ) with
            particles := [Particle.new 0 0 0 0 1] } (1 / 10) 1 0 noNoise).map
        (fun pf => pf.particles.map fun q => (q.x, q.y)) = some [(1, 0)]) := by
  refine ⟨⟨rfl, ?_, ?_, ?_⟩, rfl, ?_⟩
  · unfold ParticleFilter.prediction
    simp only [ParticleFilter.new, Int.toNat_zero, List.range_zero, List.foldlM_nil]
    rfl
  · unfold ParticleFilter.updateWeights
    simp only [ParticleFilter.new, Int.toNat_zero, List.range_zero, List.foldlM_nil]
    rfl
  · unfold ParticleFilter.resample
    simp only [ParticleFilter.new, Int.toNat_zero, List.range_zero, List.foldlM_nil]
    rfl
  · have h1 : Int.toNat 1 = 1 := rfl
    have hr : List.range 1 = [0] := rfl
    unfold ParticleFilter.prediction
    simp only [ParticleFilter.new, h1, hr, List.foldlM_cons, List.foldlM_nil, updateAt,
      predictParticle, Particle.new]
    norm_num [realLibm, noNoise]

/-! ## The cells visited level by level -/

theorem searchEnd_eq_searchLoop (p : Partition2D K) (x y : K) :
    searchEnd p x y = searchLoop p x y (searchStart p x y) := rfl

/-- The two nested loops of `findNearest` scan, one after the other, the objects of the cells
of `windowCells`. -/
theorem scanWindow_cells (p : Partition2D K) (x y : K) (cx0 cy0 cx1 cy1 : Int) (s : Scan K) :
    scanWindow p x y cx0 cy0 cx1 cy1 s =
      (windowCells cx0 cy0 cx1 cy1).foldl
        (fun s c => (p.objectsAt c.1 c.2).foldl (scanObject x y) s) s := by
  unfold scanWindow windowCells
  rw [← foldl_flatMap_eq]
  congr 1
  funext s j
  rw [← foldl_flatMap_eq]
  congr 1
  funext s i
  rw [scanCell_eq]
  split <;> rfl

/-- The body of the `while` loop of `findNearest` scans the objects of the cells of
`levelCells`. -/
theorem ringStep_cells (p : Partition2D K) (x y : K) (st : SearchState K) :
    (ringStep p x y st).scan =
      (levelCells p st).foldl (fun s c => (p.objectsAt c.1 c.2).foldl (scanObject x y) s)
        st.scan := by
  unfold levelCells
  rw [← scanWindow_cells]
  rfl

theorem mem_windowCells (cx0 cy0 cx1 cy1 i j : Int) :
    (i, j) ∈ windowCells cx0 cy0 cx1 cy1 ↔
      (cx0 ≤ i ∧ i < cx1) ∧ (cy0 ≤ j ∧ j < cy1) ∧
        ¬ (i > cx0 ∧ j > cy0 ∧ i < cx1 - 1 ∧ j < cy1 - 1) := by
  simp only [windowCells, List.mem_flatMap, mem_intRange]
  constructor
  · rintro ⟨j', hj, i', hi, hc⟩
    by_cases hs : i' > cx0 ∧ j' > cy0 ∧ i' < cx1 - 1 ∧ j' < cy1 - 1
    · simp [hs] at hc
    · rw [if_neg hs] at hc
      simp only [List.mem_singleton, Prod.mk.injEq] at hc
      obtain ⟨rfl, rfl⟩ := hc
      exact ⟨hi, hj, hs⟩
  · rintro ⟨hi, hj, hs⟩
    exact ⟨j, hj, i, hi, by rw [if_neg hs]; simp⟩

/-- The index of four absent cells searched over two levels is the one that
`Initialize(0, 0, 2, 2, 1, 2)` builds. -/
theorem emptyGrid_built : Initialize (0 : ℝ) 0 2 2 1 2 = some emptyGrid := by
  norm_num [Initialize, toInt, List.replicate, emptyGrid, toNat_four]

/-- The run of `findNearest` on the index of four absent cells, for a query in the cell
`(0, 0)`: both levels are scanned and nothing is found. -/
theorem emptyGrid_run :
    (searchEnd emptyGrid (1 / 2) (1 / 2)).level = 3 ∧
      (searchEnd emptyGrid (1 / 2) (1 / 2)).scan.found = none := by
  unfold searchEnd
  norm_num [toInt, emptyGrid]
  rw [searchLoop]
  norm_num [ringStep, scanWindow, intRange_zero_one, intRange_zero_two, scanCell,
    Partition2D.cell, Partition2D.cellIndex]
  rw [searchLoop]
  norm_num [ringStep, scanWindow, intRange_zero_one, intRange_zero_two, scanCell,
    Partition2D.cell, Partition2D.cellIndex, toNat_two, toNat_three]
  rw [searchLoop]
  norm_num

/-- The run of `findNearest` on the grid of cells of size `10^10`, for the query
`(9 * 10^9, 9 * 10^9)`: three objects are examined. -/
theorem farCells_searched :
    (findNearest realLibm farCells (9 * 10 ^ 9) (9 * 10 ^ 9)).2.2 = 3 := by
  unfold findNearest searchEnd
  norm_num [toInt, farCells]
  rw [searchLoop]
  norm_num [ringStep, scanWindow, intRange_zero_one, intRange_zero_two, scanCell,
    Partition2D.cell, Partition2D.cellIndex, scanObject, dist, square]
  rw [searchLoop]
  norm_num [ringStep, scanWindow, intRange_zero_one, intRange_zero_two, scanCell,
    Partition2D.cell, Partition2D.cellIndex, scanObject, dist, square, toNat_three, toNat_four]
  rw [searchLoop]
  norm_num

/-- C21, the code at a failing input: on the index that `Initialize(0, 0, 2, 2, 1, 2)` builds,
for the query `(1/2, 1/2)` in the corner cell `(0, 0)`, the loop runs level one and level two,
and the cell `(0, 0)` is among the cells visited at level one and again among the cells visited
at level two, where the window clamped at the border is `[0, 2) x [0, 2)` and the test "in the
previous level" skips no cell. On the grid of cells of size `10^10`, which holds two landmarks,
the same repetition makes `findNearest` count three examined objects. -/
theorem duplicate_cell_visit :
    Initialize (0 : ℝ) 0 2 2 1 2 = some emptyGrid ∧
      ((searchEnd emptyGrid (1 / 2) (1 / 2)).level = 3 ∧
        (searchEnd emptyGrid (1 / 2) (1 / 2)).scan.found = none) ∧
      (0, 0) ∈ levelCells emptyGrid (searchStart emptyGrid (1 / 2) (1 / 2)) ∧
      (0, 0) ∈ levelCells emptyGrid
        (ringStep emptyGrid (1 / 2) (1 / 2)
          { searchStart emptyGrid (1 / 2) (1 / 2) with level := 1 }) ∧
      (farCells.cells.filterMap id).flatten.length = 2 ∧
      (findNearest realLibm farCells (9 * 10 ^ 9) (9 * 10 ^ 9)).2.2 = 3 := by
  have hc : emptyGrid.column (1 / 2) = 0 := by
    norm_num [Partition2D.column, emptyGrid, toInt]
  have hr : emptyGrid.row (1 / 2) = 0 := by
    norm_num [Partition2D.row, emptyGrid, toInt]
  refine ⟨emptyGrid_built, emptyGrid_run, ?_, ?_, ?_, farCells_searched⟩
  · unfold levelCells searchStart
    rw [hc, hr, mem_windowCells]
    simp only [emptyGrid]
    omega
  · unfold levelCells ringStep searchStart
    rw [hc, hr, mem_windowCells]
    simp only [emptyGrid]
    omega
  · simp [farCells]

/-! ## The last claims -/

/-- The index of two cells with one landmark in each is the one that
`Initialize(0, 0, 2, 1, 1, 2)` and the insertion of its two landmarks build. -/
theorem nearCells_built :
    (Initialize (0 : ℝ) 0 2 1 1 2).bind
        (fun p0 => addPointObjects p0
          [{ id := 1, x := 1 / 10, y := 1 / 2 }, { id := 2, x := 1, y := 1 / 2 }]) =
      some nearCells := by
  norm_num [Initialize, toInt, List.replicate, addPointObjects, addPointObject,
    Partition2D.cellIndex, nearCells]

/-- The run of `findNearest` on the index of two cells with one landmark in each, for the query
`(9/10, 1/2)`: the loop ends at level one with the landmark of the query's cell. -/
theorem nearCells_run :
    (searchEnd nearCells (9 / 10) (1 / 2)).level = 1 ∧
      (searchEnd nearCells (9 / 10) (1 / 2)).scan.found =
        some { id := 1, x := 1 / 10, y := 1 / 2 } := by
  unfold searchEnd
  norm_num [toInt, nearCells]
  rw [searchLoop]
  norm_num [ringStep, scanWindow, intRange_zero_one, intRange_zero_two, scanCell,
    Partition2D.cell, Partition2D.cellIndex, scanObject, dist, square]
  rw [searchLoop]
  norm_num

/-- C22: `findNearest` is not an exact nearest-neighbour search. On the index that
`Initialize(0, 0, 2, 1, 1, 2)` builds (two cells, two search levels), with the landmarks
`(1/10, 1/2)` and `(1, 1/2)` inserted inside the rectangle, the query `(9/10, 1/2)` returns the
landmark `(1/10, 1/2)` of the query's cell at level one, while the landmark `(1, 1/2)`, stored in
the cell `(1, 0)` of the level-two square and not of the level-one square, is strictly closer to
the query. -/
theorem findNearest_not_exact :
    ∃ (p : Partition2D ℝ) (x y : ℝ) (e b : single_landmark_s ℝ),
      (Initialize (0 : ℝ) 0 2 1 1 2).bind (fun p0 => addPointObjects p0 [e, b]) = some p ∧
      (∀ q ∈ [e, b], (p.world_x0 ≤ q.x ∧ q.x < p.world_x1) ∧
        (p.world_y0 ≤ q.y ∧ q.y < p.world_y1)) ∧
      (findNearest realLibm p x y).1 = some e ∧
      (searchEnd p x y).level = 1 ∧
      b ∈ p.objectsAt 1 0 ∧
      ¬ p.inSquare (p.column x) (p.row y) 1 1 0 ∧
      p.inSquare (p.column x) (p.row y) 2 1 0 ∧ 2 ≤ p.search_levels ∧
      dist x y b.x b.y < dist x y e.x e.y := by
  have hc : nearCells.column (9 / 10) = 0 := by
    norm_num [Partition2D.column, nearCells, toInt]
  have hr : nearCells.row (1 / 2) = 0 := by
    norm_num [Partition2D.row, nearCells, toInt]
  refine ⟨nearCells, 9 / 10, 1 / 2, { id := 1, x := 1 / 10, y := 1 / 2 },
    { id := 2, x := 1, y := 1 / 2 }, nearCells_built, ?_, nearCells_run.2, nearCells_run.1, ?_,
    ?_, ?_, ?_, ?_⟩
  · intro q hq
    simp only [List.mem_cons, List.mem_singleton, List.not_mem_nil, or_false] at hq
    rcases hq with rfl | rfl <;> norm_num [nearCells]
  · simp [Partition2D.objectsAt, Partition2D.cell, Partition2D.cellIndex, nearCells]
  · rw [hc, hr]
    simp only [Partition2D.inSquare, nearCells]
    omega
  · rw [hc, hr]
    simp only [Partition2D.inSquare, nearCells]
    omega
  · simp [nearCells]
  · norm_num [dist, square]

/-- One observation keeps a positive weight positive, when `M_PI`, the two standard deviations
and every value of `exp` are positive. -/
theorem observe_pos (m : Libm K) (hpi : 0 < m.M_PI) (hexp : ∀ a, 0 < m.exp a)
    (std_landmark : K × K) (hsx : 0 < std_landmark.1) (hsy : 0 < std_landmark.2)
    (partition : Partition2D K) (sin_theta cos_theta : K) (st : Particle K × K)
    (obs : LandmarkObs K) (hw : 0 < st.2) :
    0 < (observe m std_landmark partition sin_theta cos_theta st obs).2 := by
  unfold observe
  simp only
  split
  · exact mul_pos hw
      (div_pos (by norm_num) (mul_pos (mul_pos (mul_pos hpi hsx) hsy) (hexp _)))
  · exact mul_pos hw (by positivity)

theorem foldl_observe_pos (m : Libm K) (hpi : 0 < m.M_PI) (hexp : ∀ a, 0 < m.exp a)
    (std_landmark : K × K) (hsx : 0 < std_landmark.1) (hsy : 0 < std_landmark.2)
    (partition : Partition2D K) (sin_theta cos_theta : K)
    (observations : List (LandmarkObs K)) :
    ∀ st : Particle K × K, 0 < st.2 →
      0 < (observations.foldl (observe m std_landmark partition sin_theta cos_theta) st).2 := by
  induction observations with
  | nil => intro st hw; exact hw
  | cons obs observations ih =>
    intro st hw
    rw [List.foldl_cons]
    exact ih _ (observe_pos m hpi hexp std_landmark hsx hsy partition sin_theta cos_theta st obs
      hw)

/-- The weight that the loop over the observations leaves in a particle is positive. -/
theorem weighParticle_pos (m : Libm K) (hpi : 0 < m.M_PI) (hexp : ∀ a, 0 < m.exp a)
    (std_landmark : K × K) (hsx : 0 < std_landmark.1) (hsy : 0 < std_landmark.2)
    (observations : List (LandmarkObs K)) (partition : Partition2D K) (q : Particle K) :
    0 < (weighParticle m std_landmark observations partition q).1.weight ∧
      0 < (weighParticle m std_landmark observations partition q).2 := by
  have h := foldl_observe_pos m hpi hexp std_landmark hsx hsy partition (m.sin q.theta)
    (m.cos q.theta) observations
    ({ q with associations := [], sense_x := [], sense_y := [] }, 1) (by norm_num)
  exact ⟨h, h⟩

/-- The weights in exact arithmetic, without overflow or underflow: on a filter whose particle
sequence has `num_particles` entries, with standard deviations `sx > 0` and `sy > 0` (and
`M_PI` and every value of `exp` positive, as on the real numbers), `updateWeights` returns, the
weight of every particle is then strictly positive, and so is every entry of the weight
sequence. -/
theorem updateWeights_positive (m : Libm K) (hpi : 0 < m.M_PI) (hexp : ∀ a, 0 < m.exp a)
    (pf : ParticleFilter K) (sensor_range : K) (std_landmark : K × K)
    (hsx : 0 < std_landmark.1) (hsy : 0 < std_landmark.2)
    (observations : List (LandmarkObs K)) (partition : Partition2D K)
    (hN : pf.num_particles.toNat = pf.particles.length) :
    ∃ pf', pf.updateWeights m sensor_range std_landmark observations partition = some pf' ∧
      (∀ q' ∈ pf'.particles, 0 < q'.weight) ∧ (∀ w ∈ pf'.weights, 0 < w) ∧
      (0 < pf.particles.length → ∃ w ∈ pf'.weights, w ≠ 0) := by
  obtain ⟨pf', hrun, -, hlen, hwlen, hlow, hwlow, -⟩ :=
    updateWeights_spec m pf sensor_range std_landmark observations partition (le_of_eq hN)
  have hws : ∀ w ∈ pf'.weights, 0 < w := by
    intro w hw
    obtain ⟨i, hi⟩ := List.mem_iff_getElem?.1 hw
    have hlt : i < pf.num_particles.toNat := by
      rw [← hwlen]
      exact (List.getElem?_eq_some.1 hi).1
    rw [hwlow i hlt, List.getElem?_eq_getElem (by rw [← hN]; exact hlt)] at hi
    cases hi
    exact (weighParticle_pos m hpi hexp std_landmark hsx hsy observations partition _).2
  refine ⟨pf', hrun, ?_, hws, ?_⟩
  · intro q' hq'
    obtain ⟨i, hi⟩ := List.mem_iff_getElem?.1 hq'
    have hlt : i < pf.particles.length := by
      rw [← hlen]
      exact (List.getElem?_eq_some.1 hi).1
    rw [hlow i (by rw [hN]; exact hlt), List.getElem?_eq_getElem hlt] at hi
    cases hi
    exact (weighParticle_pos m hpi hexp std_landmark hsx hsy observations partition _).1
  · intro hpos
    have h0 : 0 < pf'.weights.length := by
      rw [hwlen, hN]
      exact hpos
    obtain ⟨w, hw⟩ := List.exists_mem_of_length_pos h0
    exact ⟨w, hw, (hws w hw).ne'⟩

/-! ## The roundings -/

theorem roundEven_sub_le (t : K) : |((roundEven t : Int) : K) - t| ≤ 1 / 2 := by
  have h0 : 0 ≤ t - ⌊t⌋ := by linarith [Int.floor_le t]
  have h1 : t - ⌊t⌋ < 1 := by linarith [Int.lt_floor_add_one t]
  unfold roundEven
  split_ifs with ha hb hc
  · rw [abs_le]; constructor <;> linarith
  · push_cast; rw [abs_le]; constructor <;> linarith
  · rw [abs_le]; constructor <;> linarith
  · push_cast; rw [abs_le]; constructor <;> linarith

theorem roundEven_of_abs_sub_lt (t : K) (n : Int) (h : |t - n| < 1 / 2) : roundEven t = n := by
  rw [abs_lt] at h
  have hr := roundEven_sub_le t
  rw [abs_le] at hr
  have h3 : (((roundEven t - n : Int)) : K) < ((1 : Int) : K) := by push_cast; linarith
  have h4 : (((-1 : Int)) : K) < ((roundEven t - n : Int) : K) := by push_cast; linarith
  rw [Int.cast_lt] at h3 h4
  omega

theorem roundEven_intCast (n : Int) : roundEven (n : K) = n :=
  roundEven_of_abs_sub_lt _ n (by simp)

/-- Rounding to an integer does not cross an integer from below. -/
theorem roundEven_le (t : K) (n : Int) (h : t ≤ n) : roundEven t ≤ n := by
  have hr := roundEven_sub_le t
  rw [abs_le] at hr
  have h3 : (((roundEven t - n : Int)) : K) < ((1 : Int) : K) := by push_cast; linarith
  rw [Int.cast_lt] at h3
  omega

/-- Rounding to an integer does not cross an integer from above. -/
theorem le_roundEven (t : K) (n : Int) (h : (n : K) ≤ t) : n ≤ roundEven t := by
  have hr := roundEven_sub_le t
  rw [abs_le] at hr
  have h4 : (((-1 : Int)) : K) < ((roundEven t - n : Int) : K) := by push_cast; linarith
  rw [Int.cast_lt] at h4
  omega

theorem two_zpow_pos (e : Int) : (0 : K) < 2 ^ e :=
  zpow_pos (by norm_num) e

theorem log_eq_of_bounds (q : K) (e : Int) (hlo : (2 : K) ^ e ≤ |q|) (hhi : |q| < 2 ^ (e + 1)) :
    Int.log 2 |q| = e := by
  have hpos : 0 < |q| := lt_of_lt_of_le (two_zpow_pos e) hlo
  have h1 : e ≤ Int.log 2 |q| :=
    (Int.zpow_le_iff_le_log (by norm_num) hpos).mp (by exact_mod_cast hlo)
  have h2 : Int.log 2 |q| < e + 1 :=
    (Int.lt_zpow_iff_log_lt (by norm_num) hpos).mp (by exact_mod_cast hhi)
  omega

theorem roundValue_zero (prec : Nat) (emin : Int) : roundValue prec emin (0 : K) = 0 := by
  unfold roundValue
  rw [zero_div]
  have h : roundEven (0 : K) = 0 := by simpa using roundEven_intCast (K := K) 0
  rw [h]
  simp

/-- A multiple of `2 ^ j` is a multiple of the unit in the last place of `q` when `j` is at least
the exponent of that unit. -/
theorem grid_multiple (u j N : Int) (hj : u ≤ j) :
    ((N * 2 ^ (j - u).toNat : Int) : K) * 2 ^ u = N * 2 ^ j := by
  have h2 : (2 : K) ≠ 0 := by norm_num
  have hj2 : j = (j - u) + u := by ring
  have hnat : ((j - u).toNat : Int) = j - u := Int.toNat_of_nonneg (by omega)
  push_cast
  rw [mul_assoc, ← zpow_natCast, hnat, ← zpow_add₀ h2, ← hj2]

/-- A rounding does not cross a multiple of `2 ^ j` from below, when `j` is at least the exponent
of the unit in the last place. -/
theorem roundValue_le_grid (prec : Nat) (emin : Int) (q : K) (N j : Int)
    (hj : ulpExponent prec emin q ≤ j) (h : q ≤ N * 2 ^ j) :
    roundValue prec emin q ≤ N * 2 ^ j := by
  have hu : (0 : K) < 2 ^ ulpExponent prec emin q := two_zpow_pos _
  have hg := grid_multiple (K := K) (ulpExponent prec emin q) j N hj
  unfold roundValue
  rw [← hg]
  apply mul_le_mul_of_nonneg_right _ hu.le
  have : roundEven (q / 2 ^ ulpExponent prec emin q) ≤ N * 2 ^ (j - ulpExponent prec emin q).toNat := by
    apply roundEven_le
    rw [div_le_iff₀ hu, hg]
    exact h
  exact_mod_cast this

/-- A rounding does not cross a multiple of `2 ^ j` from above, when `j` is at least the exponent
of the unit in the last place. -/
theorem le_roundValue_grid (prec : Nat) (emin : Int) (q : K) (N j : Int)
    (hj : ulpExponent prec emin q ≤ j) (h : (N : K) * 2 ^ j ≤ q) :
    (N : K) * 2 ^ j ≤ roundValue prec emin q := by
  have hu : (0 : K) < 2 ^ ulpExponent prec emin q := two_zpow_pos _
  have hg := grid_multiple (K := K) (ulpExponent prec emin q) j N hj
  unfold roundValue
  rw [← hg]
  apply mul_le_mul_of_nonneg_right _ hu.le
  have : N * 2 ^ (j - ulpExponent prec emin q).toNat ≤ roundEven (q / 2 ^ ulpExponent prec emin q) := by
    apply le_roundEven
    rw [le_div_iff₀ hu, hg]
    exact h
  exact_mod_cast this

/-- The exponent of the unit in the last place of a number below `2 ^ (j + prec)` is at most
`j`. -/
theorem ulpExponent_le (prec : Nat) (emin : Int) (q : K) (j : Int) (hq0 : q ≠ 0)
    (hq : |q| < 2 ^ (j + prec)) (hemin : emin - ((prec : Int) - 1) ≤ j) :
    ulpExponent prec emin q ≤ j := by
  have hpos : 0 < |q| := abs_pos.mpr hq0
  have h2 : Int.log 2 |q| < j + prec :=
    (Int.lt_zpow_iff_log_lt (by norm_num) hpos).mp (by exact_mod_cast hq)
  unfold ulpExponent
  rcases max_cases (Int.log 2 |q|) emin with ⟨h, _⟩ | ⟨h, _⟩ <;> rw [h] <;> omega

/-- A rounding does not cross a multiple of `2 ^ j` from below, for a number below
`2 ^ (j + prec)`. -/
theorem roundValue_le_of_le (prec : Nat) (emin : Int) (q : K) (N j : Int)
    (hq : |q| < 2 ^ (j + prec)) (hemin : emin - ((prec : Int) - 1) ≤ j) (h : q ≤ N * 2 ^ j) :
    roundValue prec emin q ≤ N * 2 ^ j := by
  by_cases hq0 : q = 0
  · rw [hq0, roundValue_zero]
    rw [hq0] at h
    exact h
  · exact roundValue_le_grid prec emin q N j (ulpExponent_le prec emin q j hq0 hq hemin) h

/-- A rounding does not cross a multiple of `2 ^ j` from above, for a number below
`2 ^ (j + prec)`. -/
theorem le_roundValue_of_le (prec : Nat) (emin : Int) (q : K) (N j : Int)
    (hq : |q| < 2 ^ (j + prec)) (hemin : emin - ((prec : Int) - 1) ≤ j) (h : (N : K) * 2 ^ j ≤ q) :
    (N : K) * 2 ^ j ≤ roundValue prec emin q := by
  by_cases hq0 : q = 0
  · rw [hq0, roundValue_zero]
    rw [hq0] at h
    exact h
  · exact le_roundValue_grid prec emin q N j (ulpExponent_le prec emin q j hq0 hq hemin) h

/-- A multiple `N * 2 ^ j` below `2 ^ (j + prec)` is a value of the format: rounding keeps it. -/
theorem roundValue_exact (prec : Nat) (emin : Int) (N j : Int)
    (hq : |(N : K) * 2 ^ j| < 2 ^ (j + prec)) (hemin : emin - ((prec : Int) - 1) ≤ j) :
    roundValue prec emin ((N : K) * 2 ^ j) = N * 2 ^ j :=
  le_antisymm (roundValue_le_of_le prec emin _ N j hq hemin le_rfl)
    (le_roundValue_of_le prec emin _ N j hq hemin le_rfl)

/-- The rounding of a number that is not negative is not negative. -/
theorem roundValue_nonneg (prec : Nat) (emin : Int) (q : K) (h : 0 ≤ q) :
    0 ≤ roundValue prec emin q := by
  unfold roundValue
  apply mul_nonneg _ (two_zpow_pos _).le
  have : (0 : Int) ≤ roundEven (q / 2 ^ ulpExponent prec emin q) :=
    le_roundEven _ 0 (by simpa using div_nonneg h (two_zpow_pos _).le)
  exact_mod_cast this

/-- The result of a floating operation, when it has one, is the rounded value. -/
theorem roundBinary_ok (prec : Nat) (emin emax : Int) (q r : K)
    (h : roundBinary prec emin emax q = .ok r) : r = roundValue prec emin q := by
  unfold roundBinary at h
  split_ifs at h with hf
  · injection h with h
    exact h.symm

/-- A floating operation has a result when the rounded value is within the format. -/
theorem roundBinary_of_lt (prec : Nat) (emin emax : Int) (q : K)
    (h : |roundValue prec emin q| < 2 ^ (emax + 1)) :
    roundBinary prec emin emax q = .ok (roundValue prec emin q) := by
  unfold roundBinary
  rw [if_pos h]

/-- Evaluation of a rounding of a positive number in the normal range. -/
theorem roundValue_pos (prec : Nat) (emin : Int) (q : K) (e n : Int)
    (hlo : (2 : K) ^ e ≤ q) (hhi : q < 2 ^ (e + 1)) (hemin : emin ≤ e)
    (hn1 : (n : K) - 1 / 2 < q / 2 ^ (e - ((prec : Int) - 1)))
    (hn2 : q / 2 ^ (e - ((prec : Int) - 1)) < (n : K) + 1 / 2) :
    roundValue prec emin q = n * 2 ^ (e - ((prec : Int) - 1)) := by
  have hq : 0 < q := lt_of_lt_of_le (two_zpow_pos e) hlo
  have hu : ulpExponent prec emin q = e - ((prec : Int) - 1) := by
    unfold ulpExponent
    rw [log_eq_of_bounds q e (by rw [abs_of_pos hq]; exact hlo) (by rw [abs_of_pos hq]; exact hhi),
      max_eq_left hemin]
  unfold roundValue
  rw [hu, roundEven_of_abs_sub_lt _ n (by rw [abs_lt]; constructor <;> linarith)]

/-- A positive number below half of the least positive value of the format is rounded to
zero. -/
theorem roundValue_underflow (prec : Nat) (emin : Int) (q : K) (h0 : 0 ≤ q)
    (h : q < 2 ^ (emin - prec)) (hemin : emin ≤ 0) : roundValue prec emin q = 0 := by
  rcases eq_or_lt_of_le h0 with h0 | hpos
  · rw [← h0, roundValue_zero]
  have h2 : (2 : K) ≠ 0 := by norm_num
  have hlt : q < 2 ^ emin := by
    apply lt_of_lt_of_le h
    exact zpow_le_zpow_right₀ (by norm_num) (by omega)
  have hlog : Int.log 2 |q| < emin := by
    rw [abs_of_pos hpos]
    exact (Int.lt_zpow_iff_log_lt (by norm_num) hpos).mp (by exact_mod_cast hlt)
  have hu : ulpExponent prec emin q = emin - ((prec : Int) - 1) := by
    unfold ulpExponent
    rw [max_eq_right hlog.le]
  unfold roundValue
  rw [hu]
  have hupos : (0 : K) < 2 ^ (emin - ((prec : Int) - 1)) := two_zpow_pos _
  have hr : roundEven (q / 2 ^ (emin - ((prec : Int) - 1))) = 0 := by
    apply roundEven_of_abs_sub_lt
    have hd : 0 ≤ q / 2 ^ (emin - ((prec : Int) - 1)) := div_nonneg hpos.le hupos.le
    rw [Int.cast_zero, sub_zero, abs_of_nonneg hd, div_lt_iff₀ hupos]
    have : (2 : K) ^ (emin - (prec : Int)) = 1 / 2 * 2 ^ (emin - ((prec : Int) - 1)) := by
      have : emin - ((prec : Int) - 1) = (emin - prec) + 1 := by ring
      rw [this, zpow_add₀ h2, zpow_one]
      ring
    rw [← this]
    exact h
  rw [hr]
  simp

/-- The error of a rounding of a number that is not negative, from above. -/
theorem roundValue_le_add (prec : Nat) (emin : Int) (q : K) (h0 : 0 ≤ q) :
    roundValue prec emin q ≤ q + (q + 2 ^ emin) * 2 ^ (-(prec : Int)) := by
  rcases eq_or_lt_of_le h0 with h0 | hpos
  · rw [← h0, roundValue_zero]
    have := two_zpow_pos (K := K) emin
    have := two_zpow_pos (K := K) (-(prec : Int))
    positivity
  have h2 : (2 : K) ≠ 0 := by norm_num
  have hupos : (0 : K) < 2 ^ ulpExponent prec emin q := two_zpow_pos _
  have hr := roundEven_sub_le (q / 2 ^ ulpExponent prec emin q)
  rw [abs_le] at hr
  have h1 : roundValue prec emin q ≤ q + 1 / 2 * 2 ^ ulpExponent prec emin q := by
    unfold roundValue
    have : ((roundEven (q / 2 ^ ulpExponent prec emin q) : Int) : K) ≤
        q / 2 ^ ulpExponent prec emin q + 1 / 2 := by linarith
    calc ((roundEven (q / 2 ^ ulpExponent prec emin q) : Int) : K) * 2 ^ ulpExponent prec emin q
        ≤ (q / 2 ^ ulpExponent prec emin q + 1 / 2) * 2 ^ ulpExponent prec emin q :=
          mul_le_mul_of_nonneg_right this hupos.le
      _ = q + 1 / 2 * 2 ^ ulpExponent prec emin q := by
          rw [add_mul, div_mul_cancel₀ _ hupos.ne']
  have hlog : (2 : K) ^ Int.log 2 |q| ≤ q := by
    rw [abs_of_pos hpos]
    exact_mod_cast Int.zpow_log_le_self (b := 2) (by norm_num) hpos
  have hmax : (2 : K) ^ max (Int.log 2 |q|) emin ≤ q + 2 ^ emin := by
    rcases max_cases (Int.log 2 |q|) emin with ⟨h, _⟩ | ⟨h, _⟩ <;> rw [h]
    · linarith [two_zpow_pos (K := K) emin]
    · linarith
  have hsplit : (1 : K) / 2 * 2 ^ ulpExponent prec emin q =
      2 ^ max (Int.log 2 |q|) emin * 2 ^ (-(prec : Int)) := by
    unfold ulpExponent
    have : max (Int.log 2 |q|) emin - ((prec : Int) - 1) =
        max (Int.log 2 |q|) emin + (-(prec : Int)) + 1 := by ring
    rw [this, zpow_add₀ h2, zpow_add₀ h2, zpow_one]
    ring
  rw [hsplit] at h1
  have := mul_le_mul_of_nonneg_right hmax (two_zpow_pos (K := K) (-(prec : Int))).le
  linarith

/-- A `float` operation whose exact result is a value of the format returns it. -/
theorem roundFloat_grid (q r : K) (N j : Int) (hr : q = r) (hq : r = N * 2 ^ j)
    (hlt : |r| < 2 ^ (j + 24)) (hj : -149 ≤ j) (hj2 : j ≤ 104) : roundFloat q = .ok r := by
  have hv : roundValue 24 (-126) q = r := by
    rw [hr, hq]
    apply roundValue_exact
    · rw [← hq]; exact_mod_cast hlt
    · push_cast; omega
  unfold roundFloat
  rw [roundBinary_of_lt, hv]
  rw [hv]
  apply lt_of_lt_of_le hlt
  exact zpow_le_zpow_right₀ (by norm_num) (by omega)

/-- A `double` operation whose exact result is a value of the format returns it. -/
theorem roundDouble_grid (q r : K) (N j : Int) (hr : q = r) (hq : r = N * 2 ^ j)
    (hlt : |r| < 2 ^ (j + 53)) (hj : -1074 ≤ j) (hj2 : j ≤ 971) : roundDouble q = .ok r := by
  have hv : roundValue 53 (-1022) q = r := by
    rw [hr, hq]
    apply roundValue_exact
    · rw [← hq]; exact_mod_cast hlt
    · push_cast; omega
  unfold roundDouble
  rw [roundBinary_of_lt, hv]
  rw [hv]
  apply lt_of_lt_of_le hlt
  exact zpow_le_zpow_right₀ (by norm_num) (by omega)

/-- The rounded value of a positive number in the normal range is below the next power of
two. -/
theorem grid_value_lt (prec : Nat) (q : K) (e n : Int) (hq : 0 < q)
    (hn2 : q / 2 ^ (e - ((prec : Int) - 1)) < (n : K) + 1 / 2) (hn : n ≤ 2 ^ prec) :
    0 ≤ (n : K) * 2 ^ (e - ((prec : Int) - 1)) ∧
      (n : K) * 2 ^ (e - ((prec : Int) - 1)) < 2 ^ (e + 2) := by
  have h2 : (2 : K) ≠ 0 := by norm_num
  have hu : (0 : K) < 2 ^ (e - ((prec : Int) - 1)) := two_zpow_pos _
  have hd : 0 < q / 2 ^ (e - ((prec : Int) - 1)) := div_pos hq hu
  have hn0 : (0 : Int) ≤ n := by
    have h3 : ((-1 : Int) : K) < ((n : Int) : K) := by push_cast; linarith
    rw [Int.cast_lt] at h3
    omega
  have hn0K : (0 : K) ≤ n := by exact_mod_cast hn0
  have hnK : (n : K) ≤ 2 ^ prec := by exact_mod_cast hn
  refine ⟨mul_nonneg hn0K hu.le, ?_⟩
  have he : (2 : K) ^ (e + 2) = 2 * (2 ^ prec * 2 ^ (e - ((prec : Int) - 1))) := by
    have : e + 2 = 1 + ((prec : Int) + (e - ((prec : Int) - 1))) := by ring
    rw [this, zpow_add₀ h2, zpow_add₀ h2, zpow_one, zpow_natCast]
  rw [he]
  have := mul_le_mul_of_nonneg_right hnK hu.le
  have hpos : (0 : K) < 2 ^ prec * 2 ^ (e - ((prec : Int) - 1)) := by positivity
  linarith

/-- Evaluation of a `float` operation with a positive result in the normal range. -/
theorem roundFloat_pos (q : K) (e n : Int) (r : K)
    (hlo : (2 : K) ^ e ≤ q) (hhi : q < 2 ^ (e + 1)) (hemin : -126 ≤ e) (hemax : e ≤ 126)
    (hn1 : (n : K) - 1 / 2 < q / 2 ^ (e - 23)) (hn2 : q / 2 ^ (e - 23) < (n : K) + 1 / 2)
    (hn : n ≤ 16777216) (hr : r = n * 2 ^ (e - 23)) : roundFloat q = .ok r := by
  have hq : 0 < q := lt_of_lt_of_le (two_zpow_pos e) hlo
  have hv : roundValue 24 (-126) q = r := by
    rw [hr]
    exact roundValue_pos 24 (-126) q e n hlo hhi hemin (by push_cast; norm_num; exact hn1)
      (by push_cast; norm_num; exact hn2)
  have hg := grid_value_lt 24 q e n hq (by push_cast; norm_num; exact hn2) (by norm_num; exact hn)
  have hg1 : (0 : K) ≤ r := by rw [hr]; simpa using hg.1
  have hg2 : r < 2 ^ (e + 2) := by rw [hr]; simpa using hg.2
  unfold roundFloat
  rw [roundBinary_of_lt, hv]
  rw [hv, abs_of_nonneg hg1]
  apply lt_of_lt_of_le hg2
  exact zpow_le_zpow_right₀ (by norm_num) (by omega)

/-- Evaluation of a `double` operation with a positive result in the normal range. -/
theorem roundDouble_pos (q : K) (e n : Int) (r : K)
    (hlo : (2 : K) ^ e ≤ q) (hhi : q < 2 ^ (e + 1)) (hemin : -1022 ≤ e) (hemax : e ≤ 1022)
    (hn1 : (n : K) - 1 / 2 < q / 2 ^ (e - 52)) (hn2 : q / 2 ^ (e - 52) < (n : K) + 1 / 2)
    (hn : n ≤ 9007199254740992) (hr : r = n * 2 ^ (e - 52)) : roundDouble q = .ok r := by
  have hq : 0 < q := lt_of_lt_of_le (two_zpow_pos e) hlo
  have hv : roundValue 53 (-1022) q = r := by
    rw [hr]
    exact roundValue_pos 53 (-1022) q e n hlo hhi hemin (by push_cast; norm_num; exact hn1)
      (by push_cast; norm_num; exact hn2)
  have hg := grid_value_lt 53 q e n hq (by push_cast; norm_num; exact hn2) (by norm_num; exact hn)
  have hg1 : (0 : K) ≤ r := by rw [hr]; simpa using hg.1
  have hg2 : r < 2 ^ (e + 2) := by rw [hr]; simpa using hg.2
  unfold roundDouble
  rw [roundBinary_of_lt, hv]
  rw [hv, abs_of_nonneg hg1]
  apply lt_of_lt_of_le hg2
  exact zpow_le_zpow_right₀ (by norm_num) (by omega)

/-! ## `initialize` in machine arithmetic -/

theorem intChecked_ok_iff (n r : Int) :
    intChecked n = .ok r ↔ (-2147483648 ≤ n ∧ n ≤ 2147483647) ∧ r = n := by
  unfold intChecked
  split_ifs with h
  · constructor
    · intro hr
      injection hr with hr
      exact ⟨h, hr.symm⟩
    · rintro ⟨_, rfl⟩
      rfl
  · constructor
    · intro hr
      cases hr
    · rintro ⟨h', _⟩
      exact absurd h' h

theorem intChecked_of_range (n : Int) (h : -2147483648 ≤ n ∧ n ≤ 2147483647) :
    intChecked n = .ok n :=
  (intChecked_ok_iff n n).2 ⟨h, rfl⟩

theorem intChecked_of_not_range (n : Int) (h : ¬ (-2147483648 ≤ n ∧ n ≤ 2147483647)) :
    intChecked n = .error .undefined := by
  unfold intChecked
  rw [if_neg h]

theorem ok_bind {α β : Type} (a : α) (f : α → Except Fault β) :
    ((Except.ok a : Except Fault α) >>= f) = f a :=
  rfl

theorem error_bind {α β : Type} (x : Fault) (f : α → Except Fault β) :
    ((Except.error x : Except Fault α) >>= f) = Except.error x :=
  rfl

/-- A step that never fails an assertion, followed by steps that never fail one, never fails
one. -/
theorem bind_ne_assertion {α β : Type} (e : Except Fault α) (f : α → Except Fault β)
    (he : e ≠ .error .assertion) (hf : ∀ a, f a ≠ .error .assertion) :
    (e >>= f) ≠ .error .assertion := by
  cases e with
  | error x =>
    rw [error_bind]
    intro h
    injection h with h
    exact he (by rw [h])
  | ok a => exact hf a

theorem roundBinary_ne_assertion (prec : Nat) (emin emax : Int) (q : K) :
    roundBinary prec emin emax q ≠ .error .assertion := by
  unfold roundBinary
  split_ifs <;> intro h <;> cases h

theorem intChecked_ne_assertion (n : Int) : intChecked n ≠ .error .assertion := by
  unfold intChecked
  split_ifs <;> intro h <;> cases h

theorem floatQuotient_ne_assertion (lo hi cell_size : K) :
    floatQuotient lo hi cell_size ≠ .error .assertion :=
  bind_ne_assertion _ _ (roundBinary_ne_assertion _ _ _ _)
    (fun _ => roundBinary_ne_assertion _ _ _ _)

theorem levelSum_ne_assertion (max_dist cell_size : K) :
    levelSum max_dist cell_size ≠ .error .assertion :=
  bind_ne_assertion _ _ (roundBinary_ne_assertion _ _ _ _)
    (fun _ => roundBinary_ne_assertion _ _ _ _)

/-- The results of `initialize` on arguments that pass its two assertions. -/
theorem InitializeM_ok_iff (x0 y0 x1 y1 cell_size max_dist : K) (hr : x0 < x1 ∧ y0 < y1)
    (hc : 0 < cell_size) (p : Partition2D K) :
    InitializeM x0 y0 x1 y1 cell_size max_dist = .ok p ↔
      ∃ across along levels : K, floatQuotient x0 x1 cell_size = .ok across ∧
        floatQuotient y0 y1 cell_size = .ok along ∧
        levelSum max_dist cell_size = .ok levels ∧
        (-2147483648 ≤ ⌈across⌉ ∧ ⌈across⌉ ≤ 2147483647) ∧
        (-2147483648 ≤ ⌈along⌉ ∧ ⌈along⌉ ≤ 2147483647) ∧
        (-2147483648 ≤ toInt levels ∧ toInt levels ≤ 2147483647) ∧
        (-2147483648 ≤ ⌈across⌉ * ⌈along⌉ ∧ ⌈across⌉ * ⌈along⌉ ≤ 2147483647) ∧
        p = { world_x0 := x0, world_y0 := y0, world_x1 := x1, world_y1 := y1,
              search_levels := toInt levels, dim_x := ⌈across⌉, dim_y := ⌈along⌉,
              cell_size := cell_size,
              cells := List.replicate (⌈across⌉ * ⌈along⌉).toNat none } := by
  unfold InitializeM
  rw [if_pos hr, if_pos hc]
  constructor
  · intro h
    cases hA : floatQuotient x0 x1 cell_size with
    | error f => rw [hA] at h; cases h
    | ok across =>
      rw [hA, ok_bind] at h
      by_cases h1 : -2147483648 ≤ ⌈across⌉ ∧ ⌈across⌉ ≤ 2147483647
      swap
      · rw [intChecked_of_not_range _ h1] at h
        cases h
      rw [intChecked_of_range _ h1, ok_bind] at h
      cases hB : floatQuotient y0 y1 cell_size with
      | error f => rw [hB] at h; cases h
      | ok along =>
        rw [hB, ok_bind] at h
        by_cases h2 : -2147483648 ≤ ⌈along⌉ ∧ ⌈along⌉ ≤ 2147483647
        swap
        · rw [intChecked_of_not_range _ h2] at h
          cases h
        rw [intChecked_of_range _ h2, ok_bind] at h
        cases hL : levelSum max_dist cell_size with
        | error f => rw [hL] at h; cases h
        | ok levels =>
          rw [hL, ok_bind] at h
          by_cases h3 : -2147483648 ≤ toInt levels ∧ toInt levels ≤ 2147483647
          swap
          · rw [intChecked_of_not_range _ h3] at h
            cases h
          rw [intChecked_of_range _ h3, ok_bind] at h
          by_cases h4 : -2147483648 ≤ ⌈across⌉ * ⌈along⌉ ∧ ⌈across⌉ * ⌈along⌉ ≤ 2147483647
          swap
          · rw [intChecked_of_not_range _ h4] at h
            cases h
          rw [intChecked_of_range _ h4, ok_bind] at h
          injection h with h
          exact ⟨across, along, levels, rfl, rfl, rfl, h1, h2, h3, h4, h.symm⟩
  · rintro ⟨across, along, levels, hA, hB, hL, h1, h2, h3, h4, rfl⟩
    rw [hA, ok_bind, intChecked_of_range _ h1, ok_bind, hB, ok_bind, intChecked_of_range _ h2,
      ok_bind, hL, ok_bind, intChecked_of_range _ h3, ok_bind, intChecked_of_range _ h4, ok_bind]
    rfl

theorem floatQuotient_ok_iff (lo hi cell_size q : K) :
    floatQuotient lo hi cell_size = .ok q ↔
      ∃ extent, roundFloat (hi - lo) = .ok extent ∧ roundFloat (extent / cell_size) = .ok q := by
  unfold floatQuotient
  cases h : roundFloat (hi - lo) with
  | error f =>
    rw [error_bind]
    constructor
    · intro h'
      cases h'
    · rintro ⟨_, h', _⟩
      cases h'
  | ok extent =>
    rw [ok_bind]
    constructor
    · intro h'
      exact ⟨extent, rfl, h'⟩
    · rintro ⟨e, h1, h2⟩
      injection h1 with h1
      rw [h1]
      exact h2

theorem levelSum_ok_iff (max_dist cell_size q : K) :
    levelSum max_dist cell_size = .ok q ↔
      ∃ ratio, roundFloat (max_dist / cell_size) = .ok ratio ∧
        roundDouble (ratio + 1 / 2) = .ok q := by
  unfold levelSum
  cases h : roundFloat (max_dist / cell_size) with
  | error f =>
    rw [error_bind]
    constructor
    · intro h'
      cases h'
    · rintro ⟨_, h', _⟩
      cases h'
  | ok ratio =>
    rw [ok_bind]
    constructor
    · intro h'
      exact ⟨ratio, rfl, h'⟩
    · rintro ⟨e, h1, h2⟩
      injection h1 with h1
      rw [h1]
      exact h2

/-- The result of a `float` operation on an exact result that is not negative is not
negative. -/
theorem roundFloat_nonneg (q r : K) (h : roundFloat q = .ok r) (hq : 0 ≤ q) : 0 ≤ r := by
  rw [roundBinary_ok _ _ _ _ _ h]
  exact roundValue_nonneg _ _ _ hq

/-- The result of a `double` operation on an exact result that is not negative is not
negative. -/
theorem roundDouble_nonneg (q r : K) (h : roundDouble q = .ok r) (hq : 0 ≤ q) : 0 ≤ r := by
  rw [roundBinary_ok _ _ _ _ _ h]
  exact roundValue_nonneg _ _ _ hq

theorem floatQuotient_nonneg (lo hi cell_size q : K) (h : floatQuotient lo hi cell_size = .ok q)
    (hl : lo ≤ hi) (hc : 0 < cell_size) : 0 ≤ q := by
  obtain ⟨extent, h1, h2⟩ := (floatQuotient_ok_iff lo hi cell_size q).1 h
  have he := roundFloat_nonneg _ _ h1 (by linarith)
  exact roundFloat_nonneg _ _ h2 (div_nonneg he hc.le)

theorem levelSum_nonneg (max_dist cell_size q : K) (h : levelSum max_dist cell_size = .ok q)
    (hd : 0 ≤ max_dist) (hc : 0 < cell_size) : 0 ≤ q := by
  obtain ⟨ratio, h1, h2⟩ := (levelSum_ok_iff max_dist cell_size q).1 h
  have he := roundFloat_nonneg _ _ h1 (div_nonneg hd hc.le)
  exact roundDouble_nonneg _ _ h2 (by linarith)

/-- A `float` operation whose exact result lies between `0` and `2 ^ a` gives a value between
`0` and `2 ^ a`. -/
theorem roundFloat_le_pow (q : K) (a : Int) (h0 : 0 ≤ q) (ha : -149 ≤ a ∧ a ≤ 127)
    (h : q ≤ 2 ^ a) :
    roundFloat q = .ok (roundValue 24 (-126) q) ∧
      (0 ≤ roundValue 24 (-126) q ∧ roundValue 24 (-126) q ≤ 2 ^ a) := by
  have h2 : (2 : K) ^ a < 2 ^ (a + (24 : Nat)) :=
    zpow_lt_zpow_right₀ (by norm_num) (by push_cast; omega)
  have hup := roundValue_le_of_le (K := K) 24 (-126) q 1 a
    (by rw [abs_of_nonneg h0]; linarith) (by push_cast; omega) (by simpa using h)
  have hup2 : roundValue 24 (-126) q ≤ 2 ^ a := by simpa using hup
  have hlow := roundValue_nonneg (K := K) 24 (-126) q h0
  refine ⟨?_, hlow, hup2⟩
  unfold roundFloat
  rw [roundBinary_of_lt]
  rw [abs_of_nonneg hlow]
  have h3 : (2 : K) ^ a < 2 ^ ((127 : Int) + 1) :=
    zpow_lt_zpow_right₀ (by norm_num) (by omega)
  linarith

/-- The grid of `initialize` is small enough when both sides of the rectangle are at most a
power of two `2 ^ a` that is at most `32768` cell sizes, and `max_dist` is at most `2 ^ 30` cell
sizes: the call returns. -/
theorem InitializeM_returns (x0 y0 x1 y1 cell_size max_dist : K) (a : Int)
    (hx : x0 < x1) (hy : y0 < y1) (hc : 0 < cell_size) (hd : 0 ≤ max_dist)
    (ha : -149 ≤ a ∧ a ≤ 127) (hsx : x1 - x0 ≤ 2 ^ a) (hsy : y1 - y0 ≤ 2 ^ a)
    (hcell : (2 : K) ^ a ≤ 32768 * cell_size) (hmax : max_dist ≤ 1073741824 * cell_size) :
    ∃ p, InitializeM x0 y0 x1 y1 cell_size max_dist = .ok p ∧
      (p.dim_x ≤ 32768 ∧ p.dim_y ≤ 32768 ∧ p.search_levels ≤ 1073741824) := by
  have h15 : (2 : K) ^ (15 : Int) = 32768 := by norm_num
  have h30 : (2 : K) ^ (30 : Int) = 1073741824 := by norm_num
  have hside : ∀ lo hi : K, lo < hi → hi - lo ≤ 2 ^ a →
      ∃ q, floatQuotient lo hi cell_size = .ok q ∧ 0 ≤ q ∧ q ≤ 32768 := by
    intro lo hi hlt hs
    obtain ⟨h1, h1lo, h1hi⟩ := roundFloat_le_pow (hi - lo) a (by linarith) ha hs
    have hq0 : 0 ≤ roundValue 24 (-126) (hi - lo) / cell_size := div_nonneg h1lo hc.le
    have hq1 : roundValue 24 (-126) (hi - lo) / cell_size ≤ 2 ^ (15 : Int) := by
      rw [h15, div_le_iff₀ hc]
      linarith
    obtain ⟨h2, h2lo, h2hi⟩ := roundFloat_le_pow _ 15 hq0 (by norm_num) hq1
    rw [h15] at h2hi
    exact ⟨_, (floatQuotient_ok_iff _ _ _ _).2 ⟨_, h1, h2⟩, h2lo, h2hi⟩
  obtain ⟨across, hA, hA0, hA1⟩ := hside x0 x1 hx hsx
  obtain ⟨along, hB, hB0, hB1⟩ := hside y0 y1 hy hsy
  have hr0 : 0 ≤ max_dist / cell_size := div_nonneg hd hc.le
  have hr1 : max_dist / cell_size ≤ 2 ^ (30 : Int) := by
    rw [h30, div_le_iff₀ hc]
    exact hmax
  obtain ⟨h3, h3lo, h3hi⟩ := roundFloat_le_pow _ 30 hr0 (by norm_num) hr1
  rw [h30] at h3hi
  have hs0 : (0 : K) ≤ roundValue 24 (-126) (max_dist / cell_size) + 1 / 2 := by linarith
  have hgrid : (((2147483649 : Int) : K)) * 2 ^ (-1 : Int) = 1073741824 + 1 / 2 := by
    norm_num
  have hs1 : roundValue 53 (-1022) (roundValue 24 (-126) (max_dist / cell_size) + 1 / 2) ≤
      1073741824 + 1 / 2 := by
    rw [← hgrid]
    apply roundValue_le_of_le (K := K) 53 (-1022) _ 2147483649 (-1)
    · rw [abs_of_nonneg hs0]
      have : (2 : K) ^ ((-1 : Int) + (53 : Nat)) = 4503599627370496 := by norm_num
      rw [this]
      linarith
    · norm_num
    · rw [hgrid]
      linarith
  have hs2 := roundValue_nonneg (K := K) 53 (-1022) _ hs0
  have h4 : roundDouble (roundValue 24 (-126) (max_dist / cell_size) + 1 / 2) =
      .ok (roundValue 53 (-1022) (roundValue 24 (-126) (max_dist / cell_size) + 1 / 2)) := by
    unfold roundDouble
    rw [roundBinary_of_lt]
    rw [abs_of_nonneg hs2]
    have h5 : (2 : K) ^ (31 : Int) ≤ 2 ^ ((1023 : Int) + 1) :=
      zpow_le_zpow_right₀ (by norm_num) (by norm_num)
    have h6 : (2 : K) ^ (31 : Int) = 2147483648 := by norm_num
    linarith
  have hL := (levelSum_ok_iff max_dist cell_size _).2 ⟨_, h3, h4⟩
  have hcA : ⌈across⌉ ≤ 32768 := Int.ceil_le.2 (by push_cast; exact hA1)
  have hcB : ⌈along⌉ ≤ 32768 := Int.ceil_le.2 (by push_cast; exact hB1)
  have hcA0 : 0 ≤ ⌈across⌉ := Int.ceil_nonneg hA0
  have hcB0 : 0 ≤ ⌈along⌉ := Int.ceil_nonneg hB0
  have hT : toInt (roundValue 53 (-1022)
      (roundValue 24 (-126) (max_dist / cell_size) + 1 / 2)) ≤ 1073741824 := by
    rw [toInt_of_nonneg hs2]
    have : ⌊roundValue 53 (-1022) (roundValue 24 (-126) (max_dist / cell_size) + 1 / 2)⌋ <
        1073741824 + 1 := by
      rw [Int.floor_lt]
      push_cast
      linarith
    omega
  have hT0 : 0 ≤ toInt (roundValue 53 (-1022)
      (roundValue 24 (-126) (max_dist / cell_size) + 1 / 2)) := by
    rw [toInt_of_nonneg hs2]
    exact Int.floor_nonneg.2 hs2
  have hprod : ⌈across⌉ * ⌈along⌉ ≤ 32768 * 32768 := mul_le_mul hcA hcB hcB0 (by norm_num)
  have hprod0 : 0 ≤ ⌈across⌉ * ⌈along⌉ := mul_nonneg hcA0 hcB0
  refine ⟨_, (InitializeM_ok_iff x0 y0 x1 y1 cell_size max_dist ⟨hx, hy⟩ hc _).2
    ⟨across, along, _, hA, hB, hL, ⟨by omega, by omega⟩, ⟨by omega, by omega⟩,
      ⟨by omega, by omega⟩, ⟨by omega, by omega⟩, rfl⟩, hcA, hcB, hT⟩

/-- C16, as the code has it: `initialize` fails an assertion exactly when the rectangle is
degenerate (not `x0 < x1` or not `y0 < y1`) or `cell_size ≤ 0`. For all other arguments it
returns an index exactly when the `float` quotients and the level sum are finite, the two
dimensions and the level count that they give are values of `int`, and so is the product
`dim_x * dim_y`; otherwise the call has no defined result. It does return when `max_dist` is
not negative and at most `2 ^ 30` cell sizes and both sides of the rectangle are at most a power
of two `2 ^ a`, `-149 ≤ a ≤ 127`, that is at most `32768` cell sizes. -/
theorem InitializeM_fails_iff (x0 y0 x1 y1 cell_size max_dist : K) :
    (InitializeM x0 y0 x1 y1 cell_size max_dist = .error .assertion ↔
      ¬ (x0 < x1 ∧ y0 < y1) ∨ cell_size ≤ 0) ∧
    ((x0 < x1 ∧ y0 < y1) ∧ 0 < cell_size →
      ((∃ p, InitializeM x0 y0 x1 y1 cell_size max_dist = .ok p) ↔
        ∃ across along levels : K, floatQuotient x0 x1 cell_size = .ok across ∧
          floatQuotient y0 y1 cell_size = .ok along ∧
          levelSum max_dist cell_size = .ok levels ∧
          ⌈across⌉ ≤ 2147483647 ∧ ⌈along⌉ ≤ 2147483647 ∧
          (-2147483648 ≤ toInt levels ∧ toInt levels ≤ 2147483647) ∧
          ⌈across⌉ * ⌈along⌉ ≤ 2147483647)) ∧
    (∀ a : Int, (x0 < x1 ∧ y0 < y1) ∧ 0 < cell_size → 0 ≤ max_dist → (-149 ≤ a ∧ a ≤ 127) →
      (x1 - x0 ≤ 2 ^ a ∧ y1 - y0 ≤ 2 ^ a) → (2 : K) ^ a ≤ 32768 * cell_size →
      max_dist ≤ 1073741824 * cell_size →
      ∃ p, InitializeM x0 y0 x1 y1 cell_size max_dist = .ok p) := by
  refine ⟨?_, ?_, ?_⟩
  · constructor
    · intro h
      by_contra hn
      rw [not_or, not_not, not_le] at hn
      have hno : InitializeM x0 y0 x1 y1 cell_size max_dist ≠ .error .assertion := by
        unfold InitializeM
        rw [if_pos hn.1, if_pos hn.2]
        refine bind_ne_assertion _ _ (floatQuotient_ne_assertion _ _ _) (fun _ => ?_)
        refine bind_ne_assertion _ _ (intChecked_ne_assertion _) (fun _ => ?_)
        refine bind_ne_assertion _ _ (floatQuotient_ne_assertion _ _ _) (fun _ => ?_)
        refine bind_ne_assertion _ _ (intChecked_ne_assertion _) (fun _ => ?_)
        refine bind_ne_assertion _ _ (levelSum_ne_assertion _ _) (fun _ => ?_)
        refine bind_ne_assertion _ _ (intChecked_ne_assertion _) (fun _ => ?_)
        refine bind_ne_assertion _ _ (intChecked_ne_assertion _) (fun _ => ?_)
        intro h'
        cases h'
      exact hno h
    · intro h
      unfold InitializeM
      rcases h with h | h
      · rw [if_neg h]
      · by_cases hr : x0 < x1 ∧ y0 < y1
        · rw [if_pos hr, if_neg (not_lt.mpr h)]
        · rw [if_neg hr]
  · rintro ⟨hr, hc⟩
    constructor
    · rintro ⟨p, hp⟩
      obtain ⟨across, along, levels, hA, hB, hL, h1, h2, h3, h4, _⟩ :=
        (InitializeM_ok_iff x0 y0 x1 y1 cell_size max_dist hr hc p).1 hp
      exact ⟨across, along, levels, hA, hB, hL, h1.2, h2.2, h3, h4.2⟩
    · rintro ⟨across, along, levels, hA, hB, hL, h1, h2, h3, h4⟩
      have ha := floatQuotient_nonneg _ _ _ _ hA hr.1.le hc
      have hb := floatQuotient_nonneg _ _ _ _ hB hr.2.le hc
      have hca : 0 ≤ ⌈across⌉ := Int.ceil_nonneg ha
      have hcb : 0 ≤ ⌈along⌉ := Int.ceil_nonneg hb
      refine ⟨_, (InitializeM_ok_iff x0 y0 x1 y1 cell_size max_dist hr hc _).2
        ⟨across, along, levels, hA, hB, hL, ⟨by omega, h1⟩, ⟨by omega, h2⟩, h3,
          ⟨?_, h4⟩, rfl⟩⟩
      have := mul_nonneg hca hcb
      omega
  · intro a hr hd ha hs hcell hmax
    obtain ⟨p, hp, _⟩ := InitializeM_returns x0 y0 x1 y1 cell_size max_dist a hr.1.1 hr.1.2
      hr.2 hd ha hs.1 hs.2 hcell hmax
    exact ⟨p, hp⟩

/-- The integers up to `2 ^ 24` in absolute value are values of `float`. -/
theorem roundFloat_int (q : K) (n : Int) (hq : q = n) (hn : -16777216 < n ∧ n < 16777216) :
    roundFloat q = .ok (n : K) := by
  apply roundFloat_grid q n n 0 hq (by simp) _ (by norm_num) (by norm_num)
  rw [abs_lt]
  have h1 : ((-16777216 : Int) : K) < n := by exact_mod_cast hn.1
  have h2 : (n : K) < ((16777216 : Int) : K) := by exact_mod_cast hn.2
  push_cast at h1 h2
  norm_num
  constructor <;> linarith

/-- The index of four cells is what `initialize(0, 0, 2, 2, 1, 1)` builds in machine arithmetic. -/
theorem fourCells_builtM : InitializeM (0 : ℝ) 0 2 2 1 1 = .ok fourCells := by
  have h1 : roundFloat ((2 : ℝ) - 0) = .ok 2 := by
    simpa using roundFloat_int ((2 : ℝ) - 0) 2 (by norm_num) (by norm_num)
  have h2 : roundFloat ((2 : ℝ) / 1) = .ok 2 := by
    simpa using roundFloat_int ((2 : ℝ) / 1) 2 (by norm_num) (by norm_num)
  have h3 : roundFloat ((1 : ℝ) / 1) = .ok 1 := by
    simpa using roundFloat_int ((1 : ℝ) / 1) 1 (by norm_num) (by norm_num)
  have h4 : roundDouble ((1 : ℝ) + 1 / 2) = .ok (3 / 2) :=
    roundDouble_grid _ _ 3 (-1) (by norm_num) (by norm_num) (by norm_num [abs_lt])
      (by norm_num) (by norm_num)
  have hq : floatQuotient (0 : ℝ) 2 1 = .ok 2 :=
    (floatQuotient_ok_iff _ _ _ _).2 ⟨2, h1, h2⟩
  have hl : levelSum (1 : ℝ) 1 = .ok (3 / 2) := (levelSum_ok_iff _ _ _).2 ⟨1, h3, h4⟩
  have hc : ⌈(2 : ℝ)⌉ = 2 := by simp
  have ht : toInt (3 / 2 : ℝ) = 1 := by norm_num [toInt]
  rw [InitializeM_ok_iff (0 : ℝ) 0 2 2 1 1 (by norm_num) (by norm_num)]
  refine ⟨2, 2, 3 / 2, hq, hq, hl, ?_, ?_, ?_, ?_, ?_⟩
  · rw [hc]; norm_num
  · rw [hc]; norm_num
  · rw [ht]; norm_num
  · rw [hc]; norm_num
  · rw [hc, ht]
    simp [fourCells, toNat_four]

/-- Witness of C16: `initialize(0, 0, 2, 2, 1, 1)` returns an index, and the degenerate rectangle
of `initialize(0, 0, 0, 2, 1, 1)` fails the assertion. -/
theorem InitializeM_fails_iff_witness :
    (∃ p, InitializeM (0 : ℝ) 0 2 2 1 1 = .ok p) ∧
      InitializeM (0 : ℝ) 0 0 2 1 1 = .error .assertion :=
  ⟨((InitializeM_fails_iff (0 : ℝ) 0 2 2 1 1).2.1 ⟨by norm_num, by norm_num⟩).2
      (((InitializeM_fails_iff (0 : ℝ) 0 2 2 1 1).2.1 ⟨by norm_num, by norm_num⟩).1
        ⟨fourCells, fourCells_builtM⟩),
    (InitializeM_fails_iff (0 : ℝ) 0 0 2 1 1).1.2 (Or.inl (by norm_num))⟩

theorem ceil_million : ⌈(1000000 : ℝ)⌉ = 1000000 := by
  have : ((1000000 : Int) : ℝ) = 1000000 := by norm_num
  rw [← this, Int.ceil_intCast]

/-- Counterexample to C16: the rectangle from `(0, 0)` to `(10^6, 10^6)` is not degenerate and
the cell size `1` is positive, but the grid has `10^6` by `10^6` cells and the product
`dim_x * dim_y = 10^12` is no value of `int`: `initialize(0, 0, 1e6, 1e6, 1, 1)` does not
succeed (and fails no assertion). -/
theorem Initialize_overflow_counterexample :
    (((0 : ℝ) < 1000000 ∧ (0 : ℝ) < 1000000) ∧ (0 : ℝ) < 1) ∧
      InitializeM (0 : ℝ) 0 1000000 1000000 1 1 = .error .undefined ∧
      ¬ ∃ p, InitializeM (0 : ℝ) 0 1000000 1000000 1 1 = .ok p := by
  have h1 : roundFloat ((1000000 : ℝ) - 0) = .ok 1000000 := by
    simpa using roundFloat_int ((1000000 : ℝ) - 0) 1000000 (by norm_num) (by norm_num)
  have h2 : roundFloat ((1000000 : ℝ) / 1) = .ok 1000000 := by
    simpa using roundFloat_int ((1000000 : ℝ) / 1) 1000000 (by norm_num) (by norm_num)
  have h3 : roundFloat ((1 : ℝ) / 1) = .ok 1 := by
    simpa using roundFloat_int ((1 : ℝ) / 1) 1 (by norm_num) (by norm_num)
  have h4 : roundDouble ((1 : ℝ) + 1 / 2) = .ok (3 / 2) :=
    roundDouble_grid _ _ 3 (-1) (by norm_num) (by norm_num) (by norm_num [abs_lt])
      (by norm_num) (by norm_num)
  have hq : floatQuotient (0 : ℝ) 1000000 1 = .ok 1000000 :=
    (floatQuotient_ok_iff _ _ _ _).2 ⟨1000000, h1, h2⟩
  have hl : levelSum (1 : ℝ) 1 = .ok (3 / 2) := (levelSum_ok_iff _ _ _).2 ⟨1, h3, h4⟩
  have ht : toInt (3 / 2 : ℝ) = 1 := by norm_num [toInt]
  have hval : InitializeM (0 : ℝ) 0 1000000 1000000 1 1 = .error .undefined := by
    unfold InitializeM
    rw [if_pos (by norm_num), if_pos (by norm_num), hq, ok_bind, ceil_million,
      intChecked_of_range _ (by norm_num), ok_bind, ok_bind,
      intChecked_of_range _ (by norm_num), ok_bind, hl, ok_bind, ht,
      intChecked_of_range _ (by norm_num), ok_bind,
      intChecked_of_not_range _ (by norm_num), error_bind]
  refine ⟨by norm_num, hval, ?_⟩
  rintro ⟨p, hp⟩
  rw [hval] at hp
  cases hp

/-- C19, as the code has it: for a non-degenerate rectangle, `cell_size > 0` and `max_dist ≥ 0`,
an index that `initialize` returns has `dim_x` and `dim_y` the ceilings of the two `float`
quotients (difference and quotient each rounded to `float`), `search_levels` the floor of the
level sum (the `float` quotient `max_dist / cell_size` plus `0.5`, in `double`), and a cell table
of exactly `dim_x * dim_y` entries, all null; `initialize` returns such an index whenever these
numbers and the product `dim_x * dim_y` are values of `int`; the quotients and the level sum
are `(x1 - x0) / cell_size`, `(y1 - y0) / cell_size` and `max_dist / cell_size + 1 / 2`
whenever the operations that form them are exact; and `initialize` returns, with at most
`32768` by `32768` cells and `2 ^ 30` levels, when `max_dist` is at most `2 ^ 30` cell sizes and
both sides of the rectangle are at most a power of two `2 ^ a`, `-149 ≤ a ≤ 127`, that is at
most `32768` cell sizes. -/
theorem InitializeM_parameters (x0 y0 x1 y1 cell_size max_dist : K) (hx : x0 < x1)
    (hy : y0 < y1) (hc : 0 < cell_size) (hd : 0 ≤ max_dist) :
    (∀ p, InitializeM x0 y0 x1 y1 cell_size max_dist = .ok p →
      ∃ across along levels : K, floatQuotient x0 x1 cell_size = .ok across ∧
        floatQuotient y0 y1 cell_size = .ok along ∧
        levelSum max_dist cell_size = .ok levels ∧
        p.dim_x = ⌈across⌉ ∧ p.dim_y = ⌈along⌉ ∧ p.search_levels = ⌊levels⌋ ∧
        (p.cells.length : Int) = p.dim_x * p.dim_y ∧ (∀ c ∈ p.cells, c = none)) ∧
    (∀ across along levels : K, floatQuotient x0 x1 cell_size = .ok across →
      floatQuotient y0 y1 cell_size = .ok along → levelSum max_dist cell_size = .ok levels →
      ⌈across⌉ ≤ 2147483647 → ⌈along⌉ ≤ 2147483647 → ⌊levels⌋ ≤ 2147483647 →
      ⌈across⌉ * ⌈along⌉ ≤ 2147483647 →
      ∃ p, InitializeM x0 y0 x1 y1 cell_size max_dist = .ok p) ∧
    (roundFloat (x1 - x0) = .ok (x1 - x0) →
      roundFloat ((x1 - x0) / cell_size) = .ok ((x1 - x0) / cell_size) →
      floatQuotient x0 x1 cell_size = .ok ((x1 - x0) / cell_size)) ∧
    (roundFloat (y1 - y0) = .ok (y1 - y0) →
      roundFloat ((y1 - y0) / cell_size) = .ok ((y1 - y0) / cell_size) →
      floatQuotient y0 y1 cell_size = .ok ((y1 - y0) / cell_size)) ∧
    (roundFloat (max_dist / cell_size) = .ok (max_dist / cell_size) →
      roundDouble (max_dist / cell_size + 1 / 2) = .ok (max_dist / cell_size + 1 / 2) →
      levelSum max_dist cell_size = .ok (max_dist / cell_size + 1 / 2)) ∧
    (∀ a : Int, (-149 ≤ a ∧ a ≤ 127) → (x1 - x0 ≤ 2 ^ a ∧ y1 - y0 ≤ 2 ^ a) →
      (2 : K) ^ a ≤ 32768 * cell_size → max_dist ≤ 1073741824 * cell_size →
      ∃ p, InitializeM x0 y0 x1 y1 cell_size max_dist = .ok p ∧
        (p.dim_x ≤ 32768 ∧ p.dim_y ≤ 32768 ∧ p.search_levels ≤ 1073741824)) := by
  refine ⟨?_, ?_, ?_, ?_, ?_, ?_⟩
  · intro p hp
    obtain ⟨across, along, levels, hA, hB, hL, h1, h2, h3, h4, rfl⟩ :=
      (InitializeM_ok_iff x0 y0 x1 y1 cell_size max_dist ⟨hx, hy⟩ hc p).1 hp
    have ha := floatQuotient_nonneg _ _ _ _ hA hx.le hc
    have hb := floatQuotient_nonneg _ _ _ _ hB hy.le hc
    have hl := levelSum_nonneg _ _ _ hL hd hc
    have hca : 0 ≤ ⌈across⌉ := Int.ceil_nonneg ha
    have hcb : 0 ≤ ⌈along⌉ := Int.ceil_nonneg hb
    refine ⟨across, along, levels, hA, hB, hL, rfl, rfl, ?_, ?_, ?_⟩
    · exact toInt_of_nonneg hl
    · simp only [List.length_replicate]
      exact Int.toNat_of_nonneg (mul_nonneg hca hcb)
    · intro c hcm
      exact List.eq_of_mem_replicate hcm
  · intro across along levels hA hB hL h1 h2 h3 h4
    have ha := floatQuotient_nonneg _ _ _ _ hA hx.le hc
    have hb := floatQuotient_nonneg _ _ _ _ hB hy.le hc
    have hl := levelSum_nonneg _ _ _ hL hd hc
    have hca : 0 ≤ ⌈across⌉ := Int.ceil_nonneg ha
    have hcb : 0 ≤ ⌈along⌉ := Int.ceil_nonneg hb
    have hfl : toInt levels = ⌊levels⌋ := toInt_of_nonneg hl
    have hcl : 0 ≤ ⌊levels⌋ := Int.floor_nonneg.mpr hl
    have hm := mul_nonneg hca hcb
    exact ⟨_, (InitializeM_ok_iff x0 y0 x1 y1 cell_size max_dist ⟨hx, hy⟩ hc _).2
      ⟨across, along, levels, hA, hB, hL, ⟨by omega, h1⟩, ⟨by omega, h2⟩,
        ⟨by rw [hfl]; omega, by rw [hfl]; exact h3⟩, ⟨by omega, h4⟩, rfl⟩⟩
  · intro h1 h2
    exact (floatQuotient_ok_iff _ _ _ _).2 ⟨_, h1, h2⟩
  · intro h1 h2
    exact (floatQuotient_ok_iff _ _ _ _).2 ⟨_, h1, h2⟩
  · intro h1 h2
    exact (levelSum_ok_iff _ _ _).2 ⟨_, h1, h2⟩
  · intro a ha hs hcell hmax
    exact InitializeM_returns x0 y0 x1 y1 cell_size max_dist a hx hy hc hd ha hs.1 hs.2 hcell
      hmax

/-- Witness of C19: `initialize(0, 0, 2, 2, 1, 1)` on the real numbers. -/
theorem InitializeM_parameters_witness :
    ((0 : ℝ) < 2 ∧ (0 : ℝ) < 2 ∧ (0 : ℝ) < 1 ∧ (0 : ℝ) ≤ 1) ∧
      ∃ across along levels : ℝ, floatQuotient (0 : ℝ) 2 1 = .ok across ∧
        floatQuotient (0 : ℝ) 2 1 = .ok along ∧ levelSum (1 : ℝ) 1 = .ok levels ∧
        fourCells.dim_x = ⌈across⌉ ∧ fourCells.dim_y = ⌈along⌉ ∧
        fourCells.search_levels = ⌊levels⌋ ∧
        (fourCells.cells.length : Int) = fourCells.dim_x * fourCells.dim_y ∧
        (∀ c ∈ fourCells.cells, c = none) :=
  ⟨by norm_num,
    (InitializeM_parameters (0 : ℝ) 0 2 2 1 1 (by norm_num) (by norm_num) (by norm_num)
      (by norm_num)).1 fourCells fourCells_builtM⟩

/-- The number `0.3` rounded to `float`. -/
theorem float03_rounds : roundFloat (3 / 10 : ℝ) = .ok float03 :=
  roundFloat_pos (3 / 10) (-2) 10066330 float03 (by norm_num) (by norm_num) (by norm_num)
    (by norm_num) (by norm_num) (by norm_num) (by norm_num) (by norm_num [float03])

/-- The number `0.1` rounded to `float`. -/
theorem float01_rounds : roundFloat (1 / 10 : ℝ) = .ok float01 :=
  roundFloat_pos (1 / 10) (-4) 13421773 float01 (by norm_num) (by norm_num) (by norm_num)
    (by norm_num) (by norm_num) (by norm_num) (by norm_num) (by norm_num [float01])

/-- The index that `initialize(0, 0, 0.3f, 0.3f, 0.1f, 0.25f)` builds: the `float` quotient
`0.3f / 0.1f` is `3` and the `float` quotient `0.25f / 0.1f` is `2.5`. -/
theorem Initialize_rounded_example :
    InitializeM (0 : ℝ) 0 float03 float03 float01 (1 / 4) =
      .ok { world_x0 := 0, world_y0 := 0, world_x1 := float03, world_y1 := float03,
            search_levels := 3, dim_x := 3, dim_y := 3, cell_size := float01,
            cells := List.replicate 9 none } := by
  have h1 : roundFloat (float03 - 0) = .ok float03 :=
    roundFloat_grid _ _ 5033165 (-24) (by norm_num) (by norm_num [float03])
      (by norm_num [float03, abs_lt]) (by norm_num) (by norm_num)
  have h2 : roundFloat (float03 / float01) = .ok 3 :=
    roundFloat_pos _ 1 12582912 3 (by norm_num [float03, float01])
      (by norm_num [float03, float01]) (by norm_num) (by norm_num)
      (by norm_num [float03, float01])
      (by norm_num [float03, float01]) (by norm_num) (by norm_num)
  have h3 : roundFloat ((1 / 4 : ℝ) / float01) = .ok (5 / 2) :=
    roundFloat_pos _ 1 10485760 (5 / 2) (by norm_num [float01])
      (by norm_num [float01]) (by norm_num) (by norm_num) (by norm_num [float01])
      (by norm_num [float01]) (by norm_num) (by norm_num)
  have h4 : roundDouble ((5 / 2 : ℝ) + 1 / 2) = .ok 3 :=
    roundDouble_grid _ _ 3 0 (by norm_num) (by norm_num) (by norm_num [abs_lt]) (by norm_num)
      (by norm_num)
  have hq : floatQuotient (0 : ℝ) float03 float01 = .ok 3 :=
    (floatQuotient_ok_iff _ _ _ _).2 ⟨_, h1, h2⟩
  have hl : levelSum (1 / 4 : ℝ) float01 = .ok 3 := (levelSum_ok_iff _ _ _).2 ⟨_, h3, h4⟩
  have hc : ⌈(3 : ℝ)⌉ = 3 := by simp
  have ht : toInt (3 : ℝ) = 3 := by norm_num [toInt]
  rw [InitializeM_ok_iff (0 : ℝ) 0 float03 float03 float01 (1 / 4) (by norm_num [float03])
    (by norm_num [float01])]
  refine ⟨3, 3, 3, hq, hq, hl, ?_, ?_, ?_, ?_, ?_⟩
  · rw [hc]; norm_num
  · rw [hc]; norm_num
  · rw [ht]; norm_num
  · rw [hc]; norm_num
  · rw [hc, ht]
    rfl

/-- Counterexample to C19: `0.3f`, `0.1f` and `0.25f` are values of `float`, the rectangle from
`(0, 0)` to `(0.3f, 0.3f)` is not degenerate, and `initialize(0, 0, 0.3f, 0.3f, 0.1f, 0.25f)`
returns a grid of `3` by `3` cells searched over `3` levels, although
`ceil((x1 - x0) / cell_size) = 4` and `round(max_dist / cell_size) = 2`. -/
theorem Initialize_rounded_counterexample :
    (roundFloat (3 / 10 : ℝ) = .ok float03 ∧ roundFloat (1 / 10 : ℝ) = .ok float01) ∧
      ((0 : ℝ) < float03 ∧ 0 < float01 ∧ (0 : ℝ) ≤ 1 / 4) ∧
      ∃ p, InitializeM (0 : ℝ) 0 float03 float03 float01 (1 / 4) = .ok p ∧
        (p.dim_x = 3 ∧ ⌈(float03 - 0) / float01⌉ = 4) ∧
        (p.dim_y = 3 ∧ ⌈(float03 - 0) / float01⌉ = 4) ∧
        (p.search_levels = 3 ∧ ⌊(1 / 4 : ℝ) / float01 + 1 / 2⌋ = 2) ∧
        p.cells.length = 9 := by
  refine ⟨⟨float03_rounds, float01_rounds⟩, by norm_num [float03, float01], _,
    Initialize_rounded_example, ⟨rfl, ?_⟩, ⟨rfl, ?_⟩, ⟨rfl, ?_⟩, rfl⟩
  · rw [Int.ceil_eq_iff]
    norm_num [float03, float01]
  · rw [Int.ceil_eq_iff]
    norm_num [float03, float01]
  · rw [Int.floor_eq_iff]
    norm_num [float03, float01]

/-! ## `addPointObject` in machine arithmetic -/

theorem cellCoordinate_ok_iff (round : K → Except Fault K) (a origin cell_size : K) (i : Int) :
    cellCoordinate round a origin cell_size = .ok i ↔
      cell_size ≠ 0 ∧ ∃ offset quotient, round (a - origin) = .ok offset ∧
        round (offset / cell_size) = .ok quotient ∧
        (-2147483648 ≤ toInt quotient ∧ toInt quotient ≤ 2147483647) ∧ i = toInt quotient := by
  unfold cellCoordinate
  cases h1 : round (a - origin) with
  | error f =>
    rw [error_bind]
    constructor
    · intro h
      cases h
    · rintro ⟨_, _, _, h, _⟩
      cases h
  | ok offset =>
    rw [ok_bind]
    by_cases hc : cell_size = 0
    · rw [if_pos hc]
      constructor
      · intro h
        cases h
      · rintro ⟨h, _⟩
        exact absurd hc h
    · rw [if_neg hc]
      cases h2 : round (offset / cell_size) with
      | error f =>
        rw [error_bind]
        constructor
        · intro h
          cases h
        · rintro ⟨_, o, _, ho, h, _⟩
          injection ho with ho
          rw [← ho, h2] at h
          cases h
      | ok quotient =>
        rw [ok_bind, intChecked_ok_iff]
        constructor
        · rintro ⟨hr, hi⟩
          exact ⟨hc, offset, quotient, rfl, h2, hr, hi⟩
        · rintro ⟨_, o, qt, ho, hq, hr, hi⟩
          injection ho with ho
          rw [← ho, h2] at hq
          injection hq with hq
          rw [← hq] at hr hi
          exact ⟨hr, hi⟩

/-- Evaluation of a cell coordinate from the results of its two operations. -/
theorem cellCoordinate_eval (round : K → Except Fault K) (a origin cell_size offset quotient : K)
    (i : Int) (hc : cell_size ≠ 0) (h1 : round (a - origin) = .ok offset)
    (h2 : round (offset / cell_size) = .ok quotient) (hi : toInt quotient = i)
    (hr : -2147483648 ≤ i ∧ i ≤ 2147483647) :
    cellCoordinate round a origin cell_size = .ok i :=
  (cellCoordinate_ok_iff round a origin cell_size i).2
    ⟨hc, offset, quotient, h1, h2, by rw [hi]; exact hr, hi.symm⟩

/-- On an index whose cell table has `dim_x * dim_y` entries, a number of `int`, the index of a
cell of the grid is computed without overflow and lies in the table. -/
theorem cellIndexM_of_range (p : Partition2D K) (hs : p.Sized) (i j : Int)
    (hi : 0 ≤ i ∧ i < p.dim_x) (hj : 0 ≤ j ∧ j < p.dim_y) :
    p.cellIndexM i j = .ok (p.cellIndex i j) ∧
      (0 ≤ p.cellIndex i j ∧ p.cellIndex i j < p.cells.length) := by
  obtain ⟨hdx, hdy, hlen, hmax⟩ := hs
  have hr := cellIndex_range p.dim_x p.dim_y i j hi hj
  have h1 : 0 ≤ j * p.dim_x := mul_nonneg hj.1 hdx
  unfold Partition2D.cellIndexM Partition2D.cellIndex
  rw [intChecked_of_range _ (by omega), ok_bind, intChecked_of_range _ (by omega)]
  exact ⟨rfl, by omega⟩

/-- The effect of `addPointObject` in machine arithmetic: when the column `i` and the row `j`
that it computes give an index `n` of the cell table, the object is appended to the entry `n`
and no other entry changes. -/
theorem addPointObjectM_effect (p : Partition2D K) (q : single_landmark_s K) (i j n : Int)
    (hi : cellCoordinate roundFloat q.x p.world_x0 p.cell_size = .ok i)
    (hj : cellCoordinate roundFloat q.y p.world_y0 p.cell_size = .ok j)
    (hn : p.cellIndexM i j = .ok n) (hr : 0 ≤ n ∧ n < p.cells.length) :
    ∃ cells, addPointObjectM p q = .ok { p with cells := cells } ∧
      cells.length = p.cells.length ∧
      cells[n.toNat]? = some (some ((p.cells.getD n.toNat none).getD [] ++ [q])) ∧
      ∀ k, k ≠ n.toNat → cells[k]? = p.cells[k]? := by
  have hnat : n.toNat < p.cells.length := by omega
  have hadd : ∀ k : Nat, k = n.toNat →
      addPointObjectM p q =
        match p.cells.getD k none with
        | none => .ok { p with cells := p.cells.set k (some [q]) }
        | some objects => .ok { p with cells := p.cells.set k (some (objects ++ [q])) } := by
    intro k hk
    subst hk
    unfold addPointObjectM
    rw [hi, ok_bind, hj, ok_bind, hn, ok_bind, if_pos hr]
    rfl
  rw [hadd _ rfl]
  cases hc : p.cells.getD n.toNat none with
  | none =>
    refine ⟨_, rfl, by simp, ?_, ?_⟩
    · rw [List.getElem?_set, if_pos rfl, if_pos hnat]
      rfl
    · intro k hk
      rw [List.getElem?_set, if_neg (Ne.symm hk)]
  | some objects =>
    refine ⟨_, rfl, by simp, ?_, ?_⟩
    · rw [List.getElem?_set, if_pos rfl, if_pos hnat]
      rfl
    · intro k hk
      rw [List.getElem?_set, if_neg (Ne.symm hk)]

/-- C15, as the code has it: on an index in the state that `initialize` leaves (a cell table of
`dim_x * dim_y` entries), for every object whose column `i` and row `j`, computed in `float` as
the truncation of `(x - x0) / cell_size` and of `(y - y0) / cell_size` with the difference and
the quotient each rounded, are a column and a row of the grid, `addPointObject` returns, keeps
that state, appends the object to the cell of column `i` and row `j`, and leaves the contents of
every other cell of the grid unchanged. -/
theorem addPointObjectM_placement (p : Partition2D K) (q : single_landmark_s K) (i j : Int)
    (hs : p.Sized) (hi : cellCoordinate roundFloat q.x p.world_x0 p.cell_size = .ok i)
    (hj : cellCoordinate roundFloat q.y p.world_y0 p.cell_size = .ok j)
    (hgi : 0 ≤ i ∧ i < p.dim_x) (hgj : 0 ≤ j ∧ j < p.dim_y) :
    (∃ p', addPointObjectM p q = .ok p' ∧ p'.Sized ∧
      (p'.dim_x = p.dim_x ∧ p'.dim_y = p.dim_y) ∧
      p'.objectsAt i j = p.objectsAt i j ++ [q] ∧
      ∀ i' j', (0 ≤ i' ∧ i' < p.dim_x) → (0 ≤ j' ∧ j' < p.dim_y) →
        ¬ (i' = i ∧ j' = j) → p'.objectsAt i' j' = p.objectsAt i' j') ∧
    (p.world_x0 ≤ q.x → 0 < p.cell_size →
      roundFloat (q.x - p.world_x0) = .ok (q.x - p.world_x0) →
      roundFloat ((q.x - p.world_x0) / p.cell_size) = .ok ((q.x - p.world_x0) / p.cell_size) →
      i = ⌊(q.x - p.world_x0) / p.cell_size⌋) ∧
    (p.world_y0 ≤ q.y → 0 < p.cell_size →
      roundFloat (q.y - p.world_y0) = .ok (q.y - p.world_y0) →
      roundFloat ((q.y - p.world_y0) / p.cell_size) = .ok ((q.y - p.world_y0) / p.cell_size) →
      j = ⌊(q.y - p.world_y0) / p.cell_size⌋) := by
  have hfloor : ∀ (a origin : K) (k : Int),
      cellCoordinate roundFloat a origin p.cell_size = .ok k → origin ≤ a → 0 < p.cell_size →
      roundFloat (a - origin) = .ok (a - origin) →
      roundFloat ((a - origin) / p.cell_size) = .ok ((a - origin) / p.cell_size) →
      k = ⌊(a - origin) / p.cell_size⌋ := by
    intro a origin k hk hle hc h1 h2
    obtain ⟨_, o, qt, ho, hq, _, hkq⟩ := (cellCoordinate_ok_iff _ _ _ _ _).1 hk
    rw [h1] at ho
    injection ho with ho
    rw [← ho, h2] at hq
    injection hq with hq
    rw [← hq] at hkq
    rw [hkq]
    exact toInt_of_nonneg (div_nonneg (by linarith) hc.le)
  refine ⟨?_, hfloor _ _ _ hi, hfloor _ _ _ hj⟩
  obtain ⟨hn, hr⟩ := cellIndexM_of_range p hs i j hgi hgj
  obtain ⟨cells, hadd, hclen, hat, hother⟩ := addPointObjectM_effect p q i j _ hi hj hn hr
  obtain ⟨hdx, hdy, hlen, hmax⟩ := hs
  refine ⟨_, hadd, ⟨hdx, hdy, ?_, hmax⟩, ⟨rfl, rfl⟩, ?_, ?_⟩
  · show ((cells.length : Nat) : Int) = p.dim_x * p.dim_y
    rw [hclen]
    exact hlen
  · rw [objectsAt_set, List.getD_eq_getElem?_getD]
    have hat2 : cells[(i + j * p.dim_x).toNat]? = _ := hat
    rw [hat2]
    rfl
  · intro i' j' hi' hj' hne
    have hr2 := cellIndex_range p.dim_x p.dim_y i' j' hi' hj'
    have hr3 := cellIndex_range p.dim_x p.dim_y i j hgi hgj
    have hk : (i' + j' * p.dim_x).toNat ≠ (p.cellIndex i j).toNat := by
      intro heq
      have heq2 : i' + j' * p.dim_x = i + j * p.dim_x := by
        unfold Partition2D.cellIndex at heq
        omega
      exact hne (cellIndex_inj p.dim_x _ _ _ _ hi' hgi heq2)
    rw [objectsAt_set, List.getD_eq_getElem?_getD, hother _ hk]
    unfold Partition2D.objectsAt Partition2D.cell Partition2D.cellIndex
    rw [List.getD_eq_getElem?_getD]

theorem fourCells_sized : fourCells.Sized := by
  simp [Partition2D.Sized, fourCells]

/-- The halves of the integers up to `2 ^ 23` in absolute value are values of `float`. -/
theorem roundFloat_half (q : K) (n : Int) (hq : q = n / 2) (hn : -16777216 < n ∧ n < 16777216) :
    roundFloat q = .ok q := by
  have h2 : (2 : K) ^ (-1 : Int) = 1 / 2 := by norm_num
  have h23 : (2 : K) ^ ((-1 : Int) + 24) = 8388608 := by norm_num
  apply roundFloat_grid q q n (-1) rfl (by rw [hq, h2]; ring) _ (by norm_num) (by norm_num)
  rw [h23, hq, abs_lt]
  have h1 : ((-16777216 : Int) : K) < n := by exact_mod_cast hn.1
  have h3 : (n : K) < ((16777216 : Int) : K) := by exact_mod_cast hn.2
  push_cast at h1 h3
  constructor <;> linarith

/-- The insertion in the index of four cells of a point on the right border of the rectangle, in
machine arithmetic. -/
theorem fourCells_add_borderM :
    addPointObjectM fourCells { id := 9, x := 2, y := 1 / 2 } =
      .ok { fourCells with
        cells := [none, none, some [{ id := 9, x := 2, y := 1 / 2 }], none] } := by
  have hx : cellCoordinate roundFloat (2 : ℝ) fourCells.world_x0 fourCells.cell_size = .ok 2 :=
    cellCoordinate_eval roundFloat _ _ _ 2 2 2 (by norm_num [fourCells])
      (by simpa [fourCells] using roundFloat_int ((2 : ℝ) - 0) 2 (by norm_num) (by norm_num))
      (by simpa [fourCells] using roundFloat_int ((2 : ℝ) / 1) 2 (by norm_num) (by norm_num))
      (by norm_num [toInt]) (by norm_num)
  have hy : cellCoordinate roundFloat (1 / 2 : ℝ) fourCells.world_y0 fourCells.cell_size =
      .ok 0 :=
    cellCoordinate_eval roundFloat _ _ _ (1 / 2) (1 / 2) 0 (by norm_num [fourCells])
      (by
        have := roundFloat_half ((1 / 2 : ℝ) - 0) 1 (by norm_num) (by norm_num)
        simpa [fourCells] using this)
      (by
        have := roundFloat_half ((1 / 2 : ℝ) / 1) 1 (by norm_num) (by norm_num)
        simpa [fourCells] using this)
      (by norm_num [toInt]) (by norm_num)
  have hn : fourCells.cellIndexM 2 0 = .ok 2 := by
    unfold Partition2D.cellIndexM
    rw [intChecked_of_range _ (by norm_num [fourCells]), ok_bind,
      intChecked_of_range _ (by norm_num [fourCells])]
    norm_num [fourCells]
  unfold addPointObjectM
  dsimp only
  rw [hx, ok_bind, hy, ok_bind, hn, ok_bind, if_pos (by norm_num [fourCells])]
  simp [fourCells, toNat_two]
  rfl

/-- Witness of C15: the point `(3/2, 1/2)` in the index of four cells, whose column `1` and row
`0` are computed without rounding. -/
theorem addPointObjectM_placement_witness :
    fourCells.Sized ∧
      cellCoordinate roundFloat (3 / 2 : ℝ) fourCells.world_x0 fourCells.cell_size = .ok 1 ∧
      cellCoordinate roundFloat (1 / 2 : ℝ) fourCells.world_y0 fourCells.cell_size = .ok 0 ∧
      ((0 : Int) ≤ 1 ∧ 1 < fourCells.dim_x) ∧ ((0 : Int) ≤ 0 ∧ 0 < fourCells.dim_y) ∧
      ∃ p', addPointObjectM fourCells { id := 9, x := 3 / 2, y := 1 / 2 } = .ok p' ∧
        p'.Sized ∧ (p'.dim_x = fourCells.dim_x ∧ p'.dim_y = fourCells.dim_y) ∧
        p'.objectsAt 1 0 = fourCells.objectsAt 1 0 ++ [{ id := 9, x := 3 / 2, y := 1 / 2 }] ∧
        ∀ i' j', (0 ≤ i' ∧ i' < fourCells.dim_x) → (0 ≤ j' ∧ j' < fourCells.dim_y) →
          ¬ (i' = 1 ∧ j' = 0) → p'.objectsAt i' j' = fourCells.objectsAt i' j' :=
  have hx : cellCoordinate roundFloat (3 / 2 : ℝ) fourCells.world_x0 fourCells.cell_size =
      .ok 1 :=
    cellCoordinate_eval roundFloat _ _ _ (3 / 2) (3 / 2) 1 (by norm_num [fourCells])
      (by
        have := roundFloat_half ((3 / 2 : ℝ) - 0) 3 (by norm_num) (by norm_num)
        simpa [fourCells] using this)
      (by
        have := roundFloat_half ((3 / 2 : ℝ) / 1) 3 (by norm_num) (by norm_num)
        simpa [fourCells] using this)
      (by norm_num [toInt]) (by norm_num)
  have hy : cellCoordinate roundFloat (1 / 2 : ℝ) fourCells.world_y0 fourCells.cell_size =
      .ok 0 :=
    cellCoordinate_eval roundFloat _ _ _ (1 / 2) (1 / 2) 0 (by norm_num [fourCells])
      (by
        have := roundFloat_half ((1 / 2 : ℝ) - 0) 1 (by norm_num) (by norm_num)
        simpa [fourCells] using this)
      (by
        have := roundFloat_half ((1 / 2 : ℝ) / 1) 1 (by norm_num) (by norm_num)
        simpa [fourCells] using this)
      (by norm_num [toInt]) (by norm_num)
  have hi : (0 : Int) ≤ 1 ∧ 1 < fourCells.dim_x := by norm_num [fourCells]
  have hj : (0 : Int) ≤ 0 ∧ 0 < fourCells.dim_y := by norm_num [fourCells]
  ⟨fourCells_sized, hx, hy, hi, hj,
    (addPointObjectM_placement fourCells { id := 9, x := 3 / 2, y := 1 / 2 } 1 0
      fourCells_sized hx hy hi hj).1⟩

/-! ## The cell of a point in `float` and in `double` -/

/-- The number `4.7` rounded to `float`. -/
theorem float47_rounds : roundFloat (47 / 10 : ℝ) = .ok float47 :=
  roundFloat_pos (47 / 10) 2 9856614 float47 (by norm_num) (by norm_num) (by norm_num)
    (by norm_num) (by norm_num) (by norm_num) (by norm_num) (by norm_num [float47])

theorem toNat_six : Int.toNat 6 = 6 := rfl

/-- The index of six cells is what `initialize(-0.3f, 0, 10, 10, 5, 50)` builds. -/
theorem sixCells_built : InitializeM (-float03) 0 10 10 5 50 = .ok sixCells := by
  have h1 : roundFloat ((10 : ℝ) - -float03) = .ok (10800333 / 1048576) :=
    roundFloat_pos _ 3 10800333 _ (by norm_num [float03]) (by norm_num [float03])
      (by norm_num) (by norm_num) (by norm_num [float03]) (by norm_num [float03])
      (by norm_num) (by norm_num)
  have h2 : roundFloat ((10800333 / 1048576 : ℝ) / 5) = .ok (4320133 / 2097152) :=
    roundFloat_pos _ 1 8640266 _ (by norm_num) (by norm_num)
      (by norm_num) (by norm_num) (by norm_num) (by norm_num)
      (by norm_num) (by norm_num)
  have h3 : roundFloat ((10 : ℝ) - 0) = .ok 10 := by
    simpa using roundFloat_int ((10 : ℝ) - 0) 10 (by norm_num) (by norm_num)
  have h4 : roundFloat ((10 : ℝ) / 5) = .ok 2 := by
    simpa using roundFloat_int ((10 : ℝ) / 5) 2 (by norm_num) (by norm_num)
  have h5 : roundFloat ((50 : ℝ) / 5) = .ok 10 := by
    simpa using roundFloat_int ((50 : ℝ) / 5) 10 (by norm_num) (by norm_num)
  have h6 : roundDouble ((10 : ℝ) + 1 / 2) = .ok (21 / 2) :=
    roundDouble_grid _ _ 21 (-1) (by norm_num) (by norm_num) (by norm_num [abs_lt])
      (by norm_num) (by norm_num)
  have hqx : floatQuotient (-float03) 10 5 = .ok (4320133 / 2097152) :=
    (floatQuotient_ok_iff _ _ _ _).2 ⟨_, h1, h2⟩
  have hqy : floatQuotient (0 : ℝ) 10 5 = .ok 2 := (floatQuotient_ok_iff _ _ _ _).2 ⟨_, h3, h4⟩
  have hl : levelSum (50 : ℝ) 5 = .ok (21 / 2) := (levelSum_ok_iff _ _ _).2 ⟨_, h5, h6⟩
  have hcx : ⌈(4320133 / 2097152 : ℝ)⌉ = 3 := by
    rw [Int.ceil_eq_iff]
    norm_num
  have hcy : ⌈(2 : ℝ)⌉ = 2 := by simp
  have ht : toInt (21 / 2 : ℝ) = 10 := by norm_num [toInt]
  rw [InitializeM_ok_iff (-float03) 0 10 10 5 50 (by norm_num [float03]) (by norm_num)]
  refine ⟨_, _, _, hqx, hqy, hl, ?_, ?_, ?_, ?_, ?_⟩
  · rw [hcx]; norm_num
  · rw [hcy]; norm_num
  · rw [ht]; norm_num
  · rw [hcx, hcy]; norm_num
  · rw [hcx, hcy, ht]
    simp [sixCells, toNat_six]

/-- In `float` the landmark at `(4.7f, 0)` has column `1` on the index of six cells: the
difference `4.7f - (-0.3f)` is rounded to `5`. -/
theorem landmarkNear_column_float :
    cellCoordinate roundFloat landmarkNear.x sixCells.world_x0 sixCells.cell_size = .ok 1 :=
  cellCoordinate_eval roundFloat _ _ _ 5 1 1 (by norm_num [sixCells])
    (roundFloat_pos _ 2 10485760 _ (by norm_num [sixCells, landmarkNear, float03, float47])
      (by norm_num [sixCells, landmarkNear, float03, float47]) (by norm_num) (by norm_num)
      (by norm_num [sixCells, landmarkNear, float03, float47])
      (by norm_num [sixCells, landmarkNear, float03, float47]) (by norm_num) (by norm_num))
    (by simpa [sixCells] using roundFloat_int ((5 : ℝ) / 5) 1 (by norm_num) (by norm_num))
    (by norm_num [toInt]) (by norm_num)

/-- In `double` the same point has column `0`: the difference `4.7f - (-0.3f)` is exact and
below `5`. -/
theorem landmarkNear_column_double :
    cellCoordinate roundDouble landmarkNear.x sixCells.world_x0 sixCells.cell_size = .ok 0 :=
  cellCoordinate_eval roundDouble _ _ _ (83886077 / 16777216)
    (9007198932618445 / 9007199254740992) 0 (by norm_num [sixCells])
    (roundDouble_grid _ _ 83886077 (-24)
      (by norm_num [sixCells, landmarkNear, float03, float47]) (by norm_num)
      (by norm_num [abs_lt]) (by norm_num) (by norm_num))
    (roundDouble_pos _ (-1) 9007198932618445 _ (by norm_num [sixCells])
      (by norm_num [sixCells]) (by norm_num) (by norm_num)
      (by norm_num [sixCells]) (by norm_num [sixCells]) (by norm_num) (by norm_num))
    (by norm_num [toInt]) (by norm_num)

theorem zero_row_float (p : Partition2D ℝ) (h0 : p.world_y0 = 0) (hc : p.cell_size = 5) :
    cellCoordinate roundFloat (0 : ℝ) p.world_y0 p.cell_size = .ok 0 :=
  cellCoordinate_eval roundFloat _ _ _ 0 0 0 (by rw [hc]; norm_num)
    (by simpa [h0] using roundFloat_int ((0 : ℝ) - 0) 0 (by norm_num) (by norm_num))
    (by simpa [hc] using roundFloat_int ((0 : ℝ) / 5) 0 (by norm_num) (by norm_num))
    (by norm_num [toInt]) (by norm_num)

/-- The insertion of the landmark at `(4.7f, 0)` in the index of six cells, in machine
arithmetic: it is stored in the cell of column `1`. -/
theorem sixCells_add_near :
    addPointObjectM sixCells landmarkNear =
      .ok { sixCells with cells := [none, some [landmarkNear], none, none, none, none] } := by
  have hn : sixCells.cellIndexM 1 0 = .ok 1 := by
    unfold Partition2D.cellIndexM
    rw [intChecked_of_range _ (by norm_num [sixCells]), ok_bind,
      intChecked_of_range _ (by norm_num [sixCells])]
    norm_num [sixCells]
  unfold addPointObjectM
  rw [landmarkNear_column_float, ok_bind,
    show landmarkNear.y = 0 from rfl, zero_row_float sixCells rfl rfl, ok_bind, hn, ok_bind,
    if_pos (by norm_num [sixCells])]
  simp [sixCells]
  rfl

/-- The two insertions on the index of six cells, in machine arithmetic. -/
theorem sixCells_filled :
    addPointObjectsM sixCells [landmarkNear, landmarkCorner] = .ok sixCellsFilled := by
  have hA := sixCells_add_near
  have hcol : cellCoordinate roundFloat landmarkCorner.x sixCells.world_x0 sixCells.cell_size =
      .ok 0 :=
    cellCoordinate_eval roundFloat _ _ _ 0 0 0 (by norm_num [sixCells])
      (by
        simpa [sixCells, landmarkCorner] using
          roundFloat_int (-float03 - -float03) 0 (by norm_num) (by norm_num))
      (by simpa [sixCells] using roundFloat_int ((0 : ℝ) / 5) 0 (by norm_num) (by norm_num))
      (by norm_num [toInt]) (by norm_num)
  have hB : addPointObjectM
      { sixCells with cells := [none, some [landmarkNear], none, none, none, none] }
      landmarkCorner = .ok sixCellsFilled := by
    have hn : Partition2D.cellIndexM
        { sixCells with cells := [none, some [landmarkNear], none, none, none, none] } 0 0 =
        .ok 0 := by
      unfold Partition2D.cellIndexM
      rw [intChecked_of_range _ (by norm_num [sixCells]), ok_bind,
        intChecked_of_range _ (by norm_num [sixCells])]
      norm_num [sixCells]
    unfold addPointObjectM
    dsimp only
    rw [hcol, ok_bind, show landmarkCorner.y = 0 from rfl, zero_row_float sixCells rfl rfl,
      ok_bind, hn, ok_bind, if_pos (by norm_num [sixCells])]
    simp [sixCells, sixCellsFilled]
    rfl
  unfold addPointObjectsM
  rw [List.foldlM_cons, hA, ok_bind, List.foldlM_cons, hB, ok_bind]
  rfl

/-- The query `findNearest(4.7f, 0)` on the index of six cells with its two landmarks: in
`double` the query has column `0`, and the landmark at `(-0.3f, 0)` is returned. -/
theorem sixCells_query :
    ∃ d, findNearestM realLibm sixCellsFilled landmarkNear.x landmarkNear.y =
      .ok (some landmarkCorner, d, 1) := by
  have hx : cellCoordinate roundDouble landmarkNear.x sixCellsFilled.world_x0
      sixCellsFilled.cell_size = .ok 0 := landmarkNear_column_double
  have hy : cellCoordinate roundDouble landmarkNear.y sixCellsFilled.world_y0
      sixCellsFilled.cell_size = .ok 0 :=
    cellCoordinate_eval roundDouble _ _ _ 0 0 0 (by norm_num [sixCellsFilled])
      (roundDouble_grid _ _ 0 0 (by norm_num [sixCellsFilled, landmarkNear]) (by norm_num)
        (by norm_num) (by norm_num) (by norm_num))
      (roundDouble_grid _ _ 0 0 (by norm_num [sixCellsFilled]) (by norm_num)
        (by norm_num) (by norm_num) (by norm_num))
      (by norm_num [toInt]) (by norm_num)
  unfold findNearestM
  rw [hx, ok_bind, hy, ok_bind, intChecked_of_range _ (by norm_num), ok_bind, ok_bind]
  rw [searchLoop]
  norm_num [ringStep, scanWindow, intRange_zero_one, scanCell,
    Partition2D.cell, Partition2D.cellIndex, sixCellsFilled, scanObject, dist, square,
    landmarkNear, landmarkCorner, float03, float47]
  rw [searchLoop]
  norm_num [pure, Except.pure]

/-- Counterexample to C15: on the index that `initialize(0, 0, 2, 2, 1, 1)` builds, the point
`(2, 1/2)` lies in the closed rectangle; the differences and quotients are exact, the column
`floor((2 - 0) / 1) = 2` is not a column of the grid of two columns, and the point is stored in
the cell of column `0` and row `1`. And on the index that `initialize(-0.3f, 0, 10, 10, 5, 50)`
builds, the point `(4.7f, 0)` lies inside the rectangle and `floor((x - x0) / cell_size) = 0`,
but the difference `4.7f - (-0.3f)` is rounded to `5` in `float` and the point is stored in
the cell of column `1`, while the cell of column `0` stays empty. -/
theorem addPointObjectM_border_counterexample :
    (∃ p : Partition2D ℝ, InitializeM (0 : ℝ) 0 2 2 1 1 = .ok fourCells ∧
      ((fourCells.world_x0 ≤ 2 ∧ (2 : ℝ) ≤ fourCells.world_x1) ∧
        (fourCells.world_y0 ≤ 1 / 2 ∧ (1 / 2 : ℝ) ≤ fourCells.world_y1)) ∧
      (⌊((2 : ℝ) - fourCells.world_x0) / fourCells.cell_size⌋ = 2 ∧ fourCells.dim_x = 2) ∧
      addPointObjectM fourCells { id := 9, x := 2, y := 1 / 2 } = .ok p ∧
      { id := 9, x := 2, y := 1 / 2 } ∈ p.objectsAt 0 1 ∧
      p.objectsAt 0 1 ≠ fourCells.objectsAt 0 1) ∧
    (∃ p : Partition2D ℝ, InitializeM (-float03) 0 10 10 5 50 = .ok sixCells ∧
      ((sixCells.world_x0 ≤ landmarkNear.x ∧ landmarkNear.x < sixCells.world_x1) ∧
        (sixCells.world_y0 ≤ landmarkNear.y ∧ landmarkNear.y < sixCells.world_y1)) ∧
      (⌊(landmarkNear.x - sixCells.world_x0) / sixCells.cell_size⌋ = 0 ∧
        ⌊(landmarkNear.y - sixCells.world_y0) / sixCells.cell_size⌋ = 0) ∧
      addPointObjectM sixCells landmarkNear = .ok p ∧
      p.objectsAt 1 0 = [landmarkNear] ∧ p.objectsAt 0 0 = []) := by
  constructor
  · refine ⟨_, fourCells_builtM, by norm_num [fourCells], by norm_num [fourCells],
      fourCells_add_borderM, ?_, ?_⟩
    · simp [Partition2D.objectsAt, Partition2D.cell, Partition2D.cellIndex, fourCells, toNat_two]
    · simp [Partition2D.objectsAt, Partition2D.cell, Partition2D.cellIndex, fourCells, toNat_two]
  · refine ⟨_, sixCells_built, by norm_num [sixCells, landmarkNear, float03, float47], ?_,
      sixCells_add_near, ?_, ?_⟩
    · constructor
      · rw [Int.floor_eq_iff]
        norm_num [sixCells, landmarkNear, float03, float47]
      · norm_num [sixCells, landmarkNear]
    · simp [Partition2D.objectsAt, Partition2D.cell, Partition2D.cellIndex, sixCells]
    · simp [Partition2D.objectsAt, Partition2D.cell, Partition2D.cellIndex, sixCells]

/-! ## Cells of size five on integer coordinates -/

/-- The quotient by five of an integer `k` from `0` to `200000`, rounded to a binary format of
at least 24 bits: the rounding crosses no multiple of `1/8`, so it has the floor and the ceiling
of `k / 5`. -/
theorem roundValue_fifth (prec : Nat) (emin : Int) (k : Int) (hk : 0 ≤ k ∧ k ≤ 200000)
    (hp : 24 ≤ prec) (he : emin ≤ -126) :
    ⌊roundValue prec emin ((k : K) / 5)⌋ = ⌊(k : K) / 5⌋ ∧
      ⌈roundValue prec emin ((k : K) / 5)⌉ = ⌈(k : K) / 5⌉ ∧
      0 ≤ roundValue prec emin ((k : K) / 5) ∧ roundValue prec emin ((k : K) / 5) ≤ 40000 := by
  have h8 : (2 : K) ^ (-3 : Int) = 1 / 8 := by norm_num
  have hq0 : (0 : K) ≤ (k : K) / 5 := by
    have : (0 : K) ≤ k := by exact_mod_cast hk.1
    positivity
  have hq1 : (k : K) / 5 ≤ 40000 := by
    have : (k : K) ≤ 200000 := by exact_mod_cast hk.2
    linarith
  have hlt : |(k : K) / 5| < 2 ^ ((-3 : Int) + prec) := by
    rw [abs_of_nonneg hq0]
    have h21 : (2 : K) ^ (21 : Int) ≤ 2 ^ ((-3 : Int) + prec) :=
      zpow_le_zpow_right₀ (by norm_num) (by omega)
    have : (2 : K) ^ (21 : Int) = 2097152 := by norm_num
    linarith
  have hemin : emin - ((prec : Int) - 1) ≤ -3 := by omega
  have hup : ∀ N : Int, (k : K) / 5 ≤ N / 8 → roundValue prec emin ((k : K) / 5) ≤ N / 8 := by
    intro N hN
    have := roundValue_le_of_le prec emin ((k : K) / 5) N (-3) hlt hemin (by rw [h8]; linarith)
    rw [h8] at this
    linarith
  have hlo : ∀ N : Int, (N : K) / 8 ≤ (k : K) / 5 → (N : K) / 8 ≤ roundValue prec emin ((k : K) / 5) := by
    intro N hN
    have := le_roundValue_of_le prec emin ((k : K) / 5) N (-3) hlt hemin (by rw [h8]; linarith)
    rw [h8] at this
    linarith
  have hdiv := Int.emod_add_ediv k 5
  have hmod0 := Int.emod_nonneg k (by norm_num : (5 : Int) ≠ 0)
  have hmod5 := Int.emod_lt_of_pos k (by norm_num : (0 : Int) < 5)
  have hkK : (k : K) = ((k % 5 : Int) : K) + 5 * ((k / 5 : Int) : K) := by
    exact_mod_cast hdiv.symm
  have hn0 : 0 ≤ k / 5 := Int.ediv_nonneg hk.1 (by norm_num)
  have hr0 : 0 ≤ roundValue prec emin ((k : K) / 5) := roundValue_nonneg _ _ _ hq0
  have hr1 : roundValue prec emin ((k : K) / 5) ≤ 40000 := by
    have := hup 320000 (by push_cast; linarith)
    push_cast at this
    linarith
  have hfl : ⌊(k : K) / 5⌋ = k / 5 := by
    rw [Int.floor_eq_iff]
    have hm4 : ((k % 5 : Int) : K) ≤ 4 := by
      have : k % 5 ≤ 4 := by omega
      exact_mod_cast this
    have hm0 : (0 : K) ≤ ((k % 5 : Int) : K) := by exact_mod_cast hmod0
    constructor <;> linarith
  refine ⟨?_, ?_, hr0, hr1⟩
  · rw [hfl, Int.floor_eq_iff]
    rcases eq_or_lt_of_le hmod0 with h0 | hpos
    · have hq : (k : K) / 5 = ((k / 5 : Int) : K) := by
        rw [hkK, ← h0]
        push_cast
        ring
      have h1 := hlo (8 * (k / 5)) (by push_cast; linarith)
      have h2 := hup (8 * (k / 5)) (by push_cast; linarith)
      push_cast at h1 h2
      constructor <;> linarith
    · have hm1 : (1 : K) ≤ ((k % 5 : Int) : K) := by exact_mod_cast hpos
      have hm4 : ((k % 5 : Int) : K) ≤ 4 := by
        have : k % 5 ≤ 4 := by omega
        exact_mod_cast this
      have h1 := hlo (8 * (k / 5) + 1) (by push_cast; linarith)
      have h2 := hup (8 * (k / 5) + 7) (by push_cast; linarith)
      push_cast at h1 h2
      constructor <;> linarith
  · rcases eq_or_lt_of_le hmod0 with h0 | hpos
    · have hq : (k : K) / 5 = ((k / 5 : Int) : K) := by
        rw [hkK, ← h0]
        push_cast
        ring
      have h1 := hlo (8 * (k / 5)) (by push_cast; linarith)
      have h2 := hup (8 * (k / 5)) (by push_cast; linarith)
      push_cast at h1 h2
      have : roundValue prec emin ((k : K) / 5) = (k : K) / 5 := by linarith
      rw [this]
    · have hm1 : (1 : K) ≤ ((k % 5 : Int) : K) := by exact_mod_cast hpos
      have hm4 : ((k % 5 : Int) : K) ≤ 4 := by
        have : k % 5 ≤ 4 := by omega
        exact_mod_cast this
      have h1 := hlo (8 * (k / 5) + 1) (by push_cast; linarith)
      have h2 := hup (8 * (k / 5) + 7) (by push_cast; linarith)
      push_cast at h1 h2
      have hc1 : ⌈roundValue prec emin ((k : K) / 5)⌉ = k / 5 + 1 := by
        rw [Int.ceil_eq_iff]
        push_cast
        constructor <;> linarith
      have hc2 : ⌈(k : K) / 5⌉ = k / 5 + 1 := by
        rw [Int.ceil_eq_iff]
        push_cast
        constructor <;> linarith
      rw [hc1, hc2]

/-- On cells of size five, the cell coordinate of an integer abscissa at most `200000` from
an integer origin is the same in `float`, in `double` and in exact arithmetic. -/
theorem cellCoordinate_fifth (round : K → Except Fault K) (prec : Nat) (emin emax : Int)
    (hround : ∀ q, round q = roundBinary prec emin emax q) (hp : 24 ≤ prec) (he : emin ≤ -126)
    (hx : 127 ≤ emax) (a origin : K) (ai oi : Int) (ha : a = ai) (ho : origin = oi)
    (hk : 0 ≤ ai - oi ∧ ai - oi ≤ 200000) :
    cellCoordinate round a origin 5 = .ok (toInt ((a - origin) / 5)) ∧
      (0 ≤ toInt ((a - origin) / 5) ∧ toInt ((a - origin) / 5) ≤ 40000) := by
  have hbig : (2 : K) ^ (128 : Int) ≤ 2 ^ (emax + 1) :=
    zpow_le_zpow_right₀ (by norm_num) (by omega)
  have h128 : (16777216 : K) < 2 ^ (128 : Int) := by norm_num
  have hd : a - origin = ((ai - oi : Int) : K) := by
    rw [ha, ho]
    push_cast
    rfl
  have hd0 : (0 : K) ≤ ((ai - oi : Int) : K) := by exact_mod_cast hk.1
  have hd1 : ((ai - oi : Int) : K) ≤ 200000 := by exact_mod_cast hk.2
  have h1 : round (a - origin) = .ok (((ai - oi : Int) : K)) := by
    rw [hround, hd]
    have hv : roundValue prec emin (((ai - oi : Int) : K)) = ((ai - oi : Int) : K) := by
      have := roundValue_exact (K := K) prec emin (ai - oi) 0 (by
        rw [zpow_zero, mul_one, abs_of_nonneg hd0, zero_add]
        have h24 : (2 : K) ^ (24 : Int) ≤ 2 ^ (prec : Int) :=
          zpow_le_zpow_right₀ (by norm_num) (by omega)
        have : (2 : K) ^ (24 : Int) = 16777216 := by norm_num
        linarith) (by omega)
      rw [zpow_zero, mul_one] at this
      exact this
    rw [roundBinary_of_lt, hv]
    rw [hv, abs_of_nonneg hd0]
    linarith
  obtain ⟨hfl, hce, hr0, hr1⟩ := roundValue_fifth (K := K) prec emin (ai - oi) hk hp he
  have h2 : round (((ai - oi : Int) : K) / 5) =
      .ok (roundValue prec emin (((ai - oi : Int) : K) / 5)) := by
    rw [hround, roundBinary_of_lt]
    rw [abs_of_nonneg hr0]
    linarith
  have hq0 : (0 : K) ≤ ((ai - oi : Int) : K) / 5 := by positivity
  have hq1 : ((ai - oi : Int) : K) / 5 ≤ 40000 := by linarith
  have ht : toInt (roundValue prec emin (((ai - oi : Int) : K) / 5)) =
      toInt ((a - origin) / 5) := by
    rw [hd, toInt_of_nonneg hr0, toInt_of_nonneg hq0, hfl]
  have hrange : 0 ≤ toInt ((a - origin) / 5) ∧ toInt ((a - origin) / 5) ≤ 40000 := by
    rw [hd, toInt_of_nonneg hq0]
    constructor
    · exact Int.floor_nonneg.mpr hq0
    · have : ⌊((ai - oi : Int) : K) / 5⌋ ≤ ⌊(40000 : K)⌋ := Int.floor_le_floor hq1
      have h4 : ⌊(40000 : K)⌋ = 40000 := by
        have : ((40000 : Int) : K) = 40000 := by norm_num
        rw [← this, Int.floor_intCast]
      omega
  refine ⟨?_, hrange⟩
  exact cellCoordinate_eval round a origin 5 _ _ _ (by norm_num) h1 h2 ht (by omega)

/-- An insertion keeps every field of the index but the cell table, and the length of the
table. -/
theorem addPointObject_fields (p : Partition2D K) (q : single_landmark_s K) (p' : Partition2D K)
    (h : addPointObject p q = some p') :
    p'.world_x0 = p.world_x0 ∧ p'.world_y0 = p.world_y0 ∧ p'.cell_size = p.cell_size ∧
      p'.dim_x = p.dim_x ∧ p'.dim_y = p.dim_y ∧ p'.search_levels = p.search_levels := by
  unfold addPointObject at h
  dsimp only at h
  split_ifs at h with hidx
  split at h <;> injection h with h <;> subst h <;> exact ⟨rfl, rfl, rfl, rfl, rfl, rfl⟩

/-- An insertion in machine arithmetic gives what the insertion in exact arithmetic gives, when
the column and the row computed in `float` are the exact ones and the index of the cell does not
overflow. -/
theorem addPointObjectM_of_exact (p : Partition2D K) (q : single_landmark_s K)
    (p' : Partition2D K) (h : addPointObject p q = some p')
    (hx : cellCoordinate roundFloat q.x p.world_x0 p.cell_size = .ok (p.column q.x))
    (hy : cellCoordinate roundFloat q.y p.world_y0 p.cell_size = .ok (p.row q.y))
    (hn : p.cellIndexM (p.column q.x) (p.row q.y) =
      .ok (p.cellIndex (p.column q.x) (p.row q.y))) :
    addPointObjectM p q = .ok p' := by
  unfold addPointObjectM
  rw [hx, ok_bind, hy, ok_bind, hn, ok_bind]
  unfold addPointObject at h
  dsimp only at h
  unfold Partition2D.column Partition2D.row
  split_ifs at h with hidx
  rw [if_pos hidx]
  split at h <;> injection h with h <;> subst h <;> rfl

/-- The insertions in machine arithmetic give what the insertions in exact arithmetic give,
when for every point the column and the row computed in `float` are the exact ones and the
index of the cell does not overflow. -/
theorem addPointObjectsM_of_exact (pts : List (single_landmark_s K)) :
    ∀ (p p' : Partition2D K), addPointObjects p pts = some p' →
      (∀ q ∈ pts, cellCoordinate roundFloat q.x p.world_x0 p.cell_size = .ok (p.column q.x) ∧
        cellCoordinate roundFloat q.y p.world_y0 p.cell_size = .ok (p.row q.y) ∧
        p.cellIndexM (p.column q.x) (p.row q.y) =
          .ok (p.cellIndex (p.column q.x) (p.row q.y))) →
      addPointObjectsM p pts = .ok p' := by
  induction pts with
  | nil =>
    intro p p' h _
    unfold addPointObjects at h
    rw [List.foldlM_nil] at h
    injection h with h
    subst h
    rfl
  | cons q pts ih =>
    intro p p' h hq
    unfold addPointObjects at h
    rw [List.foldlM_cons] at h
    cases h1 : addPointObject p q with
    | none =>
      rw [h1] at h
      cases h
    | some p1 =>
      rw [h1] at h
      obtain ⟨f1, f2, f3, f4, f5, f6⟩ := addPointObject_fields p q p1 h1
      obtain ⟨hx, hy, hn⟩ := hq q (List.mem_cons_self _ _)
      unfold addPointObjectsM
      rw [List.foldlM_cons, addPointObjectM_of_exact p q p1 h1 hx hy hn, ok_bind]
      apply ih p1 p' h
      intro q' hq'
      obtain ⟨hx', hy', hn'⟩ := hq q' (List.mem_cons_of_mem _ hq')
      simp only [Partition2D.column, Partition2D.row, Partition2D.cellIndexM,
        Partition2D.cellIndex] at hx' hy' hn' ⊢
      rw [f1, f2, f3, f4]
      exact ⟨hx', hy', hn'⟩

/-- A query in machine arithmetic gives what the query in exact arithmetic gives, when the
column and the row of the query computed in `double` are the exact ones. -/
theorem findNearestM_of_exact (m : Libm K) (p : Partition2D K) (x y : K)
    (hx : cellCoordinate roundDouble x p.world_x0 p.cell_size = .ok (p.column x))
    (hy : cellCoordinate roundDouble y p.world_y0 p.cell_size = .ok (p.row y))
    (hcx : p.column x + 1 ≤ 2147483647) (hcy : p.row y + 1 ≤ 2147483647) :
    findNearestM m p x y = .ok (findNearest m p x y) := by
  obtain ⟨_, _, _, _, _, hrx, hix⟩ := (cellCoordinate_ok_iff _ _ _ _ _).1 hx
  obtain ⟨_, _, _, _, _, hry, hiy⟩ := (cellCoordinate_ok_iff _ _ _ _ _).1 hy
  unfold findNearestM
  rw [hx, ok_bind, hy, ok_bind, intChecked_of_range _ (by omega), ok_bind,
    intChecked_of_range _ (by omega), ok_bind]
  rfl

/-- On cells of size five, the `float` quotient of `initialize` for an integer extent of at
most `200000` has the ceiling of the exact quotient. -/
theorem floatQuotient_fifth (lo hi : K) (li ui : Int) (hl : lo = li) (hh : hi = ui)
    (hk : 0 ≤ ui - li ∧ ui - li ≤ 200000) :
    ∃ across : K, floatQuotient lo hi 5 = .ok across ∧ ⌈across⌉ = ⌈(hi - lo) / 5⌉ ∧
      (0 ≤ ⌈across⌉ ∧ ⌈across⌉ ≤ 40000) := by
  have hd : hi - lo = ((ui - li : Int) : K) := by
    rw [hl, hh]
    push_cast
    rfl
  have hd0 : (0 : K) ≤ ((ui - li : Int) : K) := by exact_mod_cast hk.1
  have hd1 : ((ui - li : Int) : K) ≤ 200000 := by exact_mod_cast hk.2
  have h1 : roundFloat (hi - lo) = .ok (((ui - li : Int) : K)) :=
    roundFloat_int _ _ hd (by omega)
  obtain ⟨hfl, hce, hr0, hr1⟩ := roundValue_fifth (K := K) 24 (-126) (ui - li) hk (by norm_num)
    (by norm_num)
  have h2 : roundFloat (((ui - li : Int) : K) / 5) =
      .ok (roundValue 24 (-126) (((ui - li : Int) : K) / 5)) := by
    unfold roundFloat
    rw [roundBinary_of_lt]
    rw [abs_of_nonneg hr0]
    have : (40000 : K) < 2 ^ ((127 : Int) + 1) := by norm_num
    linarith
  refine ⟨_, (floatQuotient_ok_iff _ _ _ _).2 ⟨_, h1, h2⟩, by rw [hce, hd], ?_⟩
  constructor
  · exact Int.ceil_nonneg hr0
  · have h4 : ⌈(40000 : K)⌉ = 40000 := by
      have : ((40000 : Int) : K) = 40000 := by norm_num
      rw [← this, Int.ceil_intCast]
    have := Int.ceil_le_ceil hr1
    omega

/-- C5, as the code has it: for every bounding rectangle with integer coordinates
`-100000 ≤ x0 ≤ 0`, `-100000 ≤ y0 ≤ 0`, `10 < x1 ≤ 100000` and `10 < y1 ≤ 100000`, in machine
arithmetic (`float` cells on insertion, `double` cells on lookup, `int` dimensions) the index
built with cell size `5` and maximum search distance `20` from the three points `(0,0)`, `(10,0)`
and `(0,10)` answers `findNearest(1, 1)` with the point at `(0,0)`, the distance `sqrt 2` and a
count of examined objects of at least one. -/
theorem findNearestM_worked_example (m : Libm K) (X0 Y0 X1 Y1 : Int) (ida idb idc : Int)
    (hx0 : -100000 ≤ X0 ∧ X0 ≤ 0) (hy0 : -100000 ≤ Y0 ∧ Y0 ≤ 0)
    (hx1 : 10 < X1 ∧ X1 ≤ 100000) (hy1 : 10 < Y1 ∧ Y1 ≤ 100000) :
    ∃ p0 p : Partition2D K, InitializeM (X0 : K) (Y0 : K) (X1 : K) (Y1 : K) 5 20 = .ok p0 ∧
      addPointObjectsM p0
          [{ id := ida, x := 0, y := 0 }, { id := idb, x := 10, y := 0 },
            { id := idc, x := 0, y := 10 }] = .ok p ∧
      ∃ n, findNearestM m p 1 1 = .ok (some { id := ida, x := 0, y := 0 }, m.sqrt 2, n) ∧
        1 ≤ n := by
  have hX0 : (X0 : K) ≤ 0 := by exact_mod_cast hx0.2
  have hY0 : (Y0 : K) ≤ 0 := by exact_mod_cast hy0.2
  have hX1 : (10 : K) < X1 := by exact_mod_cast hx1.1
  have hY1 : (10 : K) < Y1 := by exact_mod_cast hy1.1
  obtain ⟨p0, p, hinit, hadd, hf1, hf2, hf3⟩ :=
    findNearest_worked_example m (X0 : K) (Y0 : K) (X1 : K) (Y1 : K) ida idb idc hX0 hY0 hX1 hY1
  obtain ⟨p0', p', hinit', hadd', ⟨hw0, hw1, hcs⟩, _, _, _⟩ :=
    build_placed (X0 : K) (Y0 : K) (X1 : K) (Y1 : K) 5 20
      [{ id := ida, x := 0, y := 0 }, { id := idb, x := 10, y := 0 },
        { id := idc, x := 0, y := 10 }]
      (by linarith) (by linarith) (by norm_num)
      (by
        intro q hq
        simp only [List.mem_cons, List.mem_singleton, List.not_mem_nil, or_false] at hq
        rcases hq with rfl | rfl | rfl <;> dsimp only <;>
          refine ⟨⟨?_, ?_⟩, ⟨?_, ?_⟩⟩ <;> linarith)
  rw [hinit] at hinit'
  injection hinit' with hinit'
  subst hinit'
  rw [hadd] at hadd'
  injection hadd' with hadd'
  subst hadd'
  have hp0 : p0 =
      { world_x0 := (X0 : K)
        world_y0 := (Y0 : K)
        world_x1 := (X1 : K)
        world_y1 := (Y1 : K)
        search_levels := toInt ((20 : K) / 5 + 1 / 2)
        dim_x := ⌈((X1 : K) - X0) / 5⌉
        dim_y := ⌈((Y1 : K) - Y0) / 5⌉
        cell_size := 5
        cells :=
          List.replicate (⌈((X1 : K) - X0) / 5⌉ * ⌈((Y1 : K) - Y0) / 5⌉).toNat none } := by
    unfold Initialize at hinit
    rw [if_pos ⟨by linarith, by linarith⟩, if_pos (by norm_num)] at hinit
    injection hinit with hinit
    exact hinit.symm
  obtain ⟨across, hA, hcA, hrA⟩ :=
    floatQuotient_fifth (X0 : K) (X1 : K) X0 X1 rfl rfl (by omega)
  obtain ⟨along, hB, hcB, hrB⟩ :=
    floatQuotient_fifth (Y0 : K) (Y1 : K) Y0 Y1 rfl rfl (by omega)
  have hL : levelSum (20 : K) 5 = .ok (9 / 2) := by
    have h3 : roundFloat ((20 : K) / 5) = .ok (((4 : Int) : K)) :=
      roundFloat_int _ 4 (by norm_num) (by norm_num)
    have h4 : roundDouble ((((4 : Int) : K)) + 1 / 2) = .ok (9 / 2) :=
      roundDouble_grid _ _ 9 (-1) (by norm_num) (by norm_num) (by norm_num [abs_lt])
        (by norm_num) (by norm_num)
    exact (levelSum_ok_iff _ _ _).2 ⟨_, h3, h4⟩
  have ht : toInt ((20 : K) / 5 + 1 / 2) = toInt ((9 : K) / 2) := by norm_num
  have ht4 : toInt ((9 : K) / 2) = 4 := by
    rw [toInt_of_nonneg (by norm_num), Int.floor_eq_iff]
    norm_num
  have hmul : ⌈across⌉ * ⌈along⌉ ≤ 40000 * 40000 :=
    mul_le_mul hrA.2 hrB.2 hrB.1 (by norm_num)
  have hmul0 : 0 ≤ ⌈across⌉ * ⌈along⌉ := mul_nonneg hrA.1 hrB.1
  have hinitM : InitializeM (X0 : K) (Y0 : K) (X1 : K) (Y1 : K) 5 20 = .ok p0 := by
    rw [InitializeM_ok_iff _ _ _ _ _ _ ⟨by linarith, by linarith⟩ (by norm_num)]
    refine ⟨across, along, 9 / 2, hA, hB, hL, ⟨by omega, by omega⟩, ⟨by omega, by omega⟩, ?_,
      ⟨by omega, by omega⟩, ?_⟩
    · rw [ht4]
      norm_num
    · rw [hp0, hcA, hcB, ht]
  have hdx : p0.dim_x = ⌈across⌉ := by rw [hp0, hcA]
  have hv0 : p0.world_x0 = (X0 : K) := by rw [hp0]
  have hv1 : p0.world_y0 = (Y0 : K) := by rw [hp0]
  have hvs : p0.cell_size = 5 := by rw [hp0]
  -- the cells of the three points are the same in `float` and in exact arithmetic
  have hpts : ∀ q ∈ ([{ id := ida, x := 0, y := 0 }, { id := idb, x := 10, y := 0 },
      { id := idc, x := 0, y := 10 }] : List (single_landmark_s K)),
      cellCoordinate roundFloat q.x p0.world_x0 p0.cell_size = .ok (p0.column q.x) ∧
        cellCoordinate roundFloat q.y p0.world_y0 p0.cell_size = .ok (p0.row q.y) ∧
        p0.cellIndexM (p0.column q.x) (p0.row q.y) =
          .ok (p0.cellIndex (p0.column q.x) (p0.row q.y)) := by
    have hcell : ∀ (a origin : K) (ai oi : Int), a = ai → origin = oi →
        (0 ≤ ai - oi ∧ ai - oi ≤ 200000) →
        cellCoordinate roundFloat a origin 5 = .ok (toInt ((a - origin) / 5)) ∧
          (0 ≤ toInt ((a - origin) / 5) ∧ toInt ((a - origin) / 5) ≤ 40000) :=
      fun a origin ai oi ha ho hk =>
        cellCoordinate_fifth roundFloat 24 (-126) 127 (fun _ => rfl) (by norm_num) (by norm_num)
          (by norm_num) a origin ai oi ha ho hk
    have hone : ∀ (q : single_landmark_s K) (xi yi : Int), q.x = xi → q.y = yi →
        (0 ≤ xi ∧ xi ≤ 10) → (0 ≤ yi ∧ yi ≤ 10) →
        cellCoordinate roundFloat q.x p0.world_x0 p0.cell_size = .ok (p0.column q.x) ∧
          cellCoordinate roundFloat q.y p0.world_y0 p0.cell_size = .ok (p0.row q.y) ∧
          p0.cellIndexM (p0.column q.x) (p0.row q.y) =
            .ok (p0.cellIndex (p0.column q.x) (p0.row q.y)) := by
      intro q xi yi hqx hqy hxi hyi
      obtain ⟨hc1, hc2⟩ := hcell q.x (X0 : K) xi X0 hqx rfl (by omega)
      obtain ⟨hc3, hc4⟩ := hcell q.y (Y0 : K) yi Y0 hqy rfl (by omega)
      have hcol : p0.column q.x = toInt ((q.x - (X0 : K)) / 5) := by
        unfold Partition2D.column
        rw [hv0, hvs]
      have hrow : p0.row q.y = toInt ((q.y - (Y0 : K)) / 5) := by
        unfold Partition2D.row
        rw [hv1, hvs]
      rw [hv0, hv1, hvs, hcol, hrow]
      refine ⟨hc1, hc3, ?_⟩
      unfold Partition2D.cellIndexM Partition2D.cellIndex
      rw [hdx]
      have h5 : 0 ≤ toInt ((q.y - (Y0 : K)) / 5) * ⌈across⌉ := mul_nonneg hc4.1 hrA.1
      have h6 : toInt ((q.y - (Y0 : K)) / 5) * ⌈across⌉ ≤ 40000 * 40000 :=
        mul_le_mul hc4.2 hrA.2 hrA.1 (by norm_num)
      rw [intChecked_of_range _ (by omega), ok_bind, intChecked_of_range _ (by omega)]
    intro q hq
    simp only [List.mem_cons, List.mem_singleton, List.not_mem_nil, or_false] at hq
    rcases hq with rfl | rfl | rfl
    · exact hone _ 0 0 (by norm_num) (by norm_num) (by norm_num) (by norm_num)
    · exact hone _ 10 0 (by norm_num) (by norm_num) (by norm_num) (by norm_num)
    · exact hone _ 0 10 (by norm_num) (by norm_num) (by norm_num) (by norm_num)
  have haddM := addPointObjectsM_of_exact _ p0 p hadd hpts
  -- the cell of the query is the same in `double` and in exact arithmetic
  obtain ⟨hq1, hq2⟩ := cellCoordinate_fifth (K := K) roundDouble 53 (-1022) 1023 (fun _ => rfl)
    (by norm_num) (by norm_num) (by norm_num) 1 (X0 : K) 1 X0 (by norm_num) rfl (by omega)
  obtain ⟨hq3, hq4⟩ := cellCoordinate_fifth (K := K) roundDouble 53 (-1022) 1023 (fun _ => rfl)
    (by norm_num) (by norm_num) (by norm_num) 1 (Y0 : K) 1 Y0 (by norm_num) rfl (by omega)
  have hfind : findNearestM m p 1 1 = .ok (findNearest m p 1 1) := by
    apply findNearestM_of_exact
    · unfold Partition2D.column
      rw [hw0, hcs]
      exact hq1
    · unfold Partition2D.row
      rw [hw1, hcs]
      exact hq3
    · unfold Partition2D.column
      rw [hw0, hcs]
      omega
    · unfold Partition2D.row
      rw [hw1, hcs]
      omega
  refine ⟨p0, p, hinitM, haddM, (findNearest m p 1 1).2.2, ?_, hf3⟩
  rw [hfind, ← hf1, ← hf2]

/-- Witness of C5: the rectangle from `(-1, -1)` to `(11, 11)` on the real numbers. -/
theorem findNearestM_worked_example_witness :
    (((-100000 : Int) ≤ -1 ∧ (-1 : Int) ≤ 0) ∧ ((10 : Int) < 11 ∧ (11 : Int) ≤ 100000)) ∧
      ∃ p0 p : Partition2D ℝ,
        InitializeM (((-1 : Int) : ℝ)) (((-1 : Int) : ℝ)) (((11 : Int) : ℝ)) (((11 : Int) : ℝ))
          5 20 = .ok p0 ∧
        addPointObjectsM p0
            [{ id := 1, x := 0, y := 0 }, { id := 2, x := 10, y := 0 },
              { id := 3, x := 0, y := 10 }] = .ok p ∧
        ∃ n, findNearestM realLibm p 1 1 =
            .ok (some { id := 1, x := 0, y := 0 }, Real.sqrt 2, n) ∧ 1 ≤ n :=
  ⟨by norm_num,
    findNearestM_worked_example realLibm (-1) (-1) 11 11 1 2 3 (by norm_num) (by norm_num)
      (by norm_num) (by norm_num)⟩

theorem ceil_quotient_250011 : ⌈(12800563 / 256 : ℝ)⌉ = 50003 := by
  rw [Int.ceil_eq_iff]
  norm_num

/-- Counterexample to C5: the rectangle from `(-250000, -250000)` to `(11, 11)` satisfies
`x0 ≤ 0`, `y0 ≤ 0`, `10 < x1` and `10 < y1`; with cell size `5` the grid has `50003` by `50003`
cells and the product `dim_x * dim_y = 2500300009` is no value of `int`: no index is built. -/
theorem worked_example_overflow_counterexample :
    (((-250000 : ℝ) ≤ 0 ∧ (-250000 : ℝ) ≤ 0) ∧ ((10 : ℝ) < 11 ∧ (10 : ℝ) < 11)) ∧
      InitializeM (-250000 : ℝ) (-250000) 11 11 5 20 = .error .undefined ∧
      ¬ ∃ p0, InitializeM (-250000 : ℝ) (-250000) 11 11 5 20 = .ok p0 := by
  have h1 : roundFloat ((11 : ℝ) - -250000) = .ok 250011 := by
    simpa using roundFloat_int ((11 : ℝ) - -250000) 250011 (by norm_num) (by norm_num)
  have h2 : roundFloat ((250011 : ℝ) / 5) = .ok (12800563 / 256) :=
    roundFloat_pos _ 15 12800563 _ (by norm_num) (by norm_num) (by norm_num) (by norm_num)
      (by norm_num) (by norm_num) (by norm_num) (by norm_num)
  have h3 : roundFloat ((20 : ℝ) / 5) = .ok 4 := by
    simpa using roundFloat_int ((20 : ℝ) / 5) 4 (by norm_num) (by norm_num)
  have h4 : roundDouble ((4 : ℝ) + 1 / 2) = .ok (9 / 2) :=
    roundDouble_grid _ _ 9 (-1) (by norm_num) (by norm_num) (by norm_num [abs_lt])
      (by norm_num) (by norm_num)
  have hq : floatQuotient (-250000 : ℝ) 11 5 = .ok (12800563 / 256) :=
    (floatQuotient_ok_iff _ _ _ _).2 ⟨_, h1, h2⟩
  have hl : levelSum (20 : ℝ) 5 = .ok (9 / 2) := (levelSum_ok_iff _ _ _).2 ⟨_, h3, h4⟩
  have ht : toInt (9 / 2 : ℝ) = 4 := by norm_num [toInt]
  have hval : InitializeM (-250000 : ℝ) (-250000) 11 11 5 20 = .error .undefined := by
    unfold InitializeM
    rw [if_pos (by norm_num), if_pos (by norm_num), hq, ok_bind, ceil_quotient_250011,
      intChecked_of_range _ (by norm_num), ok_bind, ok_bind, ceil_quotient_250011,
      intChecked_of_range _ (by norm_num), ok_bind, hl, ok_bind, ht,
      intChecked_of_range _ (by norm_num), ok_bind,
      intChecked_of_not_range _ (by norm_num), error_bind]
  refine ⟨by norm_num, hval, ?_⟩
  rintro ⟨p, hp⟩
  rw [hval] at hp
  cases hp

/-- C1, as the code has it: `addPointObject` computes the cell of a landmark in `float`,
`findNearest` computes the cell of a query in `double`. On the index that
`initialize(-0.3f, 0, 10, 10, 5, 50)` builds (three by two cells, ten levels), the landmarks
`(4.7f, 0)` and `(-0.3f, 0)` lie in the rectangle and have distinct coordinates; the first is
stored in column `1`, its own coordinates are looked up from column `0`, and
`findNearest(4.7f, 0)` returns the landmark at `(-0.3f, 0)`, not the landmark itself. -/
theorem self_match_float_double :
    (roundFloat (47 / 10 : ℝ) = .ok float47 ∧ roundFloat (3 / 10 : ℝ) = .ok float03) ∧
      InitializeM (-float03) 0 10 10 5 50 = .ok sixCells ∧ 1 ≤ sixCells.search_levels ∧
      addPointObjectsM sixCells [landmarkNear, landmarkCorner] = .ok sixCellsFilled ∧
      (∀ q ∈ [landmarkNear, landmarkCorner],
        (-float03 ≤ q.x ∧ q.x < 10) ∧ ((0 : ℝ) ≤ q.y ∧ q.y < 10)) ∧
      landmarkNear.x ≠ landmarkCorner.x ∧
      cellCoordinate roundFloat landmarkNear.x sixCells.world_x0 sixCells.cell_size = .ok 1 ∧
      cellCoordinate roundDouble landmarkNear.x sixCells.world_x0 sixCells.cell_size = .ok 0 ∧
      (∃ d, findNearestM realLibm sixCellsFilled landmarkNear.x landmarkNear.y =
        .ok (some landmarkCorner, d, 1)) ∧
      landmarkCorner ≠ landmarkNear := by
  refine ⟨⟨float47_rounds, float03_rounds⟩, sixCells_built, by norm_num [sixCells],
    sixCells_filled, ?_, ?_, landmarkNear_column_float, landmarkNear_column_double,
    sixCells_query, ?_⟩
  · intro q hq
    simp only [List.mem_cons, List.mem_singleton, List.not_mem_nil, or_false] at hq
    rcases hq with rfl | rfl <;> norm_num [landmarkNear, landmarkCorner, float03, float47]
  · norm_num [landmarkNear, landmarkCorner, float03, float47]
  · intro h
    have : landmarkCorner.id = landmarkNear.id := by rw [h]
    norm_num [landmarkNear, landmarkCorner] at this

/-! ## `updateWeights` in machine arithmetic -/

/-- One iteration of the loop over the observations: when it returns, the factor of the
observation is finite, the new weight is the rounded product of the weight and the factor, and
the pose of the particle is unchanged. -/
theorem observeM_ok (m : Libm K) (std_landmark : K × K) (partition : Partition2D K)
    (q : Particle K) (w : K) (o : LandmarkObs K) (q' : Particle K) (w' : K)
    (h : observeM m std_landmark partition (m.sin q.theta) (m.cos q.theta) (q, w) o =
      .ok (q', w')) :
    (∃ p, likelihoodM m std_landmark partition q o = .ok p ∧ roundDouble (w * p) = .ok w') ∧
      (q'.x = q.x ∧ q'.y = q.y ∧ q'.theta = q.theta ∧ q'.id = q.id) := by
  unfold observeM at h
  unfold likelihoodM
  dsimp only at h
  cases hw : worldPointM (m.sin q.theta) (m.cos q.theta) q o with
  | error f => rw [hw] at h; cases h
  | ok wp =>
    rw [hw, ok_bind] at h
    rw [ok_bind]
    cases hr : findNearestM m partition wp.1 wp.2 with
    | error f => rw [hr] at h; cases h
    | ok r =>
      rw [hr, ok_bind] at h
      rw [ok_bind]
      cases hn : r.1 with
      | none =>
        rw [hn] at h
        dsimp only at h ⊢
        cases hm : roundDouble (w * floorFactor) with
        | error f => rw [hm] at h; cases h
        | ok w1 =>
          rw [hm, ok_bind] at h
          injection h with h
          injection h with h1 h2
          subst h1 h2
          exact ⟨⟨floorFactor, rfl, hm⟩, rfl, rfl, rfl, rfl⟩
      | some nearest =>
        rw [hn] at h
        dsimp only at h ⊢
        cases hd : densityM m std_landmark wp.1 wp.2 nearest with
        | error f => rw [hd] at h; cases h
        | ok p =>
          rw [hd, ok_bind] at h
          cases hm : roundDouble (w * p) with
          | error f => rw [hm] at h; cases h
          | ok w1 =>
            rw [hm, ok_bind] at h
            injection h with h
            injection h with h1 h2
            subst h1 h2
            exact ⟨⟨p, rfl, hm⟩, rfl, rfl, rfl, rfl⟩

/-- One iteration of the loop over the observations returns when the factor of the observation
is finite and its product with the weight does not overflow. -/
theorem observeM_of_ok (m : Libm K) (std_landmark : K × K) (partition : Partition2D K)
    (q : Particle K) (w : K) (o : LandmarkObs K) (p w' : K)
    (hp : likelihoodM m std_landmark partition q o = .ok p)
    (hw : roundDouble (w * p) = .ok w') :
    ∃ q', observeM m std_landmark partition (m.sin q.theta) (m.cos q.theta) (q, w) o =
      .ok (q', w') := by
  unfold likelihoodM at hp
  unfold observeM
  dsimp only
  cases hwp : worldPointM (m.sin q.theta) (m.cos q.theta) q o with
  | error f => rw [hwp] at hp; cases hp
  | ok wp =>
    rw [hwp, ok_bind] at hp
    rw [ok_bind]
    cases hr : findNearestM m partition wp.1 wp.2 with
    | error f => rw [hr] at hp; cases hp
    | ok r =>
      rw [hr, ok_bind] at hp
      rw [ok_bind]
      cases hn : r.1 with
      | none =>
        rw [hn] at hp
        dsimp only at hp ⊢
        injection hp with hp
        subst hp
        rw [hw, ok_bind]
        exact ⟨_, rfl⟩
      | some nearest =>
        rw [hn] at hp
        dsimp only at hp ⊢
        rw [hp, ok_bind, hw, ok_bind]
        exact ⟨_, rfl⟩

/-- The factor of an observation depends on the particle through its pose only. -/
theorem likelihoodM_congr (m : Libm K) (std_landmark : K × K) (partition : Partition2D K)
    (q q0 : Particle K) (o : LandmarkObs K)
    (h : q.x = q0.x ∧ q.y = q0.y ∧ q.theta = q0.theta) :
    likelihoodM m std_landmark partition q o = likelihoodM m std_landmark partition q0 o := by
  unfold likelihoodM worldPointM
  rw [h.1, h.2.1, h.2.2]

/-- The loop over the observations: when it returns, every observation has a finite factor, the
final weight is the product of the factors rounded after every multiplication, and the pose of
the particle is unchanged. -/
theorem foldlM_observeM (m : Libm K) (std_landmark : K × K) (partition : Partition2D K)
    (q0 : Particle K) (observations : List (LandmarkObs K)) :
    ∀ (q : Particle K) (w : K) (q' : Particle K) (w' : K),
      (q.x = q0.x ∧ q.y = q0.y ∧ q.theta = q0.theta) →
      observations.foldlM
          (observeM m std_landmark partition (m.sin q0.theta) (m.cos q0.theta)) (q, w) =
        .ok (q', w') →
      ∃ factors, List.Forall₂ (fun o p => likelihoodM m std_landmark partition q0 o = .ok p)
          observations factors ∧
        factors.foldlM (fun weight p => roundDouble (weight * p)) w = .ok w' ∧
        (q'.x = q0.x ∧ q'.y = q0.y ∧ q'.theta = q0.theta ∧ q'.id = q.id) := by
  induction observations with
  | nil =>
    intro q w q' w' hq h
    rw [List.foldlM_nil] at h
    injection h with h
    injection h with h1 h2
    subst h1 h2
    exact ⟨[], List.Forall₂.nil, rfl, hq.1, hq.2.1, hq.2.2, rfl⟩
  | cons o obs ih =>
    intro q w q' w' hq h
    rw [List.foldlM_cons] at h
    cases h1 : observeM m std_landmark partition (m.sin q0.theta) (m.cos q0.theta) (q, w) o with
    | error f => rw [h1] at h; cases h
    | ok st =>
      rw [h1, ok_bind] at h
      obtain ⟨q1, w1⟩ := st
      rw [← hq.2.2] at h1
      obtain ⟨⟨p, hp, hm⟩, hx, hy, ht, hid⟩ := observeM_ok m std_landmark partition q w o q1 w1 h1
      obtain ⟨factors, hf, hprod, hx', hy', ht', hid'⟩ :=
        ih q1 w1 q' w' ⟨hx.trans hq.1, hy.trans hq.2.1, ht.trans hq.2.2⟩ h
      rw [likelihoodM_congr m std_landmark partition q q0 o hq] at hp
      refine ⟨p :: factors, List.Forall₂.cons hp hf, ?_, hx', hy', ht', hid'.trans hid⟩
      rw [List.foldlM_cons, hm, ok_bind]
      exact hprod

/-- The loop over the observations returns when every observation has a finite factor and the
product of the factors, rounded after every multiplication, does not overflow. -/
theorem foldlM_observeM_of_ok (m : Libm K) (std_landmark : K × K) (partition : Partition2D K)
    (q0 : Particle K) (observations : List (LandmarkObs K)) :
    ∀ (q : Particle K) (w : K) (factors : List K) (w' : K),
      (q.x = q0.x ∧ q.y = q0.y ∧ q.theta = q0.theta) →
      List.Forall₂ (fun o p => likelihoodM m std_landmark partition q0 o = .ok p)
        observations factors →
      factors.foldlM (fun weight p => roundDouble (weight * p)) w = .ok w' →
      ∃ q', observations.foldlM
          (observeM m std_landmark partition (m.sin q0.theta) (m.cos q0.theta)) (q, w) =
        .ok (q', w') := by
  induction observations with
  | nil =>
    intro q w factors w' hq hf hprod
    cases hf
    rw [List.foldlM_nil] at hprod
    injection hprod with hprod
    subst hprod
    exact ⟨q, rfl⟩
  | cons o obs ih =>
    intro q w factors w' hq hf hprod
    cases hf with
    | cons hp hf =>
      rename_i p factors
      rw [List.foldlM_cons] at hprod
      cases hm : roundDouble (w * p) with
      | error f => rw [hm] at hprod; cases hprod
      | ok w1 =>
        rw [hm, ok_bind] at hprod
        rw [← likelihoodM_congr m std_landmark partition q q0 o hq] at hp
        obtain ⟨q1, h1⟩ := observeM_of_ok m std_landmark partition q w o p w1 hp hm
        obtain ⟨⟨_, _, _⟩, hx, hy, ht, _⟩ := observeM_ok m std_landmark partition q w o q1 w1 h1
        obtain ⟨q', hq'⟩ :=
          ih q1 w1 factors w' ⟨hx.trans hq.1, hy.trans hq.2.1, ht.trans hq.2.2⟩ hf hprod
        refine ⟨q', ?_⟩
        rw [List.foldlM_cons, ← hq.2.2, h1, ok_bind, hq.2.2]
        exact hq'

/-- The iteration of `updateWeights` for one particle: when it returns, every observation has a
finite factor, and the weight stored in the particle and pushed onto `weights` is the product of
the factors from `1.`, rounded after every multiplication. -/
theorem weighParticleM_ok (m : Libm K) (std_landmark : K × K)
    (observations : List (LandmarkObs K)) (partition : Partition2D K) (q : Particle K)
    (r : Particle K × K)
    (h : weighParticleM m std_landmark observations partition q = .ok r) :
    ∃ factors, List.Forall₂ (fun o p => likelihoodM m std_landmark partition q o = .ok p)
        observations factors ∧
      weightProductM factors = .ok r.2 ∧ r.1.weight = r.2 ∧ r.1.id = q.id := by
  unfold weighParticleM at h
  dsimp only at h
  cases hf : observations.foldlM
      (observeM m std_landmark partition (m.sin q.theta) (m.cos q.theta))
      (({ q with associations := [], sense_x := [], sense_y := [] } : Particle K), (1 : K)) with
  | error f => rw [hf] at h; cases h
  | ok st =>
    rw [hf, ok_bind] at h
    injection h with h
    subst h
    obtain ⟨q1, w1⟩ := st
    obtain ⟨factors, hfac, hprod, _, _, _, hid⟩ :=
      foldlM_observeM m std_landmark partition q observations
        { q with associations := [], sense_x := [], sense_y := [] } 1 q1 w1 ⟨rfl, rfl, rfl⟩ hf
    exact ⟨factors, hfac, hprod, rfl, hid⟩

/-- The iteration of `updateWeights` for one particle returns when every observation has a
finite factor and the product of the factors does not overflow. -/
theorem weighParticleM_of_ok (m : Libm K) (std_landmark : K × K)
    (observations : List (LandmarkObs K)) (partition : Partition2D K) (q : Particle K)
    (factors : List K) (w : K)
    (hf : List.Forall₂ (fun o p => likelihoodM m std_landmark partition q o = .ok p)
      observations factors)
    (hw : weightProductM factors = .ok w) :
    ∃ r, weighParticleM m std_landmark observations partition q = .ok r ∧ r.2 = w := by
  obtain ⟨q', hq'⟩ := foldlM_observeM_of_ok m std_landmark partition q observations
    { q with associations := [], sense_x := [], sense_y := [] } 1 factors w ⟨rfl, rfl, rfl⟩ hf hw
  refine ⟨({ q' with weight := w }, w), ?_, rfl⟩
  unfold weighParticleM
  dsimp only
  rw [hq', ok_bind]
  rfl

/-- The loop of `updateWeights` over the particles in machine arithmetic, on a vector of at
least `n` particles: when it returns it has kept the length of the vector, changed each of the
first `n` particles by the update of its own iteration and pushed the weights in the order of
the particles; and it returns when every iteration does. -/
theorem foldlM_weighM (w : Particle K → Except Fault (Particle K × K)) (n : Nat)
    (ps : List (Particle K)) (h : n ≤ ps.length) :
    (∀ ps' ws', (List.range n).foldlM (weighAt w) (ps, []) = .ok (ps', ws') →
        ps'.length = ps.length ∧ ws'.length = n ∧
        (∀ i, i < n → ∃ q r, ps[i]? = some q ∧ w q = .ok r ∧ ps'[i]? = some r.1 ∧
          ws'[i]? = some r.2) ∧
        (∀ i, n ≤ i → ps'[i]? = ps[i]?)) ∧
    ((∀ i q, i < n → ps[i]? = some q → ∃ r, w q = .ok r) →
      ∃ ps' ws', (List.range n).foldlM (weighAt w) (ps, []) = .ok (ps', ws')) := by
  induction n with
  | zero =>
    constructor
    · intro ps' ws' hrun
      rw [List.range_zero, List.foldlM_nil] at hrun
      injection hrun with hrun
      injection hrun with h1 h2
      subst h1 h2
      exact ⟨rfl, rfl, fun i hi => absurd hi (Nat.not_lt_zero i), fun _ _ => rfl⟩
    · intro _
      exact ⟨ps, [], rfl⟩
  | succ n ih =>
    obtain ⟨ih1, ih2⟩ := ih (Nat.le_of_succ_le h)
    have hn : n < ps.length := h
    have hstep : ∀ (ps1 : List (Particle K)) (ws1 : List K), ps1[n]? = some ps[n] →
        weighAt w (ps1, ws1) n =
          (w ps[n] >>= fun r => pure (ps1.set n r.1, ws1 ++ [r.2])) := by
      intro ps1 ws1 hget
      unfold weighAt
      dsimp only
      rw [hget]
    constructor
    · intro ps' ws' hrun
      rw [List.range_succ, List.foldlM_append] at hrun
      cases hprev : (List.range n).foldlM (weighAt w) (ps, []) with
      | error f => rw [hprev] at hrun; cases hrun
      | ok st =>
        obtain ⟨ps1, ws1⟩ := st
        obtain ⟨hlen, hwlen, hlow, hhigh⟩ := ih1 ps1 ws1 hprev
        have hget : ps1[n]? = some ps[n] := by
          rw [hhigh n (le_refl n), List.getElem?_eq_getElem hn]
        rw [hprev, ok_bind, List.foldlM_cons, hstep ps1 ws1 hget] at hrun
        cases hw : w ps[n] with
        | error f => rw [hw] at hrun; cases hrun
        | ok r =>
          rw [hw, ok_bind] at hrun
          have hrun2 : (Except.ok (ps1.set n r.1, ws1 ++ [r.2]) :
              Except Fault (List (Particle K) × List K)) = .ok (ps', ws') := hrun
          injection hrun2 with hrun
          injection hrun with h1 h2
          subst h1 h2
          refine ⟨by rw [List.length_set, hlen], by simp [hwlen], ?_, ?_⟩
          · intro i hi
            by_cases hin : i = n
            · subst hin
              refine ⟨ps[i], r, List.getElem?_eq_getElem hn, hw, ?_, ?_⟩
              · rw [List.getElem?_set, if_pos rfl, if_pos (by rw [hlen]; exact hn)]
              · have hlast := List.getElem?_concat_length ws1 r.2
                rw [hwlen] at hlast
                exact hlast
            · obtain ⟨q, r', hq, hr', hp', hw'⟩ := hlow i (by omega)
              refine ⟨q, r', hq, hr', ?_, ?_⟩
              · rw [List.getElem?_set, if_neg (by omega)]
                exact hp'
              · rw [List.getElem?_append_left (by omega)]
                exact hw'
          · intro i hi
            rw [List.getElem?_set, if_neg (by omega)]
            exact hhigh i (by omega)
    · intro hall
      obtain ⟨ps1, ws1, hprev⟩ := ih2 (fun i q hi hq => hall i q (by omega) hq)
      obtain ⟨hlen, hwlen, hlow, hhigh⟩ := ih1 ps1 ws1 hprev
      have hget : ps1[n]? = some ps[n] := by
        rw [hhigh n (le_refl n), List.getElem?_eq_getElem hn]
      obtain ⟨r, hr⟩ := hall n ps[n] (by omega) (List.getElem?_eq_getElem hn)
      refine ⟨ps1.set n r.1, ws1 ++ [r.2], ?_⟩
      rw [List.range_succ, List.foldlM_append, hprev, ok_bind, List.foldlM_cons,
        hstep ps1 ws1 hget, hr, ok_bind]
      rfl

/-- The call of `updateWeights` in machine arithmetic on a filter that holds at least
`num_particles` particles: when it returns it has kept the number of particles, changed each of
the first `num_particles` particles by `weighParticleM` and left in `weights` the weights of
these particles, in their order; and it returns when every iteration of its loop does. -/
theorem updateWeightsM_spec (m : Libm K) (pf : ParticleFilter K) (sensor_range : K)
    (std_landmark : K × K) (observations : List (LandmarkObs K)) (partition : Partition2D K)
    (h : pf.num_particles.toNat ≤ pf.particles.length) :
    (∀ pf', pf.updateWeightsM m sensor_range std_landmark observations partition = .ok pf' →
      (pf'.num_particles = pf.num_particles ∧ pf'.is_initialized = pf.is_initialized) ∧
      pf'.particles.length = pf.particles.length ∧
      pf'.weights.length = pf.num_particles.toNat ∧
      (∀ i, i < pf.num_particles.toNat → ∃ q r, pf.particles[i]? = some q ∧
        weighParticleM m std_landmark observations partition q = .ok r ∧
        pf'.particles[i]? = some r.1 ∧ pf'.weights[i]? = some r.2) ∧
      (∀ i, pf.num_particles.toNat ≤ i → pf'.particles[i]? = pf.particles[i]?)) ∧
    ((∀ i q, i < pf.num_particles.toNat → pf.particles[i]? = some q →
        ∃ r, weighParticleM m std_landmark observations partition q = .ok r) →
      ∃ pf', pf.updateWeightsM m sensor_range std_landmark observations partition = .ok pf') := by
  obtain ⟨h1, h2⟩ :=
    foldlM_weighM (weighParticleM m std_landmark observations partition) _ _ h
  constructor
  · intro pf' hrun
    unfold ParticleFilter.updateWeightsM at hrun
    cases hloop : (List.range pf.num_particles.toNat).foldlM
        (weighAt (weighParticleM m std_landmark observations partition)) (pf.particles, []) with
    | error f => rw [hloop] at hrun; cases hrun
    | ok st =>
      obtain ⟨ps', ws'⟩ := st
      rw [hloop, ok_bind] at hrun
      injection hrun with hrun
      subst hrun
      obtain ⟨hlen, hwlen, hlow, hhigh⟩ := h1 ps' ws' hloop
      exact ⟨⟨rfl, rfl⟩, hlen, hwlen, hlow, hhigh⟩
  · intro hall
    obtain ⟨ps', ws', hloop⟩ := h2 hall
    refine ⟨{ pf with particles := ps', weights := ws' }, ?_⟩
    unfold ParticleFilter.updateWeightsM
    rw [hloop, ok_bind]
    rfl

/-! ## The product of the floor factors in `double` -/

theorem floorFactor_pos : (0 : K) < floorFactor := by
  norm_num [floorFactor]

theorem floorFactor_le : (floorFactor : K) ≤ 1001 / (1000 * 10 ^ 10) := by
  norm_num [floorFactor]

/-- The literal `1E-10` rounded to `double`. -/
theorem floorFactor_rounds : roundDouble (1 / 10 ^ 10 : K) = .ok floorFactor :=
  roundDouble_pos _ (-34) 7737125245533627 _ (by norm_num) (by norm_num) (by norm_num)
    (by norm_num) (by norm_num) (by norm_num) (by norm_num) (by norm_num [floorFactor])

/-- The product of floor factors lies between `0` and `1`. -/
theorem floorProduct_range (n : Nat) : (0 : K) ≤ floorProduct n ∧ (floorProduct n : K) ≤ 1 := by
  induction n with
  | zero => exact ⟨zero_le_one, le_refl _⟩
  | succ n ih =>
    have hq0 : (0 : K) ≤ floorProduct n * floorFactor := mul_nonneg ih.1 floorFactor_pos.le
    have hq1 : (floorProduct n : K) * floorFactor ≤ 1 := by
      have h1 : (floorFactor : K) ≤ 1 := by norm_num [floorFactor]
      calc (floorProduct n : K) * floorFactor ≤ 1 * 1 := mul_le_mul ih.2 h1 floorFactor_pos.le
            zero_le_one
        _ = 1 := one_mul 1
    constructor
    · exact roundValue_nonneg _ _ _ hq0
    · have := roundValue_le_of_le (K := K) 53 (-1022) (floorProduct n * floorFactor) 1 0
        (by
          rw [abs_of_nonneg hq0]
          have : (1 : K) < 2 ^ ((0 : Int) + (53 : Nat)) := by norm_num
          linarith)
        (by norm_num) (by norm_num; exact hq1)
      simpa using this

/-- A multiplication of a weight between `0` and `1` by a factor between `0` and `1` does not
overflow. -/
theorem roundDouble_unit (w p : K) (hw : 0 ≤ w ∧ w ≤ 1) (hp : 0 ≤ p ∧ p ≤ 1) :
    roundDouble (w * p) = .ok (roundValue 53 (-1022) (w * p)) ∧
      (0 ≤ roundValue 53 (-1022) (w * p) ∧ roundValue 53 (-1022) (w * p) ≤ 1) := by
  have hq0 : (0 : K) ≤ w * p := mul_nonneg hw.1 hp.1
  have hq1 : w * p ≤ 1 := by
    calc w * p ≤ 1 * 1 := mul_le_mul hw.2 hp.2 hp.1 zero_le_one
      _ = 1 := one_mul 1
  have h0 := roundValue_nonneg (K := K) 53 (-1022) (w * p) hq0
  have h1 : roundValue 53 (-1022) (w * p) ≤ 1 := by
    have := roundValue_le_of_le (K := K) 53 (-1022) (w * p) 1 0
      (by
        rw [abs_of_nonneg hq0]
        have : (1 : K) < 2 ^ ((0 : Int) + (53 : Nat)) := by norm_num
        linarith)
      (by norm_num) (by norm_num; exact hq1)
    simpa using this
  refine ⟨?_, h0, h1⟩
  unfold roundDouble
  rw [roundBinary_of_lt]
  rw [abs_of_nonneg h0]
  have : (1 : K) < 2 ^ ((1023 : Int) + 1) := by
    have h2 : (2 : K) ^ (1 : Int) ≤ 2 ^ ((1023 : Int) + 1) :=
      zpow_le_zpow_right₀ (by norm_num) (by norm_num)
    have : (2 : K) ^ (1 : Int) = 2 := by norm_num
    linarith
  linarith

theorem floorProduct_succ (n : Nat) :
    roundDouble ((floorProduct n : K) * floorFactor) = .ok (floorProduct (n + 1)) :=
  (roundDouble_unit _ _ (floorProduct_range n)
    ⟨floorFactor_pos.le, by norm_num [floorFactor]⟩).1

/-- The product of `k ≤ 32` floor factors is at most `(1.01e-10)^k`. -/
theorem floorProduct_le (k : Nat) (hk : k ≤ 32) :
    (floorProduct k : K) ≤ (101 / (100 * 10 ^ 10)) ^ k := by
  induction k with
  | zero => simp [floorProduct]
  | succ k ih =>
    have ihk := ih (by omega)
    have hr := floorProduct_range (K := K) k
    have hq0 : (0 : K) ≤ floorProduct k * floorFactor := mul_nonneg hr.1 floorFactor_pos.le
    have hadd := roundValue_le_add (K := K) 53 (-1022) (floorProduct k * floorFactor) hq0
    have hB0 : (0 : K) ≤ (101 / (100 * 10 ^ 10)) ^ k := by positivity
    have hlow : ((1 : K) / 10 ^ 10) ^ 31 ≤ (101 / (100 * 10 ^ 10)) ^ k := by
      have h1 : ((1 : K) / 10 ^ 10) ^ 31 ≤ ((1 : K) / 10 ^ 10) ^ k :=
        pow_le_pow_of_le_one (by positivity) (by norm_num) (by omega)
      have h2 : ((1 : K) / 10 ^ 10) ^ k ≤ (101 / (100 * 10 ^ 10)) ^ k :=
        pow_le_pow_left₀ (by positivity) (by norm_num) k
      exact h1.trans h2
    have hq : (floorProduct k : K) * floorFactor ≤
        (101 / (100 * 10 ^ 10)) ^ k * (1001 / (1000 * 10 ^ 10)) :=
      mul_le_mul ihk floorFactor_le floorFactor_pos.le hB0
    have hsmall : (2 : K) ^ (-1022 : Int) * 2 ^ (-((53 : Nat) : Int)) ≤
        8 / 10 ^ 13 * ((1 : K) / 10 ^ 10) ^ 31 := by norm_num
    have h53 : (2 : K) ^ (-((53 : Nat) : Int)) ≤ 1 / 10 ^ 15 := by norm_num
    have h53pos : (0 : K) ≤ 2 ^ (-((53 : Nat) : Int)) := (two_zpow_pos _).le
    show roundValue 53 (-1022) (floorProduct k * floorFactor) ≤ (101 / (100 * 10 ^ 10)) ^ (k + 1)
    rw [pow_succ]
    have hprod : (floorProduct k : K) * floorFactor * 2 ^ (-((53 : Nat) : Int)) ≤
        (101 / (100 * 10 ^ 10)) ^ k * (1001 / (1000 * 10 ^ 10)) * (1 / 10 ^ 15) :=
      mul_le_mul hq h53 h53pos (by positivity)
    have hgap : (101 / (100 * 10 ^ 10) : K) ^ k * (1001 / (1000 * 10 ^ 10)) +
        (101 / (100 * 10 ^ 10)) ^ k * (1001 / (1000 * 10 ^ 10)) * (1 / 10 ^ 15) +
        8 / 10 ^ 13 * (101 / (100 * 10 ^ 10)) ^ k ≤
        (101 / (100 * 10 ^ 10)) ^ k * (101 / (100 * 10 ^ 10)) := by
      have hfac : (1001 / (1000 * 10 ^ 10) : K) + 1001 / (1000 * 10 ^ 10) * (1 / 10 ^ 15) +
          8 / 10 ^ 13 ≤ 101 / (100 * 10 ^ 10) := by norm_num
      have hmul := mul_le_mul_of_nonneg_left hfac hB0
      calc (101 / (100 * 10 ^ 10) : K) ^ k * (1001 / (1000 * 10 ^ 10)) +
            (101 / (100 * 10 ^ 10)) ^ k * (1001 / (1000 * 10 ^ 10)) * (1 / 10 ^ 15) +
            8 / 10 ^ 13 * (101 / (100 * 10 ^ 10)) ^ k
          = (101 / (100 * 10 ^ 10)) ^ k * ((1001 / (1000 * 10 ^ 10) : K) +
              1001 / (1000 * 10 ^ 10) * (1 / 10 ^ 15) + 8 / 10 ^ 13) := by ring
        _ ≤ (101 / (100 * 10 ^ 10)) ^ k * (101 / (100 * 10 ^ 10)) := hmul
    have h9 : (8 : K) / 10 ^ 13 * ((1 : K) / 10 ^ 10) ^ 31 ≤
        8 / 10 ^ 13 * (101 / (100 * 10 ^ 10)) ^ k :=
      mul_le_mul_of_nonneg_left hlow (by positivity)
    have hexp : ((floorProduct k : K) * floorFactor + 2 ^ (-1022 : Int)) *
        2 ^ (-((53 : Nat) : Int)) =
        (floorProduct k : K) * floorFactor * 2 ^ (-((53 : Nat) : Int)) +
          2 ^ (-1022 : Int) * 2 ^ (-((53 : Nat) : Int)) := by ring
    rw [hexp] at hadd
    have h10 := hsmall.trans h9
    calc roundValue 53 (-1022) (floorProduct k * floorFactor)
        ≤ (floorProduct k : K) * floorFactor +
            ((floorProduct k : K) * floorFactor * 2 ^ (-((53 : Nat) : Int)) +
              2 ^ (-1022 : Int) * 2 ^ (-((53 : Nat) : Int))) := hadd
      _ ≤ (101 / (100 * 10 ^ 10)) ^ k * (1001 / (1000 * 10 ^ 10)) +
            ((101 / (100 * 10 ^ 10)) ^ k * (1001 / (1000 * 10 ^ 10)) * (1 / 10 ^ 15) +
              8 / 10 ^ 13 * (101 / (100 * 10 ^ 10)) ^ k) :=
          add_le_add hq (add_le_add hprod h10)
      _ = (101 / (100 * 10 ^ 10)) ^ k * (1001 / (1000 * 10 ^ 10)) +
            (101 / (100 * 10 ^ 10)) ^ k * (1001 / (1000 * 10 ^ 10)) * (1 / 10 ^ 15) +
            8 / 10 ^ 13 * (101 / (100 * 10 ^ 10)) ^ k := by rw [add_assoc]
      _ ≤ (101 / (100 * 10 ^ 10)) ^ k * (101 / (100 * 10 ^ 10)) := hgap

/-- After `33` multiplications by `1E-10` in `double` the product is exactly zero. -/
theorem floorProduct_underflow : (floorProduct 33 : K) = 0 := by
  have h32 := floorProduct_le (K := K) 32 (le_refl 32)
  have hr := floorProduct_range (K := K) 32
  have hq0 : (0 : K) ≤ floorProduct 32 * floorFactor := mul_nonneg hr.1 floorFactor_pos.le
  have hq : (floorProduct 32 : K) * floorFactor ≤
      (101 / (100 * 10 ^ 10)) ^ 32 * (1001 / (1000 * 10 ^ 10)) :=
    mul_le_mul h32 floorFactor_le floorFactor_pos.le (by positivity)
  have hlt : (101 / (100 * 10 ^ 10) : K) ^ 32 * (1001 / (1000 * 10 ^ 10)) <
      2 ^ ((-1022 : Int) - (53 : Nat)) := by norm_num
  exact roundValue_underflow 53 (-1022) _ hq0 (lt_of_le_of_lt hq hlt) (by norm_num)

/-- From `33` multiplications by `1E-10` on, the product in `double` is exactly zero. -/
theorem floorProduct_zero (n : Nat) (hn : 33 ≤ n) : (floorProduct n : K) = 0 := by
  induction n with
  | zero => omega
  | succ n ih =>
    rcases Nat.eq_or_lt_of_le hn with h | h
    · rw [← h]
      exact floorProduct_underflow
    · show roundValue 53 (-1022) (floorProduct n * floorFactor) = 0
      rw [ih (by omega), zero_mul, roundValue_zero]

/-! ## The weights of `updateWeights` in machine arithmetic -/

/-- The factor of an observation that finds no match is the `double` `1E-10`. -/
theorem likelihoodM_unmatched (m : Libm K) (std_landmark : K × K) (partition : Partition2D K)
    (q : Particle K) (o : LandmarkObs K) (h : matchOfM m partition q o = .ok none) :
    likelihoodM m std_landmark partition q o = .ok floorFactor := by
  unfold matchOfM at h
  unfold likelihoodM
  cases hw : worldPointM (m.sin q.theta) (m.cos q.theta) q o with
  | error f => rw [hw] at h; cases h
  | ok wp =>
    rw [hw, ok_bind] at h
    rw [ok_bind]
    cases hr : findNearestM m partition wp.1 wp.2 with
    | error f => rw [hr] at h; cases h
    | ok r =>
      rw [hr, ok_bind] at h
      rw [ok_bind]
      injection h with h
      rw [h]
      rfl

/-- The factors of a list of observations that all have the same factor. -/
theorem forall₂_const {α : Type} (L : α → Except Fault K) (c : K) (obs : List α) :
    ∀ factors : List K, List.Forall₂ (fun o p => L o = .ok p) obs factors →
      (∀ o ∈ obs, L o = .ok c) → factors = List.replicate obs.length c := by
  induction obs with
  | nil =>
    intro factors hf _
    cases hf
    rfl
  | cons o obs ih =>
    intro factors hf hall
    cases hf with
    | cons hp hf =>
      rename_i p factors
      have h1 := hall o (List.mem_cons_self _ _)
      rw [h1] at hp
      injection hp with hp
      rw [ih factors hf (fun o' ho' => hall o' (List.mem_cons_of_mem _ ho')), ← hp]
      rfl

theorem forall₂_replicate {α : Type} (L : α → Except Fault K) (c : K) (obs : List α)
    (hall : ∀ o ∈ obs, L o = .ok c) :
    List.Forall₂ (fun o p => L o = .ok p) obs (List.replicate obs.length c) := by
  induction obs with
  | nil => exact List.Forall₂.nil
  | cons o obs ih =>
    exact List.Forall₂.cons (hall o (List.mem_cons_self _ _))
      (ih (fun o' ho' => hall o' (List.mem_cons_of_mem _ ho')))

/-- The product of `n` factors `1E-10` in `double`, from the product of `k` of them. -/
theorem foldlM_floorFactor (n : Nat) : ∀ k : Nat,
    (List.replicate n (floorFactor : K)).foldlM (fun weight p => roundDouble (weight * p))
      (floorProduct k) = .ok (floorProduct (k + n)) := by
  induction n with
  | zero =>
    intro k
    rfl
  | succ n ih =>
    intro k
    rw [List.replicate_succ, List.foldlM_cons, floorProduct_succ, ok_bind, ih (k + 1)]
    congr 2
    omega

theorem weightProductM_replicate (n : Nat) :
    weightProductM (List.replicate n (floorFactor : K)) = .ok (floorProduct n) := by
  have h := foldlM_floorFactor (K := K) n 0
  rw [Nat.zero_add] at h
  exact h

/-- The product in `double` of factors that are not negative is not negative. -/
theorem foldlM_product_nonneg (factors : List K) : ∀ w w' : K, 0 ≤ w →
    (∀ p ∈ factors, 0 ≤ p) →
    factors.foldlM (fun weight p => roundDouble (weight * p)) w = .ok w' → 0 ≤ w' := by
  induction factors with
  | nil =>
    intro w w' hw _ h
    rw [List.foldlM_nil] at h
    injection h with h
    rw [← h]
    exact hw
  | cons p factors ih =>
    intro w w' hw hall h
    rw [List.foldlM_cons] at h
    cases hm : roundDouble (w * p) with
    | error f => rw [hm] at h; cases h
    | ok w1 =>
      rw [hm, ok_bind] at h
      have hp := hall p (List.mem_cons_self _ _)
      exact ih w1 w' (roundDouble_nonneg _ _ hm (mul_nonneg hw hp))
        (fun p' hp' => hall p' (List.mem_cons_of_mem _ hp')) h

theorem divDouble_nonneg (a b r : K) (h : divDouble a b = .ok r) (ha : 0 ≤ a) (hb : 0 ≤ b) :
    0 ≤ r := by
  unfold divDouble at h
  split_ifs at h with h0
  exact roundDouble_nonneg _ _ h (div_nonneg ha hb)

/-- The denominator of the factor `p` is not negative when its operands are not. -/
theorem denominatorM_nonneg (d e r : K) (hd : 0 ≤ d) (he : 0 ≤ e)
    (h : denominatorM d e = .ok (some r)) : 0 ≤ r := by
  unfold denominatorM at h
  split_ifs at h with h1 h2
  · injection h with h
    injection h with h
    rw [← h]
    exact roundValue_nonneg _ _ _ (mul_nonneg hd he)
  · injection h with h
    cases h
  · cases hg : finiteDouble e with
    | error f => rw [hg] at h; cases h
    | ok grown =>
      rw [hg, ok_bind] at h
      have hgrown : 0 ≤ grown := by
        unfold finiteDouble at hg
        split_ifs at hg
        injection hg with hg
        rw [← hg]
        exact he
      cases hp : roundDouble (d * grown) with
      | error f => rw [hp] at h; cases h
      | ok product =>
        rw [hp, ok_bind] at h
        injection h with h
        injection h with h
        rw [← h]
        exact roundDouble_nonneg _ _ hp (mul_nonneg hd hgrown)

/-- The factor `p` of a matched observation is not negative, for standard deviations, `M_PI`
and values of `exp` that are not negative. -/
theorem densityM_nonneg (m : Libm K) (hpi : 0 ≤ m.M_PI) (hexp : ∀ a, 0 ≤ a → 0 ≤ m.exp a)
    (std_landmark : K × K) (hsx : 0 ≤ std_landmark.1) (hsy : 0 ≤ std_landmark.2) (x y : K)
    (nearest : single_landmark_s K) (p : K)
    (h : densityM m std_landmark x y nearest = .ok p) : 0 ≤ p := by
  unfold densityM at h
  cases h1 : roundDouble (x - nearest.x) with
  | error f => rw [h1] at h; cases h
  | ok dx =>
    rw [h1, ok_bind] at h
    cases h2 : roundDouble (y - nearest.y) with
    | error f => rw [h2] at h; cases h
    | ok dy =>
      rw [h2, ok_bind] at h
      cases h3 : divDouble dx std_landmark.1 with
      | error f => rw [h3] at h; cases h
      | ok ux =>
        rw [h3, ok_bind] at h
        cases h4 : roundDouble (square ux) with
        | error f => rw [h4] at h; cases h
        | ok sx =>
          rw [h4, ok_bind] at h
          have hsx2 := roundDouble_nonneg _ _ h4 (mul_self_nonneg ux)
          cases h5 : divDouble dy std_landmark.2 with
          | error f => rw [h5] at h; cases h
          | ok uy =>
            rw [h5, ok_bind] at h
            cases h6 : roundDouble (square uy) with
            | error f => rw [h6] at h; cases h
            | ok sy =>
              rw [h6, ok_bind] at h
              have hsy2 := roundDouble_nonneg _ _ h6 (mul_self_nonneg uy)
              cases h7 : roundDouble (sx + sy) with
              | error f => rw [h7] at h; cases h
              | ok sum =>
                rw [h7, ok_bind] at h
                have hsum := roundDouble_nonneg _ _ h7 (add_nonneg hsx2 hsy2)
                cases h8 : roundDouble (sum / 20) with
                | error f => rw [h8] at h; cases h
                | ok exponent =>
                  rw [h8, ok_bind] at h
                  have hexponent := roundDouble_nonneg _ _ h8 (div_nonneg hsum (by norm_num))
                  cases h10 : roundDouble (m.M_PI * std_landmark.1) with
                  | error f => rw [h10] at h; cases h
                  | ok d1 =>
                    rw [h10, ok_bind] at h
                    have hd1 := roundDouble_nonneg _ _ h10 (mul_nonneg hpi hsx)
                    cases h11 : roundDouble (d1 * std_landmark.2) with
                    | error f => rw [h11] at h; cases h
                    | ok d2 =>
                      rw [h11, ok_bind] at h
                      have hd2 := roundDouble_nonneg _ _ h11 (mul_nonneg hd1 hsy)
                      cases h12 : denominatorM d2 (m.exp exponent) with
                      | error f => rw [h12] at h; cases h
                      | ok d3 =>
                        rw [h12, ok_bind] at h
                        cases d3 with
                        | none =>
                          injection h with h
                          rw [← h]
                        | some d =>
                          exact divDouble_nonneg _ _ _ h (by norm_num)
                            (denominatorM_nonneg d2 _ d hd2 (hexp _ hexponent) h12)

/-- The factor of an observation is not negative. -/
theorem likelihoodM_nonneg (m : Libm K) (hpi : 0 ≤ m.M_PI) (hexp : ∀ a, 0 ≤ a → 0 ≤ m.exp a)
    (std_landmark : K × K) (hsx : 0 ≤ std_landmark.1) (hsy : 0 ≤ std_landmark.2)
    (partition : Partition2D K) (q : Particle K) (o : LandmarkObs K) (p : K)
    (h : likelihoodM m std_landmark partition q o = .ok p) : 0 ≤ p := by
  unfold likelihoodM at h
  cases hw : worldPointM (m.sin q.theta) (m.cos q.theta) q o with
  | error f => rw [hw] at h; cases h
  | ok wp =>
    rw [hw, ok_bind] at h
    cases hr : findNearestM m partition wp.1 wp.2 with
    | error f => rw [hr] at h; cases h
    | ok r =>
      rw [hr, ok_bind] at h
      cases hn : r.1 with
      | none =>
        rw [hn] at h
        injection h with h
        rw [← h]
        exact floorFactor_pos.le
      | some nearest =>
        rw [hn] at h
        exact densityM_nonneg m hpi hexp std_landmark hsx hsy _ _ nearest p h

/-- The weights after a call of `updateWeights` that returns: every particle among the first
`num_particles` has finite factors, and its weight, also pushed onto `weights`, is their product
in `double`. -/
theorem updateWeightsM_weights (m : Libm K) (pf : ParticleFilter K) (sensor_range : K)
    (std_landmark : K × K) (observations : List (LandmarkObs K)) (partition : Partition2D K)
    (hN : pf.num_particles.toNat = pf.particles.length) (pf' : ParticleFilter K)
    (h : pf.updateWeightsM m sensor_range std_landmark observations partition = .ok pf') :
    pf'.particles.length = pf.particles.length ∧ pf'.weights.length = pf.particles.length ∧
      ∀ i, i < pf.particles.length → ∃ q q' factors, pf.particles[i]? = some q ∧
        pf'.particles[i]? = some q' ∧
        List.Forall₂ (fun o p => likelihoodM m std_landmark partition q o = .ok p)
          observations factors ∧
        weightProductM factors = .ok q'.weight ∧ pf'.weights[i]? = some q'.weight := by
  obtain ⟨-, hlen, hwlen, hlow, -⟩ :=
    (updateWeightsM_spec m pf sensor_range std_landmark observations partition
      (le_of_eq hN)).1 pf' h
  refine ⟨hlen, by rw [hwlen, hN], ?_⟩
  intro i hi
  obtain ⟨q, r, hq, hr, hp', hw'⟩ := hlow i (by rw [hN]; exact hi)
  obtain ⟨factors, hf, hprod, hwt, _⟩ :=
    weighParticleM_ok m std_landmark observations partition q r hr
  refine ⟨q, r.1, factors, hq, hp', hf, ?_, ?_⟩
  · rw [hwt]
    exact hprod
  · rw [hwt]
    exact hw'

/-- The call of `updateWeights` returns when every particle has finite factors whose product in
`double` does not overflow. -/
theorem updateWeightsM_returns (m : Libm K) (pf : ParticleFilter K) (sensor_range : K)
    (std_landmark : K × K) (observations : List (LandmarkObs K)) (partition : Partition2D K)
    (hN : pf.num_particles.toNat = pf.particles.length)
    (hall : ∀ q ∈ pf.particles, ∃ factors w,
      List.Forall₂ (fun o p => likelihoodM m std_landmark partition q o = .ok p)
        observations factors ∧ weightProductM factors = .ok w) :
    ∃ pf', pf.updateWeightsM m sensor_range std_landmark observations partition = .ok pf' := by
  apply (updateWeightsM_spec m pf sensor_range std_landmark observations partition
    (le_of_eq hN)).2
  intro i q hi hq
  obtain ⟨factors, w, hf, hw⟩ := hall q (List.mem_iff_getElem?.2 ⟨i, hq⟩)
  obtain ⟨r, hr, _⟩ := weighParticleM_of_ok m std_landmark observations partition q factors w hf hw
  exact ⟨r, hr⟩

/-! ## The claims on the weights in machine arithmetic -/

/-- The weight of a particle whose observations all fail to match, after a call that returns:
the product of as many factors `1E-10` in `double`. -/
theorem updateWeightsM_unmatched_weight (m : Libm K) (pf : ParticleFilter K) (sensor_range : K)
    (std_landmark : K × K) (observations : List (LandmarkObs K)) (partition : Partition2D K)
    (hN : pf.num_particles.toNat = pf.particles.length) (pf' : ParticleFilter K)
    (h : pf.updateWeightsM m sensor_range std_landmark observations partition = .ok pf')
    (i : Nat) (q : Particle K) (hq : pf.particles[i]? = some q)
    (hnone : ∀ o ∈ observations, matchOfM m partition q o = .ok none) :
    ∃ q', pf'.particles[i]? = some q' ∧ q'.weight = floorProduct observations.length ∧
      pf'.weights[i]? = some (floorProduct observations.length) := by
  obtain ⟨_, _, hw⟩ :=
    updateWeightsM_weights m pf sensor_range std_landmark observations partition hN pf' h
  have hi : i < pf.particles.length := (List.getElem?_eq_some.1 hq).1
  obtain ⟨q1, q', factors, hq1, hq', hf, hprod, hwt⟩ := hw i hi
  rw [hq] at hq1
  injection hq1 with hq1
  subst hq1
  have hfac := forall₂_const (likelihoodM m std_landmark partition q) floorFactor observations
    factors hf (fun o ho => likelihoodM_unmatched m std_landmark partition q o (hnone o ho))
  rw [hfac, weightProductM_replicate] at hprod
  injection hprod with hprod
  refine ⟨q', hq', hprod.symm, ?_⟩
  rw [hwt, ← hprod]

/-- The call of `updateWeights` returns when every observation fails to match for every
particle. -/
theorem updateWeightsM_unmatched_returns (m : Libm K) (pf : ParticleFilter K) (sensor_range : K)
    (std_landmark : K × K) (observations : List (LandmarkObs K)) (partition : Partition2D K)
    (hN : pf.num_particles.toNat = pf.particles.length)
    (hnone : ∀ q ∈ pf.particles, ∀ o ∈ observations, matchOfM m partition q o = .ok none) :
    ∃ pf', pf.updateWeightsM m sensor_range std_landmark observations partition = .ok pf' ∧
      (pf'.particles.length = pf.particles.length ∧
        pf'.weights.length = pf.particles.length) ∧
      (∀ q' ∈ pf'.particles, q'.weight = floorProduct observations.length) ∧
      (∀ w ∈ pf'.weights, w = floorProduct observations.length) := by
  obtain ⟨pf', hrun⟩ := updateWeightsM_returns m pf sensor_range std_landmark observations
    partition hN (fun q hq => ⟨_, _, forall₂_replicate _ floorFactor observations
      (fun o ho => likelihoodM_unmatched m std_landmark partition q o (hnone q hq o ho)),
      weightProductM_replicate _⟩)
  obtain ⟨hlen, hwlen, _⟩ :=
    updateWeightsM_weights m pf sensor_range std_landmark observations partition hN pf' hrun
  refine ⟨pf', hrun, ⟨hlen, hwlen⟩, ?_, ?_⟩
  · intro q' hq'
    obtain ⟨i, hi⟩ := List.mem_iff_getElem?.1 hq'
    have hlt : i < pf.particles.length := by
      rw [← hlen]
      exact (List.getElem?_eq_some.1 hi).1
    obtain ⟨q1, hq1, hw1, _⟩ := updateWeightsM_unmatched_weight m pf sensor_range std_landmark
      observations partition hN pf' hrun i pf.particles[i] (List.getElem?_eq_getElem hlt)
      (hnone _ (List.getElem_mem _))
    rw [hi] at hq1
    injection hq1 with hq1
    rw [hq1]
    exact hw1
  · intro w hw
    obtain ⟨i, hi⟩ := List.mem_iff_getElem?.1 hw
    have hlt : i < pf.particles.length := by
      rw [← hwlen]
      exact (List.getElem?_eq_some.1 hi).1
    obtain ⟨q1, _, _, hw1⟩ := updateWeightsM_unmatched_weight m pf sensor_range std_landmark
      observations partition hN pf' hrun i pf.particles[i] (List.getElem?_eq_getElem hlt)
      (hnone _ (List.getElem_mem _))
    rw [hi] at hw1
    injection hw1 with hw1

/-- One factor `1E-10`: the product is this `double`. -/
theorem floorProduct_one : (floorProduct 1 : K) = floorFactor := by
  show roundValue 53 (-1022) (1 * floorFactor) = floorFactor
  rw [one_mul]
  have h := roundValue_exact (K := K) 53 (-1022) 7737125245533627 (-86)
    (by norm_num [abs_lt]) (by norm_num)
  have hf : (floorFactor : K) = ((7737125245533627 : Int) : K) * 2 ^ (-86 : Int) := by
    norm_num [floorFactor]
  rw [hf]
  exact h

/-- C11, as the code has it: on a filter whose particle sequence has `num_particles` entries, a
particle for which every one of the `n` observations fails to match a landmark gets, when
`updateWeights` returns, the product of `n` factors `1E-10` formed in `double` from `1.`, rounded
after every multiplication; the call returns when this holds for every particle; with no
observation at all it returns and every particle gets the weight `1`. The product is `1` for
`n = 0` and the `double` `1E-10` for `n = 1`, lies between `0` and `1`, and is exactly `0` from
`n = 33` on. -/
theorem updateWeightsM_unmatched (m : Libm K) (pf : ParticleFilter K) (sensor_range : K)
    (std_landmark : K × K) (observations : List (LandmarkObs K)) (partition : Partition2D K)
    (hN : pf.num_particles.toNat = pf.particles.length) :
    (∀ pf', pf.updateWeightsM m sensor_range std_landmark observations partition = .ok pf' →
      ∀ (i : Nat) (q : Particle K), pf.particles[i]? = some q →
        (∀ o ∈ observations, matchOfM m partition q o = .ok none) →
        ∃ q', pf'.particles[i]? = some q' ∧ q'.weight = floorProduct observations.length ∧
          pf'.weights[i]? = some (floorProduct observations.length)) ∧
    ((∀ q ∈ pf.particles, ∀ o ∈ observations, matchOfM m partition q o = .ok none) →
      ∃ pf', pf.updateWeightsM m sensor_range std_landmark observations partition = .ok pf') ∧
    (∃ pf', pf.updateWeightsM m sensor_range std_landmark [] partition = .ok pf' ∧
      pf'.particles.length = pf.particles.length ∧ ∀ q' ∈ pf'.particles, q'.weight = 1) ∧
    ((floorProduct 0 : K) = 1 ∧ (floorProduct 1 : K) = floorFactor ∧
      (∀ n, (0 : K) ≤ floorProduct n ∧ (floorProduct n : K) ≤ 1) ∧
      ∀ n, 33 ≤ n → (floorProduct n : K) = 0) := by
  refine ⟨?_, ?_, ?_, rfl, floorProduct_one, floorProduct_range, floorProduct_zero⟩
  · intro pf' h i q hq hnone
    exact updateWeightsM_unmatched_weight m pf sensor_range std_landmark observations partition
      hN pf' h i q hq hnone
  · intro hnone
    obtain ⟨pf', hrun, _⟩ := updateWeightsM_unmatched_returns m pf sensor_range std_landmark
      observations partition hN hnone
    exact ⟨pf', hrun⟩
  · obtain ⟨pf', hrun, ⟨hlen, _⟩, hw, _⟩ := updateWeightsM_unmatched_returns m pf sensor_range
      std_landmark [] partition hN (fun _ _ o ho => absurd ho (List.not_mem_nil o))
    exact ⟨pf', hrun, hlen, hw⟩

/-! ## A particle whose observations find no landmark -/

/-- The halves of the integers up to `2 ^ 52` in absolute value are values of `double`. -/
theorem roundDouble_half (q r : K) (n : Int) (hq : q = r) (hr : r = n / 2)
    (hn : -9007199254740992 < n ∧ n < 9007199254740992) : roundDouble q = .ok r := by
  have h2 : (2 : K) ^ (-1 : Int) = 1 / 2 := by norm_num
  have h52 : (2 : K) ^ ((-1 : Int) + 53) = 4503599627370496 := by norm_num
  apply roundDouble_grid q r n (-1) hq (by rw [hr, h2]; ring) _ (by norm_num) (by norm_num)
  rw [h52, hr, abs_lt]
  have h1 : ((-9007199254740992 : Int) : K) < n := by exact_mod_cast hn.1
  have h3 : (n : K) < ((9007199254740992 : Int) : K) := by exact_mod_cast hn.2
  push_cast at h1 h3
  constructor <;> linarith

/-- The observation `(1/2, 1/2)` of the particle at the origin with heading zero, moved to the
world frame in `double`. -/
theorem origin_worldPoint :
    worldPointM (realLibm.sin 0) (realLibm.cos 0) (Particle.new 0 0 0 0 1)
      { x := 1 / 2, y := 1 / 2 } = .ok ((1 / 2 : ℝ), (1 / 2 : ℝ)) := by
  have hs : realLibm.sin 0 = 0 := Real.sin_zero
  have hc : realLibm.cos 0 = 1 := Real.cos_zero
  have h1 : roundDouble ((1 / 2 : ℝ) * 1) = .ok (1 / 2) :=
    roundDouble_half _ _ 1 (by norm_num) (by norm_num) (by norm_num)
  have h2 : roundDouble ((0 : ℝ) + 1 / 2) = .ok (1 / 2) :=
    roundDouble_half _ _ 1 (by norm_num) (by norm_num) (by norm_num)
  have h3 : roundDouble ((1 / 2 : ℝ) * 0) = .ok 0 :=
    roundDouble_half _ _ 0 (by norm_num) (by norm_num) (by norm_num)
  have h4 : roundDouble ((1 / 2 : ℝ) - 0) = .ok (1 / 2) :=
    roundDouble_half _ _ 1 (by norm_num) (by norm_num) (by norm_num)
  have h5 : roundDouble ((0 : ℝ) + 0) = .ok 0 :=
    roundDouble_half _ _ 0 (by norm_num) (by norm_num) (by norm_num)
  unfold worldPointM
  simp only [Particle.new, hs, hc]
  rw [h1, ok_bind, h2, ok_bind, h3, ok_bind, h4, ok_bind, ok_bind, h5, ok_bind, ok_bind, h2,
    ok_bind]
  rfl

/-- On the index of four absent cells the observation `(1/2, 1/2)` of the particle at the
origin finds no landmark, in machine arithmetic. -/
theorem emptyGrid_unmatchedM :
    matchOfM realLibm emptyGrid (Particle.new 0 0 0 0 1) { x := 1 / 2, y := 1 / 2 } =
      .ok none := by
  have hcoord : cellCoordinate roundDouble (1 / 2 : ℝ) 0 1 = .ok 0 :=
    cellCoordinate_eval roundDouble _ _ _ (1 / 2) (1 / 2) 0 (by norm_num)
      (roundDouble_half _ _ 1 (by norm_num) (by norm_num) (by norm_num))
      (roundDouble_half _ _ 1 (by norm_num) (by norm_num) (by norm_num))
      (by norm_num [toInt]) (by norm_num)
  have hcol : emptyGrid.column (1 / 2) = 0 := by
    norm_num [Partition2D.column, emptyGrid, toInt]
  have hrow : emptyGrid.row (1 / 2) = 0 := by
    norm_num [Partition2D.row, emptyGrid, toInt]
  have hfind : findNearestM realLibm emptyGrid (1 / 2) (1 / 2) =
      .ok (findNearest realLibm emptyGrid (1 / 2) (1 / 2)) :=
    findNearestM_of_exact realLibm emptyGrid (1 / 2) (1 / 2)
      (by rw [hcol]; exact hcoord) (by rw [hrow]; exact hcoord)
      (by rw [hcol]; norm_num) (by rw [hrow]; norm_num)
  unfold matchOfM
  have hw := origin_worldPoint
  simp only [Particle.new] at hw ⊢
  rw [hw, ok_bind]
  dsimp only
  rw [hfind, ok_bind, findNearest_fst, emptyGrid_run.2]
  rfl

/-- The call of `updateWeights` on the filter of one particle at the origin with `33`
observations that find no landmark: it returns, and the weight is exactly zero. -/
theorem oneParticle_underflow :
    ∃ pf', (oneParticle 0).updateWeightsM realLibm 50 (3 / 10, 3 / 10) manyObservations
        emptyGrid = .ok pf' ∧
      (pf'.particles.length = 1 ∧ pf'.weights.length = 1) ∧
      (∀ q' ∈ pf'.particles, q'.weight = 0) ∧ (∀ w ∈ pf'.weights, w = 0) := by
  have hN : (oneParticle 0).num_particles.toNat = (oneParticle 0).particles.length := by
    rw [(oneParticle_particles 0).1, (oneParticle_particles 0).2]
    rfl
  have hnone : ∀ q ∈ (oneParticle 0).particles, ∀ o ∈ manyObservations,
      matchOfM realLibm emptyGrid q o = .ok none := by
    intro q hq o ho
    rw [(oneParticle_particles 0).1, List.mem_singleton] at hq
    rw [manyObservations] at ho
    rw [List.eq_of_mem_replicate ho, hq]
    exact emptyGrid_unmatchedM
  obtain ⟨pf', hrun, ⟨hlen, hwlen⟩, hw, hws⟩ := updateWeightsM_unmatched_returns realLibm
    (oneParticle 0) 50 (3 / 10, 3 / 10) manyObservations emptyGrid hN hnone
  have h33 : manyObservations.length = 33 := by simp [manyObservations]
  have hz : (floorProduct manyObservations.length : ℝ) = 0 := by
    rw [h33]
    exact floorProduct_underflow
  rw [hz] at hw hws
  rw [(oneParticle_particles 0).1] at hlen hwlen
  exact ⟨pf', hrun, ⟨hlen, hwlen⟩, hw, hws⟩

theorem oneParticle_count :
    (oneParticle 0).num_particles.toNat = (oneParticle 0).particles.length := by
  rw [(oneParticle_particles 0).1, (oneParticle_particles 0).2]
  rfl

theorem oneParticle_unmatched (observations : List (LandmarkObs ℝ))
    (h : ∀ o ∈ observations, o = { x := 1 / 2, y := 1 / 2 }) :
    ∀ q ∈ (oneParticle 0).particles, ∀ o ∈ observations,
      matchOfM realLibm emptyGrid q o = .ok none := by
  intro q hq o ho
  rw [(oneParticle_particles 0).1, List.mem_singleton] at hq
  rw [h o ho, hq]
  exact emptyGrid_unmatchedM

/-- Witness of C11: the filter of one particle at the origin and one observation that finds no
landmark on the index of four absent cells. -/
theorem updateWeightsM_unmatched_witness :
    (oneParticle 0).num_particles.toNat = (oneParticle 0).particles.length ∧
      (∀ q ∈ (oneParticle 0).particles,
        ∀ o ∈ ([{ x := 1 / 2, y := 1 / 2 }] : List (LandmarkObs ℝ)),
          matchOfM realLibm emptyGrid q o = .ok none) ∧
      ∃ pf', (oneParticle 0).updateWeightsM realLibm 50 (3 / 10, 3 / 10)
          [{ x := 1 / 2, y := 1 / 2 }] emptyGrid = .ok pf' ∧
        ∃ q', pf'.particles[0]? = some q' ∧
          q'.weight = floorProduct ([{ x := 1 / 2, y := 1 / 2 }] : List (LandmarkObs ℝ)).length ∧
          pf'.weights[0]? =
            some (floorProduct ([{ x := 1 / 2, y := 1 / 2 }] : List (LandmarkObs ℝ)).length) :=
  have hnone := oneParticle_unmatched [{ x := 1 / 2, y := 1 / 2 }]
    (fun o ho => List.mem_singleton.1 ho)
  have hthm := updateWeightsM_unmatched realLibm (oneParticle 0) 50 (3 / 10, 3 / 10)
    [{ x := 1 / 2, y := 1 / 2 }] emptyGrid oneParticle_count
  have hrun := hthm.2.1 hnone
  ⟨oneParticle_count, hnone, hrun.choose, hrun.choose_spec,
    hthm.1 hrun.choose hrun.choose_spec 0 (Particle.new 0 0 0 0 1)
      (by rw [(oneParticle_particles 0).1]; rfl)
      (fun o ho => hnone _ (by rw [(oneParticle_particles 0).1]; exact List.mem_singleton.2 rfl)
        o ho)⟩

/-- Counterexample to C11: for the particle at the origin every one of the `33` observations
fails to match a landmark of the index of four absent cells; `updateWeights` returns and the
weight of the particle is exactly `0`: it is neither the power `33` of `1e-10` nor the power
`33` of the `double` `1E-10`. -/
theorem updateWeightsM_unmatched_counterexample :
    (oneParticle 0).num_particles.toNat = (oneParticle 0).particles.length ∧
      manyObservations.length = 33 ∧
      (∀ q ∈ (oneParticle 0).particles, ∀ o ∈ manyObservations,
        matchOfM realLibm emptyGrid q o = .ok none) ∧
      ∃ pf', (oneParticle 0).updateWeightsM realLibm 50 (3 / 10, 3 / 10) manyObservations
          emptyGrid = .ok pf' ∧ pf'.particles.length = 1 ∧
        ∀ q' ∈ pf'.particles, q'.weight = 0 ∧
          q'.weight ≠ (1 / 10 ^ 10 : ℝ) ^ manyObservations.length ∧
          q'.weight ≠ (floorFactor : ℝ) ^ manyObservations.length := by
  have h33 : manyObservations.length = 33 := by simp [manyObservations]
  obtain ⟨pf', hrun, ⟨hlen, _⟩, hw, _⟩ := oneParticle_underflow
  refine ⟨oneParticle_count, h33,
    oneParticle_unmatched manyObservations (fun o ho => List.eq_of_mem_replicate ho), pf', hrun,
    hlen, ?_⟩
  intro q' hq'
  rw [hw q' hq', h33]
  refine ⟨rfl, ?_, ?_⟩
  · positivity
  · exact (pow_pos floorFactor_pos 33).ne

/-- Every factor of a list of observations is the factor of one of them. -/
theorem forall₂_factor {α : Type} (L : α → Except Fault K) (obs : List α) :
    ∀ factors : List K, List.Forall₂ (fun o p => L o = .ok p) obs factors →
      ∀ p ∈ factors, ∃ o ∈ obs, L o = .ok p := by
  induction obs with
  | nil =>
    intro factors hf p hp
    cases hf
    exact absurd hp (List.not_mem_nil p)
  | cons o obs ih =>
    intro factors hf p hp
    cases hf with
    | cons hp1 hf =>
      rename_i p1 factors
      rcases List.mem_cons.1 hp with rfl | hp'
      · exact ⟨o, List.mem_cons_self _ _, hp1⟩
      · obtain ⟨o', ho', hL⟩ := ih factors hf p hp'
        exact ⟨o', List.mem_cons_of_mem _ ho', hL⟩

/-! ## An observation far from its landmark -/

/-- A value between `2 ^ j` and `1` is rounded to a `double` between `2 ^ j` and `1`. -/
theorem roundDouble_between (q : K) (j : Int) (hj : -52 ≤ j) (hlo : (2 : K) ^ j ≤ q)
    (hhi : q ≤ 1) :
    roundDouble q = .ok (roundValue 53 (-1022) q) ∧
      ((2 : K) ^ j ≤ roundValue 53 (-1022) q ∧ roundValue 53 (-1022) q ≤ 1) := by
  have hq0 : (0 : K) < q := lt_of_lt_of_le (two_zpow_pos j) hlo
  have h53 : (1 : K) < 2 ^ (j + (53 : Nat)) := by
    have h2 : (2 : K) ^ (1 : Int) ≤ 2 ^ (j + (53 : Nat)) :=
      zpow_le_zpow_right₀ (by norm_num) (by push_cast; omega)
    have : (2 : K) ^ (1 : Int) = 2 := by norm_num
    linarith
  have hlow := le_roundValue_of_le (K := K) 53 (-1022) q 1 j
    (by rw [abs_of_pos hq0]; linarith) (by push_cast; omega) (by simpa using hlo)
  have hup := roundValue_le_of_le (K := K) 53 (-1022) q 1 0
    (by
      rw [abs_of_pos hq0]
      have : (1 : K) < 2 ^ ((0 : Int) + (53 : Nat)) := by norm_num
      linarith)
    (by norm_num) (by norm_num; exact hhi)
  have hlow2 : (2 : K) ^ j ≤ roundValue 53 (-1022) q := by simpa using hlow
  have hup2 : roundValue 53 (-1022) q ≤ 1 := by simpa using hup
  refine ⟨?_, hlow2, hup2⟩
  unfold roundDouble
  rw [roundBinary_of_lt]
  rw [abs_of_nonneg (le_trans (two_zpow_pos j).le hlow2)]
  have : (1 : K) < 2 ^ ((1023 : Int) + 1) := by
    have h2 : (2 : K) ^ (1 : Int) ≤ 2 ^ ((1023 : Int) + 1) :=
      zpow_le_zpow_right₀ (by norm_num) (by norm_num)
    have : (2 : K) ^ (1 : Int) = 2 := by norm_num
    linarith
  linarith

/-- The integers up to `2 ^ 53` in absolute value are values of `double`. -/
theorem roundDouble_int (q : K) (n : Int) (hq : q = n)
    (hn : -9007199254740992 < n ∧ n < 9007199254740992) : roundDouble q = .ok q := by
  apply roundDouble_grid q q n 0 rfl (by rw [hq]; simp) _ (by norm_num) (by norm_num)
  have h53 : (2 : K) ^ ((0 : Int) + 53) = 9007199254740992 := by norm_num
  rw [h53, hq, abs_lt]
  have h1 : ((-9007199254740992 : Int) : K) < n := by exact_mod_cast hn.1
  have h3 : (n : K) < ((9007199254740992 : Int) : K) := by exact_mod_cast hn.2
  push_cast at h1 h3
  constructor <;> linarith

/-- The index of one cell is what `initialize(0, 0, 64, 64, 64, 64)` builds. -/
theorem wideCell_built : InitializeM (0 : ℝ) 0 64 64 64 64 = .ok wideCell := by
  have h1 : roundFloat ((64 : ℝ) - 0) = .ok 64 := by
    simpa using roundFloat_int ((64 : ℝ) - 0) 64 (by norm_num) (by norm_num)
  have h2 : roundFloat ((64 : ℝ) / 64) = .ok 1 := by
    simpa using roundFloat_int ((64 : ℝ) / 64) 1 (by norm_num) (by norm_num)
  have h6 : roundDouble ((1 : ℝ) + 1 / 2) = .ok (3 / 2) :=
    roundDouble_half _ _ 3 (by norm_num) (by norm_num) (by norm_num)
  have hq : floatQuotient (0 : ℝ) 64 64 = .ok 1 := (floatQuotient_ok_iff _ _ _ _).2 ⟨_, h1, h2⟩
  have hl : levelSum (64 : ℝ) 64 = .ok (3 / 2) := (levelSum_ok_iff _ _ _).2 ⟨_, h2, h6⟩
  have hc : ⌈(1 : ℝ)⌉ = 1 := by simp
  have ht : toInt (3 / 2 : ℝ) = 1 := by norm_num [toInt]
  rw [InitializeM_ok_iff (0 : ℝ) 0 64 64 64 64 (by norm_num) (by norm_num)]
  refine ⟨_, _, _, hq, hq, hl, ?_, ?_, ?_, ?_, ?_⟩
  · rw [hc]; norm_num
  · rw [hc]; norm_num
  · rw [ht]; norm_num
  · rw [hc]; norm_num
  · rw [hc, ht]
    simp [wideCell]

/-- The insertion of the landmark at `(40, 0)` in the index of one cell. -/
theorem wideCell_filled : addPointObjectsM wideCell [farLandmark] = .ok wideCellFilled := by
  have hx : cellCoordinate roundFloat farLandmark.x wideCell.world_x0 wideCell.cell_size =
      .ok 0 :=
    cellCoordinate_eval roundFloat _ _ _ 40 (5 / 8) 0 (by norm_num [wideCell])
      (by
        simpa [wideCell, farLandmark] using
          roundFloat_int ((40 : ℝ) - 0) 40 (by norm_num) (by norm_num))
      (roundFloat_grid _ _ 5 (-3) (by norm_num [wideCell]) (by norm_num)
        (by norm_num [abs_lt]) (by norm_num) (by norm_num))
      (by norm_num [toInt]) (by norm_num)
  have hy : cellCoordinate roundFloat farLandmark.y wideCell.world_y0 wideCell.cell_size =
      .ok 0 :=
    cellCoordinate_eval roundFloat _ _ _ 0 0 0 (by norm_num [wideCell])
      (by
        simpa [wideCell, farLandmark] using
          roundFloat_int ((0 : ℝ) - 0) 0 (by norm_num) (by norm_num))
      (by simpa [wideCell] using roundFloat_int ((0 : ℝ) / 64) 0 (by norm_num) (by norm_num))
      (by norm_num [toInt]) (by norm_num)
  have hn : wideCell.cellIndexM 0 0 = .ok 0 := by
    unfold Partition2D.cellIndexM
    rw [intChecked_of_range _ (by norm_num [wideCell]), ok_bind,
      intChecked_of_range _ (by norm_num [wideCell])]
    norm_num [wideCell]
  have hA : addPointObjectM wideCell farLandmark = .ok wideCellFilled := by
    unfold addPointObjectM
    rw [hx, ok_bind, hy, ok_bind, hn, ok_bind, if_pos (by norm_num [wideCell])]
    simp [wideCell, wideCellFilled]
    rfl
  unfold addPointObjectsM
  rw [List.foldlM_cons, hA, ok_bind]
  rfl

/-- The query `findNearest(0, 0)` on the index of one cell returns the landmark at `(40, 0)`. -/
theorem wideCell_query :
    ∃ d n, findNearestM realLibm wideCellFilled 0 0 = .ok (some farLandmark, d, n) := by
  have hx : cellCoordinate roundDouble (0 : ℝ) wideCellFilled.world_x0
      wideCellFilled.cell_size = .ok 0 :=
    cellCoordinate_eval roundDouble _ _ _ 0 0 0 (by norm_num [wideCellFilled, wideCell])
      (roundDouble_grid _ _ 0 0 (by norm_num [wideCellFilled, wideCell]) (by norm_num)
        (by norm_num) (by norm_num) (by norm_num))
      (roundDouble_grid _ _ 0 0 (by norm_num [wideCellFilled, wideCell]) (by norm_num)
        (by norm_num) (by norm_num) (by norm_num))
      (by norm_num [toInt]) (by norm_num)
  have hy : cellCoordinate roundDouble (0 : ℝ) wideCellFilled.world_y0
      wideCellFilled.cell_size = .ok 0 := hx
  unfold findNearestM
  rw [hx, ok_bind, hy, ok_bind, intChecked_of_range _ (by norm_num), ok_bind, ok_bind]
  rw [searchLoop]
  norm_num [ringStep, scanWindow, intRange_zero_one, scanCell,
    Partition2D.cell, Partition2D.cellIndex, wideCellFilled, wideCell, scanObject, dist, square,
    farLandmark]
  rw [searchLoop]
  norm_num [pure, Except.pure]

/-- The exponential of `1280` is no finite `double`. -/
theorem exp_overflows : (2 : ℝ) ^ 1024 ≤ realLibm.exp 1280 := by
  have h1 : (2 : ℝ) ≤ Real.exp 1 := by
    have := Real.add_one_le_exp (1 : ℝ)
    linarith
  have h2 : Real.exp 1 ^ 1280 = Real.exp ((1280 : Nat) : ℝ) := Real.exp_one_pow 1280
  have h3 : ((1280 : Nat) : ℝ) = 1280 := by norm_cast
  have h4 : (2 : ℝ) ^ 1024 ≤ 2 ^ 1280 := pow_le_pow_right₀ (by norm_num) (by norm_num)
  have h5 : (2 : ℝ) ^ 1280 ≤ Real.exp 1 ^ 1280 := pow_le_pow_left₀ (by norm_num) h1 1280
  show (2 : ℝ) ^ 1024 ≤ Real.exp 1280
  rw [← h3, ← h2]
  exact le_trans h4 h5

/-- The factor `p` of the landmark at `(40, 0)` for the point `(0, 0)` and the standard
deviations `0.25`: the exponent is `1280`, `exp` overflows and `p` is `0`. -/
theorem farLandmark_density :
    densityM realLibm (1 / 4, 1 / 4) 0 0 farLandmark = .ok 0 := by
  have hpi3 : (3 : ℝ) < realLibm.M_PI := Real.pi_gt_three
  have hpi4 : realLibm.M_PI ≤ (4 : ℝ) := Real.pi_le_four
  have h1 : roundDouble ((0 : ℝ) - farLandmark.x) = .ok (-40) := by
    have := roundDouble_int ((0 : ℝ) - 40) (-40) (by norm_num) (by norm_num)
    simpa [farLandmark] using this
  have h2 : roundDouble ((0 : ℝ) - farLandmark.y) = .ok 0 := by
    have := roundDouble_int ((0 : ℝ) - 0) 0 (by norm_num) (by norm_num)
    simpa [farLandmark] using this
  have h3 : divDouble (-40 : ℝ) ((1 / 4, 1 / 4) : ℝ × ℝ).1 = .ok (-160) := by
    unfold divDouble
    rw [if_neg (by norm_num)]
    have := roundDouble_int ((-40 : ℝ) / (1 / 4)) (-160) (by norm_num) (by norm_num)
    rw [this]
    norm_num
  have h4 : roundDouble (square (-160 : ℝ)) = .ok 25600 := by
    have := roundDouble_int (square (-160 : ℝ)) 25600 (by norm_num [square]) (by norm_num)
    rw [this]
    norm_num [square]
  have h5 : divDouble (0 : ℝ) ((1 / 4, 1 / 4) : ℝ × ℝ).2 = .ok 0 := by
    unfold divDouble
    rw [if_neg (by norm_num)]
    have := roundDouble_int ((0 : ℝ) / (1 / 4)) 0 (by norm_num) (by norm_num)
    rw [this]
    norm_num
  have h6 : roundDouble (square (0 : ℝ)) = .ok 0 := by
    have := roundDouble_int (square (0 : ℝ)) 0 (by norm_num [square]) (by norm_num)
    rw [this]
    norm_num [square]
  have h7 : roundDouble ((25600 : ℝ) + 0) = .ok 25600 := by
    have := roundDouble_int ((25600 : ℝ) + 0) 25600 (by norm_num) (by norm_num)
    rw [this]
    norm_num
  have h8 : roundDouble ((25600 : ℝ) / 20) = .ok 1280 := by
    have := roundDouble_int ((25600 : ℝ) / 20) 1280 (by norm_num) (by norm_num)
    rw [this]
    norm_num
  obtain ⟨h9, h9lo, h9hi⟩ := roundDouble_between (realLibm.M_PI * ((1 / 4, 1 / 4) : ℝ × ℝ).1)
    (-3) (by norm_num) (by norm_num; linarith) (by norm_num; linarith)
  have h9pos : (0 : ℝ) < roundValue 53 (-1022) (realLibm.M_PI * ((1 / 4, 1 / 4) : ℝ × ℝ).1) :=
    lt_of_lt_of_le (two_zpow_pos _) h9lo
  obtain ⟨h10, h10lo, h10hi⟩ := roundDouble_between
    (roundValue 53 (-1022) (realLibm.M_PI * ((1 / 4, 1 / 4) : ℝ × ℝ).1) *
      ((1 / 4, 1 / 4) : ℝ × ℝ).2) (-5) (by norm_num)
    (by
      have h : (2 : ℝ) ^ (-5 : Int) = 2 ^ (-3 : Int) * (1 / 4) := by norm_num
      rw [h]
      exact mul_le_mul_of_nonneg_right h9lo (by norm_num))
    (by
      have : (0 : ℝ) ≤ ((1 / 4, 1 / 4) : ℝ × ℝ).2 ∧ ((1 / 4, 1 / 4) : ℝ × ℝ).2 ≤ 1 := by norm_num
      calc _ ≤ (1 : ℝ) * 1 := mul_le_mul h9hi this.2 this.1 zero_le_one
        _ = 1 := one_mul 1)
  have h10pos := lt_of_lt_of_le (two_zpow_pos (K := ℝ) (-5)) h10lo
  unfold densityM
  rw [h1, ok_bind, h2, ok_bind, h3, ok_bind, h4, ok_bind, h5, ok_bind, h6, ok_bind, h7, ok_bind,
    h8, ok_bind, h9, ok_bind, h10, ok_bind]
  unfold denominatorM
  rw [if_pos ⟨h10pos, Real.exp_pos _⟩, if_neg (fun h => absurd h.1 (not_lt.2 exp_overflows)),
    ok_bind]
  rfl

/-- The world point of the observation `(0, 0)` of the particle at the origin. -/
theorem origin_worldPoint_zero :
    worldPointM (realLibm.sin 0) (realLibm.cos 0) (Particle.new 0 0 0 0 1)
      { x := 0, y := 0 } = .ok ((0 : ℝ), (0 : ℝ)) := by
  have hs : realLibm.sin 0 = 0 := Real.sin_zero
  have hc : realLibm.cos 0 = 1 := Real.cos_zero
  have h1 : roundDouble ((0 : ℝ) * 1) = .ok 0 :=
    roundDouble_half _ _ 0 (by norm_num) (by norm_num) (by norm_num)
  have h2 : roundDouble ((0 : ℝ) + 0) = .ok 0 :=
    roundDouble_half _ _ 0 (by norm_num) (by norm_num) (by norm_num)
  have h3 : roundDouble ((0 : ℝ) * 0) = .ok 0 :=
    roundDouble_half _ _ 0 (by norm_num) (by norm_num) (by norm_num)
  have h4 : roundDouble ((0 : ℝ) - 0) = .ok 0 :=
    roundDouble_half _ _ 0 (by norm_num) (by norm_num) (by norm_num)
  unfold worldPointM
  simp only [Particle.new, hs, hc]
  simp only [h1, h2, h3, h4, ok_bind]
  rfl

/-- The observation `(0, 0)` of the particle at the origin is matched with the landmark at
`(40, 0)` of the index of one cell, and its factor is `0`. -/
theorem farLandmark_likelihood :
    matchOfM realLibm wideCellFilled (Particle.new 0 0 0 0 1) { x := 0, y := 0 } =
        .ok (some farLandmark) ∧
      likelihoodM realLibm (1 / 4, 1 / 4) wideCellFilled (Particle.new 0 0 0 0 1)
        { x := 0, y := 0 } = .ok 0 := by
  obtain ⟨d, n, hfind⟩ := wideCell_query
  have hw := origin_worldPoint_zero
  constructor
  · unfold matchOfM
    simp only [Particle.new] at hw ⊢
    rw [hw, ok_bind]
    dsimp only
    rw [hfind, ok_bind]
    rfl
  · unfold likelihoodM
    simp only [Particle.new] at hw ⊢
    rw [hw, ok_bind]
    dsimp only
    rw [hfind, ok_bind]
    exact farLandmark_density

/-- The product of the single factor `0` in `double`. -/
theorem weightProductM_zero : weightProductM [(0 : ℝ)] = .ok 0 := by
  have h : roundDouble ((1 : ℝ) * 0) = .ok 0 :=
    roundDouble_half _ _ 0 (by norm_num) (by norm_num) (by norm_num)
  unfold weightProductM
  rw [List.foldlM_cons, h, ok_bind]
  rfl

/-- The call of `updateWeights` on the filter of one particle at the origin with the single
observation `(0, 0)`, the index of one cell and the standard deviations `0.25`: it returns, and
the weight is `0`. -/
theorem oneParticle_overflow :
    ∃ pf', (oneParticle 0).updateWeightsM realLibm 50 (1 / 4, 1 / 4) [{ x := 0, y := 0 }]
        wideCellFilled = .ok pf' ∧
      (pf'.particles.length = 1 ∧ pf'.weights.length = 1) ∧
      (∀ q' ∈ pf'.particles, q'.weight = 0) ∧ (∀ w ∈ pf'.weights, w = 0) := by
  have hps := (oneParticle_particles 0).1
  have hall : ∀ q ∈ (oneParticle 0).particles, ∃ factors w,
      List.Forall₂
        (fun o p => likelihoodM realLibm (1 / 4, 1 / 4) wideCellFilled q o = .ok p)
        [{ x := 0, y := 0 }] factors ∧ weightProductM factors = .ok w := by
    intro q hq
    rw [hps, List.mem_singleton] at hq
    rw [hq]
    exact ⟨[0], 0, List.Forall₂.cons farLandmark_likelihood.2 List.Forall₂.nil,
      weightProductM_zero⟩
  obtain ⟨pf', hrun⟩ := updateWeightsM_returns realLibm (oneParticle 0) 50 (1 / 4, 1 / 4)
    [{ x := 0, y := 0 }] wideCellFilled oneParticle_count hall
  obtain ⟨hlen, hwlen, hw⟩ := updateWeightsM_weights realLibm (oneParticle 0) 50 (1 / 4, 1 / 4)
    [{ x := 0, y := 0 }] wideCellFilled oneParticle_count pf' hrun
  rw [hps] at hlen hwlen hw
  have hlen1 : pf'.particles.length = 1 := hlen
  have hwlen1 : pf'.weights.length = 1 := hwlen
  obtain ⟨q, q', factors, hq, hq', hf, hprod, hwt⟩ := hw 0 (by simp)
  have hq0 : q = Particle.new 0 0 0 0 1 := by
    simp at hq
    exact hq.symm
  have hzero : q'.weight = 0 := by
    rw [hq0] at hf
    cases hf with
    | cons h1 h2 =>
      cases h2
      rw [farLandmark_likelihood.2] at h1
      injection h1 with h1
      rw [← h1, weightProductM_zero] at hprod
      injection hprod with hprod
      exact hprod.symm
  refine ⟨pf', hrun, ⟨hlen1, hwlen1⟩, ?_, ?_⟩
  · intro r hr
    obtain ⟨i, hi⟩ := List.mem_iff_getElem?.1 hr
    have hi0 : i = 0 := by
      have := (List.getElem?_eq_some_iff.1 hi).1
      omega
    rw [hi0, hq'] at hi
    injection hi with hi
    rw [← hi]
    exact hzero
  · intro w hw'
    obtain ⟨i, hi⟩ := List.mem_iff_getElem?.1 hw'
    have hi0 : i = 0 := by
      have := (List.getElem?_eq_some_iff.1 hi).1
      omega
    rw [hi0, hwt] at hi
    injection hi with hi
    rw [← hi]
    exact hzero

/-- The likelihood of the specification is positive. -/
theorem specLikelihood_pos (m : Libm K) (hpi : 0 < m.M_PI) (hexp : ∀ a, 0 < m.exp a)
    (std_landmark : K × K) (hsx : 0 < std_landmark.1) (hsy : 0 < std_landmark.2)
    (partition : Partition2D K) (q : Particle K) (o : LandmarkObs K) :
    0 < specLikelihood m std_landmark partition q o := by
  unfold specLikelihood
  dsimp only
  split
  · exact mul_pos (div_pos one_pos (mul_pos (mul_pos (mul_pos (by norm_num) hpi) hsx) hsy))
      (hexp _)
  · positivity

/-- C23, as the code has it: on a filter whose particle sequence has `num_particles` entries,
with standard deviations `sx > 0` and `sy > 0` (and `M_PI` positive and `exp` positive on
arguments that are not negative), when `updateWeights` returns in machine arithmetic the weight
of every particle and every entry of the weight sequence is at least `0`; the call returns when
every particle has finite factors whose product in `double` does not overflow. A weight can be
exactly `0`: the product of `33` factors `1E-10` is, and so is a factor whose `exp` overflows. -/
theorem updateWeightsM_nonneg (m : Libm K) (hpi : 0 < m.M_PI)
    (hexp : ∀ a, 0 ≤ a → 0 < m.exp a)
    (pf : ParticleFilter K) (sensor_range : K) (std_landmark : K × K)
    (hsx : 0 < std_landmark.1) (hsy : 0 < std_landmark.2)
    (observations : List (LandmarkObs K)) (partition : Partition2D K)
    (hN : pf.num_particles.toNat = pf.particles.length) :
    (∀ pf', pf.updateWeightsM m sensor_range std_landmark observations partition = .ok pf' →
      (∀ q' ∈ pf'.particles, 0 ≤ q'.weight) ∧ (∀ w ∈ pf'.weights, 0 ≤ w)) ∧
    ((∀ q ∈ pf.particles, ∃ factors w,
        List.Forall₂ (fun o p => likelihoodM m std_landmark partition q o = .ok p)
          observations factors ∧ weightProductM factors = .ok w) →
      ∃ pf', pf.updateWeightsM m sensor_range std_landmark observations partition = .ok pf') := by
  refine ⟨?_, updateWeightsM_returns m pf sensor_range std_landmark observations partition hN⟩
  intro pf' hrun
  obtain ⟨hlen, hwlen, hw⟩ :=
    updateWeightsM_weights m pf sensor_range std_landmark observations partition hN pf' hrun
  have hpos : ∀ i, i < pf.particles.length → ∃ q', pf'.particles[i]? = some q' ∧
      pf'.weights[i]? = some q'.weight ∧ 0 ≤ q'.weight := by
    intro i hi
    obtain ⟨q, q', factors, hq, hq', hf, hprod, hwt⟩ := hw i hi
    refine ⟨q', hq', hwt, ?_⟩
    have hfac : ∀ p ∈ factors, 0 ≤ p := by
      intro p hp
      obtain ⟨o, _, ho⟩ := forall₂_factor _ observations factors hf p hp
      exact likelihoodM_nonneg m hpi.le (fun a ha => (hexp a ha).le) std_landmark hsx.le hsy.le
        partition q o p ho
    exact foldlM_product_nonneg factors 1 q'.weight zero_le_one hfac hprod
  constructor
  · intro q' hq'
    obtain ⟨i, hi⟩ := List.mem_iff_getElem?.1 hq'
    have hlt : i < pf.particles.length := by
      rw [← hlen]
      exact (List.getElem?_eq_some.1 hi).1
    obtain ⟨q1, hq1, _, h0⟩ := hpos i hlt
    rw [hi] at hq1
    injection hq1 with hq1
    rw [hq1]
    exact h0
  · intro w hw'
    obtain ⟨i, hi⟩ := List.mem_iff_getElem?.1 hw'
    have hlt : i < pf.particles.length := by
      rw [← hwlen]
      exact (List.getElem?_eq_some.1 hi).1
    obtain ⟨q1, _, hw1, h0⟩ := hpos i hlt
    rw [hi] at hw1
    injection hw1 with hw1
    rw [hw1]
    exact h0

/-- Witness of C23: the filter of one particle at the origin, one observation, the index of
four absent cells and the standard deviations `0.3`. -/
theorem updateWeightsM_nonneg_witness :
    (0 < realLibm.M_PI ∧ (∀ a, 0 ≤ a → 0 < realLibm.exp a)) ∧
      ((0 : ℝ) < ((3 / 10, 3 / 10) : ℝ × ℝ).1 ∧ (0 : ℝ) < ((3 / 10, 3 / 10) : ℝ × ℝ).2) ∧
      (oneParticle 0).num_particles.toNat = (oneParticle 0).particles.length ∧
      ∃ pf', (oneParticle 0).updateWeightsM realLibm 50 (3 / 10, 3 / 10)
          [{ x := 1 / 2, y := 1 / 2 }] emptyGrid = .ok pf' ∧
        (∀ q' ∈ pf'.particles, 0 ≤ q'.weight) ∧ (∀ w ∈ pf'.weights, 0 ≤ w) :=
  have hpi : 0 < realLibm.M_PI := Real.pi_pos
  have hexp : ∀ a, 0 ≤ a → 0 < realLibm.exp a := fun a _ => Real.exp_pos a
  have hsx : (0 : ℝ) < ((3 / 10, 3 / 10) : ℝ × ℝ).1 := by norm_num
  have hsy : (0 : ℝ) < ((3 / 10, 3 / 10) : ℝ × ℝ).2 := by norm_num
  have hthm := updateWeightsM_nonneg realLibm hpi hexp (oneParticle 0) 50 (3 / 10, 3 / 10)
    hsx hsy [{ x := 1 / 2, y := 1 / 2 }] emptyGrid oneParticle_count
  have hrun := updateWeightsM_unmatched_returns realLibm (oneParticle 0) 50 (3 / 10, 3 / 10)
    [{ x := 1 / 2, y := 1 / 2 }] emptyGrid oneParticle_count
    (oneParticle_unmatched [{ x := 1 / 2, y := 1 / 2 }] (fun o ho => List.mem_singleton.1 ho))
  ⟨⟨hpi, hexp⟩, ⟨hsx, hsy⟩, oneParticle_count, hrun.choose, hrun.choose_spec.1,
    hthm.1 hrun.choose hrun.choose_spec.1⟩

/-- Counterexample to C23, twice. With the standard deviations `0.3` and `33` observations
that find no landmark, `updateWeights` returns, the weight of the particle is exactly `0`, not
strictly positive, and the weight sequence handed to `resample` is `[0]`: the product of the
factors `1E-10` underflows. With the standard deviations `0.25` and a single observation that
is matched with a landmark `40` metres away, on the index that `initialize(0, 0, 64, 64, 64, 64)`
and the insertion of the landmark build, the exponent is `1280`, `exp` overflows, the factor is
`0.5 / +inf = 0`, and again the weight is `0` and the weight sequence is `[0]`. -/
theorem updateWeightsM_zero_counterexample :
    (((0 : ℝ) < ((3 / 10, 3 / 10) : ℝ × ℝ).1 ∧ (0 : ℝ) < ((3 / 10, 3 / 10) : ℝ × ℝ).2) ∧
      (oneParticle 0).num_particles.toNat = (oneParticle 0).particles.length ∧
      ∃ pf', (oneParticle 0).updateWeightsM realLibm 50 (3 / 10, 3 / 10) manyObservations
          emptyGrid = .ok pf' ∧ pf'.particles.length = 1 ∧
        (∀ q' ∈ pf'.particles, q'.weight = 0 ∧ ¬ 0 < q'.weight) ∧ pf'.weights = [0]) ∧
    (((0 : ℝ) < ((1 / 4, 1 / 4) : ℝ × ℝ).1 ∧ (0 : ℝ) < ((1 / 4, 1 / 4) : ℝ × ℝ).2) ∧
      InitializeM (0 : ℝ) 0 64 64 64 64 = .ok wideCell ∧
      addPointObjectsM wideCell [farLandmark] = .ok wideCellFilled ∧
      (∀ q ∈ (oneParticle 0).particles,
        matchOfM realLibm wideCellFilled q { x := 0, y := 0 } = .ok (some farLandmark)) ∧
      ∃ pf', (oneParticle 0).updateWeightsM realLibm 50 (1 / 4, 1 / 4) [{ x := 0, y := 0 }]
          wideCellFilled = .ok pf' ∧ pf'.particles.length = 1 ∧
        (∀ q' ∈ pf'.particles, q'.weight = 0 ∧ ¬ 0 < q'.weight) ∧ pf'.weights = [0]) := by
  have hlist : ∀ ws : List ℝ, ws.length = 1 → (∀ w ∈ ws, w = 0) → ws = [0] := by
    intro ws hlen hall
    match ws, hlen, hall with
    | [w], _, hall => rw [hall w (List.mem_singleton.2 rfl)]
  constructor
  · obtain ⟨pf', hrun, ⟨hlen, hwlen⟩, hw, hws⟩ := oneParticle_underflow
    refine ⟨by norm_num, oneParticle_count, pf', hrun, hlen, ?_, hlist _ hwlen hws⟩
    intro q' hq'
    rw [hw q' hq']
    exact ⟨rfl, lt_irrefl 0⟩
  · obtain ⟨pf', hrun, ⟨hlen, hwlen⟩, hw, hws⟩ := oneParticle_overflow
    refine ⟨by norm_num, wideCell_built, wideCell_filled, ?_, pf', hrun, hlen, ?_,
      hlist _ hwlen hws⟩
    · intro q hq
      rw [(oneParticle_particles 0).1, List.mem_singleton] at hq
      rw [hq]
      exact farLandmark_likelihood.1
    · intro q' hq'
      rw [hw q' hq']
      exact ⟨rfl, lt_irrefl 0⟩

/-- The factor of the code and the likelihood of the specification agree in exact arithmetic,
for an exponential with `exp (-a) = 1 / exp a`. -/
theorem density_identity (m : Libm K) (hexp : ∀ a, m.exp (-a) = (m.exp a)⁻¹) (sx sy dx dy : K) :
    (1 / 2) / (m.M_PI * sx * sy * m.exp ((square (dx / sx) + square (dy / sy)) / 20)) =
      1 / (2 * m.M_PI * sx * sy) * m.exp (-((dx / sx) ^ 2 + (dy / sy) ^ 2) / 20) := by
  have hneg : -((dx / sx) ^ 2 + (dy / sy) ^ 2) / 20 =
      -((square (dx / sx) + square (dy / sy)) / 20) := by
    unfold square
    ring
  rw [hneg, hexp]
  simp only [one_div, div_eq_mul_inv, mul_inv]
  ring

/-- C10, as the code has it: on a filter whose particle sequence has `num_particles` entries,
when `updateWeights` returns in machine arithmetic every observation of every particle has a
finite factor (the `double` value of `0.5 / (M_PI * sx * sy * exp(((dx / sx)^2 + (dy / sy)^2) /
20))` for the landmark that `findNearest` returns, which is `0` when `exp` or the denominator
overflows, and the `double` `1E-10` when `findNearest` returns none),
and the weight of the particle is the product of the factors in the order of the observations,
formed from `1.` and rounded to `double` after every multiplication; the call returns when every
particle has finite factors whose rounded product does not overflow; and in exact arithmetic
the factor of a matched observation is `1 / (2 π sx sy) * exp (-((dx / sx)^2 + (dy / sy)^2) /
20)`. -/
theorem updateWeightsM_weight_formula (m : Libm K) (pf : ParticleFilter K) (sensor_range : K)
    (std_landmark : K × K) (observations : List (LandmarkObs K)) (partition : Partition2D K)
    (hN : pf.num_particles.toNat = pf.particles.length) :
    (∀ pf', pf.updateWeightsM m sensor_range std_landmark observations partition = .ok pf' →
      pf'.particles.length = pf.particles.length ∧
      ∀ i, i < pf.particles.length → ∃ q q' factors, pf.particles[i]? = some q ∧
        pf'.particles[i]? = some q' ∧
        List.Forall₂ (fun o p => likelihoodM m std_landmark partition q o = .ok p)
          observations factors ∧
        weightProductM factors = .ok q'.weight) ∧
    ((∀ q ∈ pf.particles, ∃ factors w,
        List.Forall₂ (fun o p => likelihoodM m std_landmark partition q o = .ok p)
          observations factors ∧ weightProductM factors = .ok w) →
      ∃ pf', pf.updateWeightsM m sensor_range std_landmark observations partition = .ok pf') ∧
    ((∀ a, m.exp (-a) = (m.exp a)⁻¹) → ∀ dx dy : K,
      (1 / 2) / (m.M_PI * std_landmark.1 * std_landmark.2 *
          m.exp ((square (dx / std_landmark.1) + square (dy / std_landmark.2)) / 20)) =
        1 / (2 * m.M_PI * std_landmark.1 * std_landmark.2) *
          m.exp (-((dx / std_landmark.1) ^ 2 + (dy / std_landmark.2) ^ 2) / 20)) := by
  refine ⟨?_, updateWeightsM_returns m pf sensor_range std_landmark observations partition hN,
    fun hexp dx dy => density_identity m hexp _ _ dx dy⟩
  intro pf' hrun
  obtain ⟨hlen, _, hw⟩ :=
    updateWeightsM_weights m pf sensor_range std_landmark observations partition hN pf' hrun
  refine ⟨hlen, ?_⟩
  intro i hi
  obtain ⟨q, q', factors, hq, hq', hf, hprod, _⟩ := hw i hi
  exact ⟨q, q', factors, hq, hq', hf, hprod⟩

/-- Witness of C10: the filter of one particle at the origin, one observation, the index of
four absent cells. -/
theorem updateWeightsM_weight_formula_witness :
    (oneParticle 0).num_particles.toNat = (oneParticle 0).particles.length ∧
      ∃ pf', (oneParticle 0).updateWeightsM realLibm 50 (3 / 10, 3 / 10)
          [{ x := 1 / 2, y := 1 / 2 }] emptyGrid = .ok pf' ∧
        pf'.particles.length = (oneParticle 0).particles.length ∧
        ∀ i, i < (oneParticle 0).particles.length → ∃ q q' factors,
          (oneParticle 0).particles[i]? = some q ∧ pf'.particles[i]? = some q' ∧
          List.Forall₂
            (fun o p => likelihoodM realLibm (3 / 10, 3 / 10) emptyGrid q o = .ok p)
            [{ x := 1 / 2, y := 1 / 2 }] factors ∧
          weightProductM factors = .ok q'.weight :=
  have hthm := updateWeightsM_weight_formula realLibm (oneParticle 0) 50 (3 / 10, 3 / 10)
    [{ x := 1 / 2, y := 1 / 2 }] emptyGrid oneParticle_count
  have hrun := updateWeightsM_unmatched_returns realLibm (oneParticle 0) 50 (3 / 10, 3 / 10)
    [{ x := 1 / 2, y := 1 / 2 }] emptyGrid oneParticle_count
    (oneParticle_unmatched [{ x := 1 / 2, y := 1 / 2 }] (fun o ho => List.mem_singleton.1 ho))
  ⟨oneParticle_count, hrun.choose, hrun.choose_spec.1,
    hthm.1 hrun.choose hrun.choose_spec.1⟩

/-- The likelihood of the specification for an observation at `(1/2, 1/2)` of the particle at
the origin, on the index of four absent cells: the floor `1e-10`. -/
theorem emptyGrid_specLikelihood :
    specLikelihood realLibm (3 / 10, 3 / 10) emptyGrid (Particle.new 0 0 0 0 1)
      { x := 1 / 2, y := 1 / 2 } = 1 / 10 ^ 10 := by
  have hs : realLibm.sin 0 = 0 := Real.sin_zero
  have hc : realLibm.cos 0 = 1 := Real.cos_zero
  have hx : (0 : ℝ) + 1 / 2 * 1 - 1 / 2 * 0 = 1 / 2 := by norm_num
  have hy : (0 : ℝ) + 1 / 2 * 0 + 1 / 2 * 1 = 1 / 2 := by norm_num
  unfold specLikelihood
  simp only [Particle.new, hs, hc, hx, hy]
  rw [findNearest_fst, emptyGrid_run.2]

/-- Counterexample to C10, twice. For the particle at the origin and `33` observations that
find no landmark, the product of the likelihoods of the claim is `(1e-10)^33`, which is not
zero, and `updateWeights` returns with the weight exactly `0`. For the same particle, the
standard deviations `0.25` and a single observation that is matched with a landmark `40` metres
away, the likelihood of the claim is positive, and `updateWeights` returns with the weight
exactly `0`: the exponent is `1280` and `exp` overflows. -/
theorem updateWeightsM_product_counterexample :
    ((oneParticle 0).num_particles.toNat = (oneParticle 0).particles.length ∧
      (∀ q ∈ (oneParticle 0).particles,
        (manyObservations.map (specLikelihood realLibm (3 / 10, 3 / 10) emptyGrid q)).prod =
          (1 / 10 ^ 10) ^ 33) ∧
      ∃ pf', (oneParticle 0).updateWeightsM realLibm 50 (3 / 10, 3 / 10) manyObservations
          emptyGrid = .ok pf' ∧ pf'.particles.length = 1 ∧
        ∀ q' ∈ pf'.particles, q'.weight = 0 ∧
          ∀ q ∈ (oneParticle 0).particles, q'.weight ≠
            (manyObservations.map
              (specLikelihood realLibm (3 / 10, 3 / 10) emptyGrid q)).prod) ∧
    ((∀ q ∈ (oneParticle 0).particles,
        matchOfM realLibm wideCellFilled q { x := 0, y := 0 } = .ok (some farLandmark) ∧
        0 < ([{ x := 0, y := 0 }].map
          (specLikelihood realLibm (1 / 4, 1 / 4) wideCellFilled q)).prod) ∧
      ∃ pf', (oneParticle 0).updateWeightsM realLibm 50 (1 / 4, 1 / 4) [{ x := 0, y := 0 }]
          wideCellFilled = .ok pf' ∧ pf'.particles.length = 1 ∧
        ∀ q' ∈ pf'.particles, q'.weight = 0 ∧
          ∀ q ∈ (oneParticle 0).particles, q'.weight ≠
            ([{ x := 0, y := 0 }].map
              (specLikelihood realLibm (1 / 4, 1 / 4) wideCellFilled q)).prod) := by
  have hprod : ∀ q ∈ (oneParticle 0).particles,
      (manyObservations.map (specLikelihood realLibm (3 / 10, 3 / 10) emptyGrid q)).prod =
        (1 / 10 ^ 10 : ℝ) ^ 33 := by
    intro q hq
    rw [(oneParticle_particles 0).1, List.mem_singleton] at hq
    rw [hq, manyObservations, List.map_replicate, List.prod_replicate, emptyGrid_specLikelihood]
  have hpos : ∀ q : Particle ℝ,
      0 < ([{ x := 0, y := 0 }].map
        (specLikelihood realLibm (1 / 4, 1 / 4) wideCellFilled q)).prod := by
    intro q
    rw [List.map_cons, List.map_nil, List.prod_cons, List.prod_nil, mul_one]
    exact specLikelihood_pos realLibm Real.pi_pos Real.exp_pos (1 / 4, 1 / 4) (by norm_num)
      (by norm_num) wideCellFilled q _
  constructor
  · obtain ⟨pf', hrun, ⟨hlen, _⟩, hw, _⟩ := oneParticle_underflow
    refine ⟨oneParticle_count, hprod, pf', hrun, hlen, ?_⟩
    intro q' hq'
    refine ⟨hw q' hq', ?_⟩
    intro q hq
    rw [hw q' hq', hprod q hq]
    positivity
  · obtain ⟨pf', hrun, ⟨hlen, _⟩, hw, _⟩ := oneParticle_overflow
    refine ⟨?_, pf', hrun, hlen, ?_⟩
    · intro q hq
      refine ⟨?_, hpos q⟩
      rw [(oneParticle_particles 0).1, List.mem_singleton] at hq
      rw [hq]
      exact farLandmark_likelihood.1
    · intro q' hq'
      refine ⟨hw q' hq', ?_⟩
      intro q hq
      rw [hw q' hq']
      exact (hpos q).ne

end Theorems

end KidnappedVehicle
